import Mathlib

/-!
# uNvEncoder: the encode session and the frame encoder

A shallow embedding of `Nvenc.cpp` and `Encoder.cpp`.

* The hardware backend, the graphics device and the operating system are
  external: every call made to them is appended to a call log, and what the
  call answers is read from a `Backend` oracle at the call's position in the
  log. An oracle is arbitrary, so a theorem quantified over it covers every
  behaviour of the collaborators.
* C++ exceptions keep the mutations made before the throw: an operation is a
  function from the state to an outcome together with the state it leaves.
* `fprintf` tracing to stdout is left out.
-/

namespace uNvEncoder

/-! ## Outcomes and the effect type -/

/-- What running an operation gives: a value, a C++ exception carrying `what`,
or undefined behaviour (a null `unique_ptr` is dereferenced). -/
inductive Outcome (α : Type) where
  | ok (a : α)
  | thrown (what : String)
  | undefined
  deriving DecidableEq, Repr

/-- An operation over a state `σ`: the outcome and the state left behind,
which is kept when the operation throws. -/
def Eff (σ α : Type) : Type := σ → Outcome α × σ

def Eff.pure {σ α : Type} (a : α) : Eff σ α := fun s => (Outcome.ok a, s)

def Eff.bind {σ α β : Type} (m : Eff σ α) (f : α → Eff σ β) : Eff σ β := fun s =>
  match m s with
  | (Outcome.ok a, s1) => f a s1
  | (Outcome.thrown e, s1) => (Outcome.thrown e, s1)
  | (Outcome.undefined, s1) => (Outcome.undefined, s1)

instance (σ : Type) : Monad (Eff σ) where
  pure := Eff.pure
  bind := Eff.bind

/-- Modelled from the spec: `ThrowError` of `Common.h`, which is not among the
sources. The spec calls the source's error signalling exception-based, and the
`catch (const std::exception& e)` blocks of `Encoder.cpp` read the message
with `e.what()`: the call raises an exception carrying the message. -/
def ThrowError {σ : Type} (error : String) : Eff σ Unit := fun s => (Outcome.thrown error, s)

/-- A `try { body } catch (const std::exception& e) { handler(e.what()) }`
block: only a thrown exception reaches the handler. -/
def tryCatch {σ α : Type} (body : Eff σ α) (handler : String → Eff σ α) : Eff σ α := fun s =>
  match body s with
  | (Outcome.thrown e, s1) => handler e s1
  | r => r

/-! ## The backend -/

/-- The status codes the error-name table of `OutputNvencApiError` lists, in
the table's order; `unlisted` is any other value of the C enum. -/
inductive NVENCSTATUS where
  | NV_ENC_SUCCESS
  | NV_ENC_ERR_NO_ENCODE_DEVICE
  | NV_ENC_ERR_UNSUPPORTED_DEVICE
  | NV_ENC_ERR_INVALID_ENCODERDEVICE
  | NV_ENC_ERR_INVALID_DEVICE
  | NV_ENC_ERR_DEVICE_NOT_EXIST
  | NV_ENC_ERR_INVALID_PTR
  | NV_ENC_ERR_INVALID_EVENT
  | NV_ENC_ERR_INVALID_PARAM
  | NV_ENC_ERR_INVALID_CALL
  | NV_ENC_ERR_OUT_OF_MEMORY
  | NV_ENC_ERR_ENCODER_NOT_INITIALIZED
  | NV_ENC_ERR_UNSUPPORTED_PARAM
  | NV_ENC_ERR_LOCK_BUSY
  | NV_ENC_ERR_NOT_ENOUGH_BUFFER
  | NV_ENC_ERR_INVALID_VERSION
  | NV_ENC_ERR_MAP_FAILED
  | NV_ENC_ERR_NEED_MORE_INPUT
  | NV_ENC_ERR_ENCODER_BUSY
  | NV_ENC_ERR_EVENT_NOT_REGISTERD
  | NV_ENC_ERR_GENERIC
  | NV_ENC_ERR_INCOMPATIBLE_CLIENT_KEY
  | NV_ENC_ERR_UNIMPLEMENTED
  | NV_ENC_ERR_RESOURCE_REGISTER_FAILED
  | NV_ENC_ERR_RESOURCE_NOT_REGISTERED
  | NV_ENC_ERR_RESOURCE_NOT_MAPPED
  | unlisted (code : Nat)
  deriving DecidableEq, Repr

/-- The results of `WaitForSingleObject`. -/
inductive WaitResult where
  | WAIT_OBJECT_0
  | WAIT_ABANDONED
  | WAIT_TIMEOUT
  | WAIT_FAILED
  deriving DecidableEq, Repr

/-- The fields of `NV_ENC_PIC_PARAMS` that `EncodeInputTexture` and `SendEOS`
fill in. -/
structure PicParams where
  inputBuffer : Nat
  inputWidth : Nat
  inputHeight : Nat
  outputBitstream : Nat
  completionEvent : Nat
  frameIdx : Nat
  forceIdr : Bool
  eos : Bool
  deriving DecidableEq, Repr

/-- A call made to a collaborator, with the arguments that come from the
session's state. -/
inductive Call where
  | LoadLibraryA
  | FreeLibrary (hmodule : Nat)
  | GetProcAddress (name : String)
  | NvEncodeAPIGetMaxSupportedVersion
  | NvEncodeAPICreateInstance
  | nvEncOpenEncodeSessionEx (device : Nat)
  | nvEncGetEncodePresetConfig (encoder : Nat)
  | nvEncInitializeEncoder (encoder width height frameRate : Nat)
  | nvEncReconfigureEncoder (encoder width height : Nat)
  | CreateEventA
  | nvEncRegisterAsyncEvent (encoder event : Nat)
  | nvEncUnregisterAsyncEvent (encoder event : Nat)
  | CloseHandle (event : Nat)
  | nvEncCreateBitstreamBuffer (encoder : Nat)
  | nvEncDestroyBitstreamBuffer (encoder buffer : Nat)
  | CreateTexture2D (device width height format : Nat)
  | GetSharedHandle (texture : Nat)
  | nvEncRegisterResource (encoder texture width height : Nat)
  | nvEncUnregisterResource (encoder registered : Nat)
  | OpenSharedResource (handle : Nat)
  | CopyResource (dst src : Nat)
  | Flush
  | ReleaseTexture (texture : Nat)
  | nvEncMapInputResource (encoder registered : Nat)
  | nvEncUnmapInputResource (encoder mapped : Nat)
  | nvEncEncodePicture (encoder : Nat) (pic : PicParams)
  | nvEncLockBitstream (encoder buffer : Nat)
  | nvEncUnlockBitstream (encoder buffer : Nat)
  | WaitForSingleObject (event duration : Nat)
  | nvEncDestroyEncoder (encoder : Nat)
  | QueryInterfaceDXGIDevice
  | GetAdapter
  | D3D11CreateDevice
  | ReleaseDevice (device : Nat)
  deriving DecidableEq, Repr

/-- The collaborators' answers. Each field is indexed by the position of the
call in the log (the number of calls made before it). Handles are numbers and
`0` is the null handle. `currentVersion` is the constant
`(NVENCAPI_MAJOR_VERSION << 4) | NVENCAPI_MINOR_VERSION` of the SDK header the
plugin is built against. -/
structure Backend where
  status : Nat → NVENCSTATUS
  handle : Nat → Nat
  succeeded : Nat → Bool
  wait : Nat → WaitResult
  bitstream : Nat → List Nat
  version : Nat → Nat
  currentVersion : Nat

/-! ## The session's data -/

/-- One ring entry (`NvencResource`, declared in `Nvenc.h`): the fields the
session's code reads and writes. -/
structure NvencResource where
  inputTexture_ : Nat
  inputTextureSharedHandle_ : Nat
  registeredResource_ : Nat
  inputResource_ : Nat
  bitstreamBuffer_ : Nat
  completionEvent_ : Nat
  isEncoding_ : Bool
  deriving DecidableEq, Repr

instance : Inhabited NvencResource := ⟨⟨0, 0, 0, 0, 0, 0, false⟩⟩

structure NvencDesc where
  d3d11Device : Nat
  width : Nat
  height : Nat
  format : Nat
  frameRate : Nat
  deriving DecidableEq, Repr

/-- An encoded packet: `size` bytes copied out of the locked bitstream. -/
structure NvencEncodedData where
  index : Nat
  size : Nat
  buffer : List Nat
  deriving DecidableEq, Repr

/-- The fields of the stored `NV_ENC_INITIALIZE_PARAMS` that depend on the
session's description. -/
structure InitializeParams where
  encodeWidth : Nat
  encodeHeight : Nat
  darWidth : Nat
  darHeight : Nat
  frameRateNum : Nat
  deriving DecidableEq, Repr

/-- The members of `class Nvenc`. The two indices are declared in `Nvenc.h`,
which is not among the sources; they are unbounded naturals here (the spec:
both indices only increase and are never reset). -/
structure Nvenc where
  desc_ : NvencDesc
  encoder_ : Nat
  isInitialized_ : Bool
  inputIndex_ : Nat
  outputIndex_ : Nat
  resources_ : List NvencResource
  initializeParams_ : InitializeParams
  deriving DecidableEq, Repr

/-- What the session shares with the process: the static members `s_module`,
`s_nvenc` (whether its `nvEncOpenEncodeSession` entry is set) and
`s_referenceCount` of `class Nvenc`, and the log of the calls made so far. -/
structure Process where
  s_module : Nat
  s_nvenc : Bool
  s_referenceCount : Int
  log : List Call
  deriving DecidableEq, Repr

/-- The state the session's member functions run on. -/
structure World where
  self : Nvenc
  proc : Process
  deriving DecidableEq, Repr

/-! ## Access to the state -/

/-- The state with one more call in the log. -/
def World.logged (w : World) (c : Call) : World :=
  { w with proc := { w.proc with log := w.proc.log ++ [c] } }

/-- Make a call to a collaborator: it is appended to the log, and the result
is its position there, at which the backend's answer is read. -/
def call (c : Call) : Eff World Nat := fun w => (Outcome.ok w.proc.log.length, w.logged c)

def getSelf : Eff World Nvenc := fun w => (Outcome.ok w.self, w)

def modifySelf (f : Nvenc → Nvenc) : Eff World Unit := fun w =>
  (Outcome.ok (), { w with self := f w.self })

def getProcess : Eff World Process := fun w => (Outcome.ok w.proc, w)

def modifyProcess (f : Process → Process) : Eff World Unit := fun w =>
  (Outcome.ok (), { w with proc := f w.proc })

/-- The element `resources_[index]`. -/
def resourceAt (n : Nvenc) (index : Nat) : NvencResource := n.resources_.getD index default

def getResource (index : Nat) : Eff World NvencResource := fun w =>
  (Outcome.ok (resourceAt w.self index), w)

/-- The session after a write to `resources_[index]`. -/
def updateResource (n : Nvenc) (index : Nat) (f : NvencResource → NvencResource) : Nvenc :=
  { n with resources_ := n.resources_.set index (f (resourceAt n index)) }

/-- A write through the reference `auto &resource = resources_[index]`. -/
def modifyResource (index : Nat) (f : NvencResource → NvencResource) : Eff World Unit :=
  modifySelf fun n => updateResource n index f

/-- Run `body i` for each index of the list in turn: the range-based
`for (auto &resource : resources_)`. -/
def forEachIndex (body : Nat → Eff World Unit) : List Nat → Eff World Unit
  | [] => pure ()
  | i :: rest => do
    body i
    forEachIndex body rest

/-- The loop `for (auto &resource : resources_) body`. -/
def forEachResource (body : Nat → Eff World Unit) : Eff World Unit := do
  let n ← getSelf
  forEachIndex body (List.range n.resources_.length)

/-! ## Nvenc.cpp -/

/-- The table of `OutputNvencApiError`: each listed code with its name. -/
def nvEncStatusErrorNameTable : List (NVENCSTATUS × String) :=
  [ (NVENCSTATUS.NV_ENC_SUCCESS, "NV_ENC_SUCCESS"),
    (NVENCSTATUS.NV_ENC_ERR_NO_ENCODE_DEVICE, "NV_ENC_ERR_NO_ENCODE_DEVICE"),
    (NVENCSTATUS.NV_ENC_ERR_UNSUPPORTED_DEVICE, "NV_ENC_ERR_UNSUPPORTED_DEVICE"),
    (NVENCSTATUS.NV_ENC_ERR_INVALID_ENCODERDEVICE, "NV_ENC_ERR_INVALID_ENCODERDEVICE"),
    (NVENCSTATUS.NV_ENC_ERR_INVALID_DEVICE, "NV_ENC_ERR_INVALID_DEVICE"),
    (NVENCSTATUS.NV_ENC_ERR_DEVICE_NOT_EXIST, "NV_ENC_ERR_DEVICE_NOT_EXIST"),
    (NVENCSTATUS.NV_ENC_ERR_INVALID_PTR, "NV_ENC_ERR_INVALID_PTR"),
    (NVENCSTATUS.NV_ENC_ERR_INVALID_EVENT, "NV_ENC_ERR_INVALID_EVENT"),
    (NVENCSTATUS.NV_ENC_ERR_INVALID_PARAM, "NV_ENC_ERR_INVALID_PARAM"),
    (NVENCSTATUS.NV_ENC_ERR_INVALID_CALL, "NV_ENC_ERR_INVALID_CALL"),
    (NVENCSTATUS.NV_ENC_ERR_OUT_OF_MEMORY, "NV_ENC_ERR_OUT_OF_MEMORY"),
    (NVENCSTATUS.NV_ENC_ERR_ENCODER_NOT_INITIALIZED, "NV_ENC_ERR_ENCODER_NOT_INITIALIZED"),
    (NVENCSTATUS.NV_ENC_ERR_UNSUPPORTED_PARAM, "NV_ENC_ERR_UNSUPPORTED_PARAM"),
    (NVENCSTATUS.NV_ENC_ERR_LOCK_BUSY, "NV_ENC_ERR_LOCK_BUSY"),
    (NVENCSTATUS.NV_ENC_ERR_NOT_ENOUGH_BUFFER, "NV_ENC_ERR_NOT_ENOUGH_BUFFER"),
    (NVENCSTATUS.NV_ENC_ERR_INVALID_VERSION, "NV_ENC_ERR_INVALID_VERSION"),
    (NVENCSTATUS.NV_ENC_ERR_MAP_FAILED, "NV_ENC_ERR_MAP_FAILED"),
    (NVENCSTATUS.NV_ENC_ERR_NEED_MORE_INPUT, "NV_ENC_ERR_NEED_MORE_INPUT"),
    (NVENCSTATUS.NV_ENC_ERR_ENCODER_BUSY, "NV_ENC_ERR_ENCODER_BUSY"),
    (NVENCSTATUS.NV_ENC_ERR_EVENT_NOT_REGISTERD, "NV_ENC_ERR_EVENT_NOT_REGISTERD"),
    (NVENCSTATUS.NV_ENC_ERR_GENERIC, "NV_ENC_ERR_GENERIC"),
    (NVENCSTATUS.NV_ENC_ERR_INCOMPATIBLE_CLIENT_KEY, "NV_ENC_ERR_INCOMPATIBLE_CLIENT_KEY"),
    (NVENCSTATUS.NV_ENC_ERR_UNIMPLEMENTED, "NV_ENC_ERR_UNIMPLEMENTED"),
    (NVENCSTATUS.NV_ENC_ERR_RESOURCE_REGISTER_FAILED, "NV_ENC_ERR_RESOURCE_REGISTER_FAILED"),
    (NVENCSTATUS.NV_ENC_ERR_RESOURCE_NOT_REGISTERED, "NV_ENC_ERR_RESOURCE_NOT_REGISTERED"),
    (NVENCSTATUS.NV_ENC_ERR_RESOURCE_NOT_MAPPED, "NV_ENC_ERR_RESOURCE_NOT_MAPPED") ]

def OutputNvencApiError {σ : Type} (apiName : String) (status : NVENCSTATUS) : Eff σ Unit :=
  let statusStr :=
    match nvEncStatusErrorNameTable.lookup status with
    | some name => name
    | none => "Unknown"
  ThrowError (apiName ++ " call failed: " ++ statusStr)

/-- The part of `CallNvencApi` that follows the call: the status is handed
back unless it is neither success nor need-more-input. -/
def checkStatus {σ : Type} (apiName : String) (status : NVENCSTATUS) : Eff σ NVENCSTATUS := do
  if status ≠ NVENCSTATUS.NV_ENC_SUCCESS ∧ status ≠ NVENCSTATUS.NV_ENC_ERR_NEED_MORE_INPUT then
    OutputNvencApiError apiName status
  pure status

/-- The template `CallNvencApi`: make the call, check its status. The result
is the status, paired with the call's position, at which the caller reads
what the call wrote into its out-parameters. -/
def CallNvencApi (B : Backend) (apiName : String) (api : Call) : Eff World (NVENCSTATUS × Nat) := do
  let t ← call api
  let status ← checkStatus apiName (B.status t)
  pure (status, t)

namespace Nvenc

/-- Modelled from the spec: `Nvenc::IsValid` is defined in `Nvenc.h`, which is
not among the sources. The spec has the encoder-side tokens "valid only while
the encoder session is initialized"; the check guards functions `Initialize`
runs before it sets `isInitialized_`, after `OpenEncodeSession` has filled
`encoder_`, so it is the test that the encoder context is non-null. -/
def IsValid (n : Nvenc) : Bool := n.encoder_ != 0

/-- Modelled from the spec: `GetInputIndex` of `Nvenc.h`, the slot selected
for submission, `inputIndex mod ringSize`. -/
def GetInputIndex (n : Nvenc) : Nat := n.inputIndex_ % n.resources_.length

/-- Modelled from the spec: `GetOutputIndex` of `Nvenc.h`, the slot selected
for drain, `outputIndex mod ringSize`. -/
def GetOutputIndex (n : Nvenc) : Nat := n.outputIndex_ % n.resources_.length

/-- The constructor `Nvenc::Nvenc(desc)`: `desc_(desc)`, `resources_(1)`, and
the in-class initial values of the other members. -/
def new (desc : NvencDesc) : Nvenc :=
  { desc_ := desc
    encoder_ := 0
    isInitialized_ := false
    inputIndex_ := 0
    outputIndex_ := 0
    resources_ := [default]
    initializeParams_ := ⟨0, 0, 0, 0, 0⟩ }

def LoadModule (B : Backend) : Eff World Unit := do
  modifyProcess fun p => { p with s_referenceCount := p.s_referenceCount + 1 }
  if (← getProcess).s_module ≠ 0 then
    pure ()
  else do
    let t ← call Call.LoadLibraryA
    modifyProcess fun p => { p with s_module := B.handle t }
    if (← getProcess).s_module = 0 then
      ThrowError "NVENC is not available."
    let t1 ← call (Call.GetProcAddress "NvEncodeAPIGetMaxSupportedVersion")
    if B.handle t1 ≠ 0 then
      let t2 ← call Call.NvEncodeAPIGetMaxSupportedVersion
      let version := B.version t2
      if B.currentVersion > version then
        ThrowError "NVENC version is wrong."
    let t3 ← call (Call.GetProcAddress "NvEncodeAPICreateInstance")
    if B.handle t3 ≠ 0 then
      let t4 ← call Call.NvEncodeAPICreateInstance
      modifyProcess fun p => { p with s_nvenc := B.handle t4 != 0 }
      if !(← getProcess).s_nvenc then
        ThrowError "Failed to load functions from DLL."

def UnloadModule : Eff World Unit := do
  modifyProcess fun p => { p with s_referenceCount := p.s_referenceCount - 1 }
  if (← getProcess).s_referenceCount > 0 then
    pure ()
  else do
    let hmodule := (← getProcess).s_module
    if hmodule ≠ 0 then
      let _ ← call (Call.FreeLibrary hmodule)
      modifyProcess fun p => { p with s_module := 0 }

def ThrowErrorIfNotInitialized : Eff World Unit := do
  if !(← getSelf).IsValid then
    ThrowError "NVENC has not been initialized yet."

/-- The call writes the session handle through `&encoder_` before its status
is checked. -/
def OpenEncodeSession (B : Backend) : Eff World Unit := do
  let n ← getSelf
  let t ← call (Call.nvEncOpenEncodeSessionEx n.desc_.d3d11Device)
  modifySelf fun n => { n with encoder_ := B.handle t }
  let _ ← checkStatus "s_nvenc.nvEncOpenEncodeSessionEx" (B.status t)

/-- The preset configuration and the bit rate computed from it reach only the
backend; the stored parameters keep the description's size and frame rate. -/
def InitializeEncoder (B : Backend) : Eff World Unit := do
  let n ← getSelf
  let _ ← CallNvencApi B "s_nvenc.nvEncGetEncodePresetConfig"
    (Call.nvEncGetEncodePresetConfig n.encoder_)
  let _ ← CallNvencApi B "s_nvenc.nvEncInitializeEncoder"
    (Call.nvEncInitializeEncoder n.encoder_ n.desc_.width n.desc_.height n.desc_.frameRate)
  modifySelf fun n => { n with initializeParams_ :=
    { encodeWidth := n.desc_.width
      encodeHeight := n.desc_.height
      darWidth := n.desc_.width
      darHeight := n.desc_.height
      frameRateNum := n.desc_.frameRate } }

def CreateCompletionEvents (B : Backend) : Eff World Unit := do
  ThrowErrorIfNotInitialized
  forEachResource fun i => do
    let t ← call Call.CreateEventA
    modifyResource i fun r => { r with completionEvent_ := B.handle t }
    let n ← getSelf
    let _ ← CallNvencApi B "s_nvenc.nvEncRegisterAsyncEvent"
      (Call.nvEncRegisterAsyncEvent n.encoder_ (resourceAt n i).completionEvent_)

def DestroyCompletionEvents (B : Backend) : Eff World Unit := do
  ThrowErrorIfNotInitialized
  forEachResource fun i => do
    let n ← getSelf
    let resource := resourceAt n i
    if resource.completionEvent_ = 0 then
      pure ()
    else do
      let _ ← CallNvencApi B "s_nvenc.nvEncUnregisterAsyncEvent"
        (Call.nvEncUnregisterAsyncEvent n.encoder_ resource.completionEvent_)
      let _ ← call (Call.CloseHandle resource.completionEvent_)

def CreateBitstreamBuffers (B : Backend) : Eff World Unit := do
  ThrowErrorIfNotInitialized
  forEachResource fun i => do
    let n ← getSelf
    let called ← CallNvencApi B "s_nvenc.nvEncCreateBitstreamBuffer"
      (Call.nvEncCreateBitstreamBuffer n.encoder_)
    modifyResource i fun r => { r with bitstreamBuffer_ := B.handle called.2 }

/-- The texture and the shared handle are written through their addresses by
the device's calls, before the result is tested. -/
def CreateInputTextures (B : Backend) : Eff World Unit := do
  ThrowErrorIfNotInitialized
  forEachResource fun i => do
    let n ← getSelf
    let t ← call (Call.CreateTexture2D n.desc_.d3d11Device n.desc_.width n.desc_.height n.desc_.format)
    modifyResource i fun r => { r with inputTexture_ := B.handle t }
    if !B.succeeded t then
      ThrowError "Failed to create shared texture."
    let t1 ← call (Call.GetSharedHandle (B.handle t))
    modifyResource i fun r => { r with inputTextureSharedHandle_ := B.handle t1 }
    if !B.succeeded t1 then
      ThrowError "Failed to get shared handle."

def RegisterResources (B : Backend) : Eff World Unit := do
  ThrowErrorIfNotInitialized
  forEachResource fun i => do
    let n ← getSelf
    let called ← CallNvencApi B "s_nvenc.nvEncRegisterResource"
      (Call.nvEncRegisterResource n.encoder_ (resourceAt n i).inputTexture_ n.desc_.width n.desc_.height)
    modifyResource i fun r => { r with registeredResource_ := B.handle called.2 }

def UnregisterResources (B : Backend) : Eff World Unit := do
  ThrowErrorIfNotInitialized
  forEachResource fun i => do
    let n ← getSelf
    let resource := resourceAt n i
    if resource.registeredResource_ = 0 then
      pure ()
    else do
      let _ ← CallNvencApi B "s_nvenc.nvEncUnregisterResource"
        (Call.nvEncUnregisterResource n.encoder_ resource.registeredResource_)

def DestroyBitstreamBuffers (B : Backend) : Eff World Unit := do
  ThrowErrorIfNotInitialized
  forEachResource fun i => do
    let n ← getSelf
    let resource := resourceAt n i
    if resource.bitstreamBuffer_ = 0 then
      pure ()
    else do
      let _ ← CallNvencApi B "s_nvenc.nvEncDestroyBitstreamBuffer"
        (Call.nvEncDestroyBitstreamBuffer n.encoder_ resource.bitstreamBuffer_)

def DestroyEncoder (B : Backend) : Eff World Unit := do
  ThrowErrorIfNotInitialized
  let n ← getSelf
  let _ ← CallNvencApi B "s_nvenc.nvEncDestroyEncoder" (Call.nvEncDestroyEncoder n.encoder_)

def CopyToInputTexture (B : Backend) (index : Nat) (texture : Nat) : Eff World Bool := do
  ThrowErrorIfNotInitialized
  let resource ← getResource index
  let t ← call (Call.OpenSharedResource resource.inputTextureSharedHandle_)
  if !B.succeeded t then
    pure false
  else do
    let inputTexture := B.handle t
    let _ ← call (Call.CopyResource inputTexture texture)
    let _ ← call Call.Flush
    let _ ← call (Call.ReleaseTexture inputTexture)
    pure true

def EncodeInputTexture (B : Backend) (index : Nat) (forceIdrFrame : Bool) : Eff World Bool := do
  ThrowErrorIfNotInitialized
  let resource ← getResource index
  let n ← getSelf
  let picParams : PicParams :=
    { inputBuffer := resource.inputResource_
      inputWidth := n.desc_.width
      inputHeight := n.desc_.height
      outputBitstream := resource.bitstreamBuffer_
      completionEvent := resource.completionEvent_
      frameIdx := n.inputIndex_ % 2 ^ 32
      forceIdr := forceIdrFrame
      eos := false }
  let called ← CallNvencApi B "s_nvenc.nvEncEncodePicture"
    (Call.nvEncEncodePicture n.encoder_ picParams)
  let status := called.1
  if status ≠ NVENCSTATUS.NV_ENC_SUCCESS ∧ status ≠ NVENCSTATUS.NV_ENC_ERR_NEED_MORE_INPUT then
    pure false
  else
    pure true

def MapInputResource (B : Backend) (index : Nat) : Eff World Unit := do
  ThrowErrorIfNotInitialized
  let resource ← getResource index
  if resource.registeredResource_ = 0 then
    pure ()
  else do
    let n ← getSelf
    let called ← CallNvencApi B "s_nvenc.nvEncMapInputResource"
      (Call.nvEncMapInputResource n.encoder_ resource.registeredResource_)
    modifyResource index fun r => { r with inputResource_ := B.handle called.2 }

/-- The source's test is `!resource.inputResource_`: the unmap call is made
when the mapped reference is null. -/
def UnmapInputResource (B : Backend) (index : Nat) : Eff World Unit := do
  ThrowErrorIfNotInitialized
  let resource ← getResource index
  if resource.inputResource_ = 0 then
    let n ← getSelf
    let _ ← CallNvencApi B "s_nvenc.nvEncUnmapInputResource"
      (Call.nvEncUnmapInputResource n.encoder_ resource.inputResource_)
    modifyResource index fun r => { r with inputResource_ := 0 }

def Encode (B : Backend) (source : Nat) (forceIdrFrame : Bool) : Eff World Bool := do
  ThrowErrorIfNotInitialized
  let index := (← getSelf).GetInputIndex
  let resource ← getResource index
  if resource.isEncoding_ then
    pure false
  else do
    modifyResource index fun r => { r with isEncoding_ := true }
    if !(← CopyToInputTexture B index source) then
      modifyResource index fun r => { r with isEncoding_ := false }
      pure false
    else do
      MapInputResource B index
      if (← EncodeInputTexture B index forceIdrFrame) then
        modifySelf fun n => { n with inputIndex_ := n.inputIndex_ + 1 }
        pure true
      else do
        modifyResource index fun r => { r with isEncoding_ := false }
        pure false

def WaitForCompletion (B : Backend) (index : Nat) (duration : Nat) : Eff World Bool := do
  ThrowErrorIfNotInitialized
  let resource ← getResource index
  let t ← call (Call.WaitForSingleObject resource.completionEvent_ duration)
  if B.wait t = WaitResult.WAIT_FAILED then
    ThrowError "Failed to wait for encode completion."
    pure false
  else
    pure true

/-- A member function run by `GetEncodedData`, whose state also holds the
vector `data` the caller passed by reference. -/
def onWorld {α : Type} (m : Eff World α) : Eff (World × List NvencEncodedData) α := fun s =>
  match m s.1 with
  | (r, w) => (r, (w, s.2))

/-- The call `data.push_back(std::move(ed))`. -/
def pushBack (ed : NvencEncodedData) : Eff (World × List NvencEncodedData) Unit := fun s =>
  (Outcome.ok (), (s.1, s.2 ++ [ed]))

/-- The step `++outputIndex_` of the drain loop. -/
def advanceOutputIndex : Eff (World × List NvencEncodedData) Unit :=
  onWorld (modifySelf fun n => { n with outputIndex_ := n.outputIndex_ + 1 })

/-- The body of the loop of `GetEncodedData`. A `continue` ends the body, and
the loop's step `++outputIndex_` follows the body; each `continue` of the
source stands right after a `ThrowError`. -/
def GetEncodedDataBody (B : Backend) : Eff (World × List NvencEncodedData) Unit := do
  let n ← onWorld getSelf
  let index := n.GetOutputIndex
  let resource ← onWorld (getResource index)
  if !resource.isEncoding_ then
    ThrowError "Try to get an invalid bitstream."
  else do
    if !(← onWorld (WaitForCompletion B index 10000)) then
      ThrowError "Timeout when getting an encoded bitstream."
    else do
      let called ← onWorld (CallNvencApi B "s_nvenc.nvEncLockBitstream"
        (Call.nvEncLockBitstream n.encoder_ resource.bitstreamBuffer_))
      let ed : NvencEncodedData :=
        { index := n.outputIndex_
          size := (B.bitstream called.2).length
          buffer := B.bitstream called.2 }
      pushBack ed
      let _ ← onWorld (CallNvencApi B "s_nvenc.nvEncUnlockBitstream"
        (Call.nvEncUnlockBitstream n.encoder_ resource.bitstreamBuffer_))
      onWorld (UnmapInputResource B index)
      onWorld (modifyResource index fun r => { r with isEncoding_ := false })

/-- The loop `for (; outputIndex_ < inputIndex_; ++outputIndex_)` of
`GetEncodedData`: test, body, step. A pass either throws or adds one to
`outputIndex_`, and `inputIndex_` does not change, so the
`inputIndex_ - outputIndex_` passes `GetEncodedData` allows are never too
few. -/
def GetEncodedDataLoop (B : Backend) : Nat → Eff (World × List NvencEncodedData) Unit
  | 0 => pure ()
  | fuel + 1 => do
    let n ← onWorld getSelf
    if n.outputIndex_ < n.inputIndex_ then
      GetEncodedDataBody B
      advanceOutputIndex
      GetEncodedDataLoop B fuel
    else
      pure ()

def GetEncodedData (B : Backend) : Eff (World × List NvencEncodedData) Unit := do
  onWorld ThrowErrorIfNotInitialized
  let n ← onWorld getSelf
  GetEncodedDataLoop B (n.inputIndex_ - n.outputIndex_)

def SendEOS (B : Backend) : Eff World Unit := do
  ThrowErrorIfNotInitialized
  let index := (← getSelf).GetInputIndex
  modifyResource index fun r => { r with isEncoding_ := true }
  let resource ← getResource index
  let n ← getSelf
  let picParams : PicParams :=
    { inputBuffer := 0
      inputWidth := 0
      inputHeight := 0
      outputBitstream := 0
      completionEvent := resource.completionEvent_
      frameIdx := 0
      forceIdr := false
      eos := true }
  let _ ← CallNvencApi B "s_nvenc.nvEncEncodePicture" (Call.nvEncEncodePicture n.encoder_ picParams)
  modifySelf fun n => { n with inputIndex_ := n.inputIndex_ + 1 }

/-- Run `m` on a local vector `std::vector<NvencEncodedData> data`, empty at
first and dropped when the caller ends or unwinds. -/
def withLocalData {α : Type} (m : Eff (World × List NvencEncodedData) α) : Eff World α := fun w =>
  match m (w, []) with
  | (r, (w1, _)) => (r, w1)

def EndEncode (B : Backend) : Eff World Unit := do
  ThrowErrorIfNotInitialized
  if (← getSelf).inputIndex_ = 0 then
    pure ()
  else do
    SendEOS B
    withLocalData (GetEncodedData B)

def Initialize (B : Backend) : Eff World Unit := do
  if (← getSelf).isInitialized_ then
    pure ()
  else do
    LoadModule B
    OpenEncodeSession B
    InitializeEncoder B
    CreateCompletionEvents B
    CreateInputTextures B
    RegisterResources B
    CreateBitstreamBuffers B
    modifySelf fun n => { n with isInitialized_ := true }

def Finalize (B : Backend) : Eff World Unit := do
  if !(← getSelf).isInitialized_ then
    pure ()
  else do
    EndEncode B
    DestroyBitstreamBuffers B
    UnregisterResources B
    DestroyCompletionEvents B
    DestroyEncoder B
    UnloadModule
    modifySelf fun n => { n with isInitialized_ := false }

/-- The reconfigure parameters are a copy of the stored initialize parameters
with the new size written into the copy; the stored ones are not touched. -/
def Resize (B : Backend) (width height : Nat) : Eff World Unit := do
  let n ← getSelf
  if n.desc_.width = width ∧ n.desc_.height = height then
    pure ()
  else do
    EndEncode B
    DestroyBitstreamBuffers B
    UnregisterResources B
    let n ← getSelf
    let _ ← CallNvencApi B "s_nvenc.nvEncReconfigureEncoder"
      (Call.nvEncReconfigureEncoder n.encoder_ width height)
    modifySelf fun n => { n with desc_ := { n.desc_ with width := width, height := height } }
    CreateInputTextures B
    RegisterResources B
    CreateBitstreamBuffers B

end Nvenc

/-! ## Encoder.cpp -/

/-- The description `EncoderDesc` of `Encoder.h`. Its `int` members hold the
`uint32_t` sizes `Resize` stores in them and `GetWidth`, `GetHeight` read back
as `uint32_t`; they are naturals here. -/
structure EncoderDesc where
  width : Nat
  height : Nat
  frameRate : Nat
  format : Nat
  deriving DecidableEq, Repr

/-- The members of `class Encoder`. `encodeThread_` is whether the consumer
thread has been started; the two mutexes and the condition variable have no
state of their own here. -/
structure Encoder where
  desc_ : EncoderDesc
  device_ : Nat
  nvenc_ : Option Nvenc
  encodedDataList_ : List NvencEncodedData
  encodedDataListCopied_ : List NvencEncodedData
  encodeThread_ : Bool
  shouldStopEncodeThread_ : Bool
  isEncodeRequested : Bool
  error_ : String
  deriving DecidableEq, Repr

/-- The state the encoder's member functions run on. -/
structure App where
  self : Encoder
  proc : Process
  deriving DecidableEq, Repr

/-- A call made to a collaborator by the encoder itself. -/
def callApp (c : Call) : Eff App Nat := fun a =>
  (Outcome.ok a.proc.log.length, { a with proc := { a.proc with log := a.proc.log ++ [c] } })

def getEncoder : Eff App Encoder := fun a => (Outcome.ok a.self, a)

def modifyEncoder (f : Encoder → Encoder) : Eff App Unit := fun a =>
  (Outcome.ok (), { a with self := f a.self })

/-- A call `nvenc_->f(...)`: the member function runs on the session the
encoder owns; with a null `nvenc_` the behaviour is undefined. -/
def withNvenc {α : Type} (m : Eff World α) : Eff App α := fun a =>
  match a.self.nvenc_ with
  | none => (Outcome.undefined, a)
  | some n =>
    match m ⟨n, a.proc⟩ with
    | (r, w) => (r, { self := { a.self with nvenc_ := some w.self }, proc := w.proc })

namespace Encoder

/-- The members as the constructor's initialiser list and the in-class
initial values leave them, before the constructor's body runs. -/
def init (desc : EncoderDesc) : Encoder :=
  { desc_ := desc
    device_ := 0
    nvenc_ := none
    encodedDataList_ := []
    encodedDataListCopied_ := []
    encodeThread_ := false
    shouldStopEncodeThread_ := false
    isEncodeRequested := false
    error_ := "" }

def IsValid (e : Encoder) : Bool :=
  e.device_ != 0 &&
    match e.nvenc_ with
    | none => false
    | some n => n.IsValid

def GetWidth (e : Encoder) : Nat := e.desc_.width

def GetHeight (e : Encoder) : Nat := e.desc_.height

def HasError (e : Encoder) : Bool := !e.error_.isEmpty

def GetError (e : Encoder) : String := e.error_

/-- The result of `D3D11CreateDevice` is not tested; the call writes the
device through `&device_`. -/
def CreateDevice (B : Backend) : Eff App Unit := do
  let t ← callApp Call.QueryInterfaceDXGIDevice
  if !B.succeeded t then
    ThrowError "Failed to get IDXGIDevice1."
  let t1 ← callApp Call.GetAdapter
  if !B.succeeded t1 then
    ThrowError "Failed to get IDXGIAdapter."
  let t2 ← callApp Call.D3D11CreateDevice
  modifyEncoder fun e => { e with device_ := B.handle t2 }

def CreateNvenc (B : Backend) : Eff App Unit := do
  let e ← getEncoder
  let desc : NvencDesc :=
    { d3d11Device := e.device_
      width := e.desc_.width
      height := e.desc_.height
      format := e.desc_.format
      frameRate := e.desc_.frameRate }
  modifyEncoder fun e => { e with nvenc_ := some (Nvenc.new desc) }
  withNvenc (Nvenc.Initialize B)

/-- The consumer thread is started; its passes are the calls of
`UpdateGetEncodedData` an execution interleaves with the caller's calls. -/
def StartThread : Eff App Unit :=
  modifyEncoder fun e => { e with encodeThread_ := true }

/-- The constructor's body, run on `init desc`. -/
def construct (B : Backend) : Eff App Unit :=
  tryCatch
    (do
      CreateDevice B
      CreateNvenc B
      StartThread)
    (fun what => modifyEncoder fun e => { e with error_ := what })

def Resize (B : Backend) (width height : Nat) : Eff App Unit := do
  modifyEncoder fun e => { e with desc_ := { e.desc_ with width := width, height := height } }
  tryCatch
    (withNvenc (Nvenc.Resize B width height))
    (fun what => modifyEncoder fun e => { e with error_ := what })

def RequestGetEncodedData : Eff App Unit :=
  modifyEncoder fun e => { e with isEncodeRequested := true }

/-- The return value of `nvenc_->Encode` is not used. The result of the
`try` block here is whether the handler ran, which returns `false`. -/
def Encode (B : Backend) (source : Nat) (forceIdrFrame : Bool) : Eff App Bool := do
  let caught ← tryCatch
    (do
      let _ ← withNvenc (Nvenc.Encode B source forceIdrFrame)
      pure false)
    (fun what => do
      modifyEncoder fun e => { e with error_ := what }
      pure true)
  if caught then
    pure false
  else do
    RequestGetEncodedData
    pure true

/-- The overload `Encode(HANDLE sharedHandle, bool forceIdrFrame)`. -/
def EncodeSharedHandle (B : Backend) (sharedHandle : Nat) (forceIdrFrame : Bool) : Eff App Bool := do
  let t ← callApp (Call.OpenSharedResource sharedHandle)
  if !B.succeeded t then
    pure false
  else
    Encode B (B.handle t) forceIdrFrame

/-- The consumer thread's wait returns once a request (or a stop) is
pending, and clears the request. -/
def WaitForEncodeRequest : Eff App Unit :=
  modifyEncoder fun e => { e with isEncodeRequested := false }

/-- The drain fills the local vector `data`; it is appended to
`encodedDataList_` only when `GetEncodedData` returns. -/
def UpdateGetEncodedData (B : Backend) : Eff App Unit := fun a =>
  match a.self.nvenc_ with
  | none => (Outcome.undefined, a)
  | some n =>
    match Nvenc.GetEncodedData B (⟨n, a.proc⟩, []) with
    | (Outcome.ok (), (w, data)) =>
      (Outcome.ok (),
        { self := { a.self with
                    nvenc_ := some w.self
                    encodedDataList_ := a.self.encodedDataList_ ++ data }
          proc := w.proc })
    | (Outcome.thrown what, (w, _)) =>
      (Outcome.ok (), { self := { a.self with nvenc_ := some w.self, error_ := what }, proc := w.proc })
    | (Outcome.undefined, (w, _)) =>
      (Outcome.undefined, { self := { a.self with nvenc_ := some w.self }, proc := w.proc })

def CopyEncodedDataList : Eff App Unit := do
  modifyEncoder fun e => { e with encodedDataListCopied_ := [] }
  modifyEncoder fun e =>
    { e with encodedDataListCopied_ := e.encodedDataList_, encodedDataList_ := e.encodedDataListCopied_ }

def GetEncodedDataList (e : Encoder) : List NvencEncodedData := e.encodedDataListCopied_

end Encoder

/-! ## Auxiliary definitions

Names for terms the statements below use. -/

/-- The message of the exception `OutputNvencApiError` raises. -/
def failureMessage (apiName : String) (status : NVENCSTATUS) : String :=
  apiName ++ " call failed: " ++
    match nvEncStatusErrorNameTable.lookup status with
    | some name => name
    | none => "Unknown"

/-- The picture parameters `EncodeInputTexture` submits. -/
def framePicParams (n : Nvenc) (index : Nat) (forceIdrFrame : Bool) : PicParams :=
  { inputBuffer := (resourceAt n index).inputResource_
    inputWidth := n.desc_.width
    inputHeight := n.desc_.height
    outputBitstream := (resourceAt n index).bitstreamBuffer_
    completionEvent := (resourceAt n index).completionEvent_
    frameIdx := n.inputIndex_ % 2 ^ 32
    forceIdr := forceIdrFrame
    eos := false }

/-- The picture parameters `SendEOS` submits. -/
def eosPicParams (completionEvent : Nat) : PicParams :=
  { inputBuffer := 0
    inputWidth := 0
    inputHeight := 0
    outputBitstream := 0
    completionEvent := completionEvent
    frameIdx := 0
    forceIdr := false
    eos := true }

/-- The in-flight flags of the ring, slot by slot. -/
def flags (n : Nvenc) : List Bool := n.resources_.map fun r => r.isEncoding_

/-- The backend rejects no call: every status is success or need-more-input,
the two `CallNvencApi` hands back without raising. -/
def Backend.Accepts (B : Backend) : Prop :=
  ∀ t, B.status t = NVENCSTATUS.NV_ENC_SUCCESS ∨ B.status t = NVENCSTATUS.NV_ENC_ERR_NEED_MORE_INPUT

/-- No completion wait fails (`WaitForSingleObject` never gives `WAIT_FAILED`). -/
def Backend.WaitsDoNotFail (B : Backend) : Prop :=
  ∀ t, B.wait t ≠ WaitResult.WAIT_FAILED

/-- The operation leaves the part `g` of the session as it found it, whatever
its outcome. -/
structure Keeps {α κ : Type} (g : Nvenc → κ) (m : Eff World α) : Prop where
  keeps : ∀ w, g (m w).2.self = g w.self

/-- The part of the session the ring's bookkeeping consists of: the two
indices and the in-flight flags. -/
def ring (n : Nvenc) : Nat × Nat × List Bool := (n.inputIndex_, n.outputIndex_, flags n)

/-- The operation leaves the session in `I` when it found it in `I`, whatever
its outcome. -/
structure Maintains {α : Type} (I : Nvenc → Prop) (m : Eff World α) : Prop where
  maintains : ∀ w, I w.self → I (m w).2.self

/-- The operations of a session. -/
inductive SessionOp where
  | Initialize
  | Encode (source : Nat) (forceIdrFrame : Bool)
  | GetEncodedData
  | EndEncode
  | SendEOS
  | Resize (width height : Nat)
  | Finalize
  deriving DecidableEq, Repr

/-- The state an operation leaves, whether it returns or throws. A
`GetEncodedData` is given an empty vector. -/
def SessionOp.run (B : Backend) : SessionOp → World → World
  | SessionOp.Initialize, w => (Nvenc.Initialize B w).2
  | SessionOp.Encode source forceIdrFrame, w => (Nvenc.Encode B source forceIdrFrame w).2
  | SessionOp.GetEncodedData, w => (Nvenc.withLocalData (Nvenc.GetEncodedData B) w).2
  | SessionOp.EndEncode, w => (Nvenc.EndEncode B w).2
  | SessionOp.SendEOS, w => (Nvenc.SendEOS B w).2
  | SessionOp.Resize width height, w => (Nvenc.Resize B width height w).2
  | SessionOp.Finalize, w => (Nvenc.Finalize B w).2

/-- A process in which the backend library is not loaded. -/
def freshProcess : Process := ⟨0, false, 0, []⟩

/-- The session is valid, its ring has one slot, and either nothing is
pending and the slot is free, or one index is pending and the slot is in
flight. -/
def Steady (n : Nvenc) : Prop :=
  n.encoder_ ≠ 0 ∧
    ((flags n = [false] ∧ n.inputIndex_ = n.outputIndex_) ∨
      (flags n = [true] ∧ n.inputIndex_ = n.outputIndex_ + 1))

/-- A call of an interleaving of submissions and drains. -/
inductive StreamOp where
  | Encode (source : Nat) (forceIdrFrame : Bool)
  | GetEncodedData
  deriving DecidableEq, Repr

/-- What an interleaving has done so far: the state, the number of `Encode`
calls that returned `true`, the packets produced, in the order produced, and
the number of calls that did not return. -/
structure Stream where
  world : World
  accepted : Nat
  packets : List NvencEncodedData
  raised : Nat

/-- One call of the interleaving. Each `GetEncodedData` is given an empty
vector, and what it leaves there is added to the packets produced. -/
def Stream.step (B : Backend) (st : Stream) : StreamOp → Stream
  | StreamOp.Encode source forceIdrFrame =>
    match Nvenc.Encode B source forceIdrFrame st.world with
    | (Outcome.ok true, w) => { st with world := w, accepted := st.accepted + 1 }
    | (Outcome.ok false, w) => { st with world := w }
    | (_, w) => { st with world := w, raised := st.raised + 1 }
  | StreamOp.GetEncodedData =>
    match Nvenc.GetEncodedData B (st.world, []) with
    | (Outcome.ok (), (w, data)) => { st with world := w, packets := st.packets ++ data }
    | (_, (w, data)) =>
      { st with world := w, packets := st.packets ++ data, raised := st.raised + 1 }

/-- The interleaving `ops`, run from the state `w`. -/
def runStream (B : Backend) (ops : List StreamOp) (w : World) : Stream :=
  ops.foldl (Stream.step B) ⟨w, 0, [], 0⟩

/-- What holds of an interleaving on a backend that never fails. -/
def Stream.Good (st : Stream) : Prop :=
  Steady st.world.self ∧ st.raised = 0 ∧ st.accepted = st.world.self.inputIndex_ ∧
    st.packets.map (fun ed => ed.index) = List.range st.world.self.outputIndex_

/-- A call made on the encoder before a resize: a submission by the caller or
a pass of the consumer thread. -/
inductive AppOp where
  | Encode (source : Nat) (forceIdrFrame : Bool)
  | UpdateGetEncodedData
  deriving DecidableEq, Repr

/-- Whether the session accepts the submission `Encoder::Encode` forwards
from the state `a`: whether `nvenc_->Encode` returns `true` there. -/
def sessionAccepts (B : Backend) (source : Nat) (forceIdrFrame : Bool) (a : App) : Bool :=
  match a.self.nvenc_ with
  | none => false
  | some n => decide ((Nvenc.Encode B source forceIdrFrame ⟨n, a.proc⟩).1 = Outcome.ok true)

/-- The encoder's state and the number of submissions the session has
accepted. -/
structure Feed where
  app : App
  accepted : Nat

def Feed.step (B : Backend) (fd : Feed) : AppOp → Feed
  | AppOp.Encode source forceIdrFrame =>
    { app := (Encoder.Encode B source forceIdrFrame fd.app).2
      accepted := fd.accepted + (if sessionAccepts B source forceIdrFrame fd.app then 1 else 0) }
  | AppOp.UpdateGetEncodedData =>
    { app := (Encoder.UpdateGetEncodedData B fd.app).2
      accepted := fd.accepted }

/-- The calls `ops`, made in turn from the state `a`. -/
def runFeed (B : Backend) (ops : List AppOp) (a : App) : Feed :=
  ops.foldl (Feed.step B) ⟨a, 0⟩

/-- The number of packets a drain and a copy expose when made right after
`Resize(width, height)` on the state `a`. -/
def exposedAfterResize (B : Backend) (width height : Nat) (a : App) : Nat :=
  (Encoder.GetEncodedDataList
    (Encoder.CopyEncodedDataList
      (Encoder.UpdateGetEncodedData B (Encoder.Resize B width height a).2).2).2.self).length

/-- Nothing is pending on the one slot, which is free. -/
def Idle (n : Nvenc) : Prop := flags n = [false] ∧ n.inputIndex_ = n.outputIndex_

/-- What holds of the calls made before the resize on a backend that never
fails: the session is steady, the accepted submissions are counted by
`inputIndex` and the drained packets, all in the accumulated list, by
`outputIndex`. -/
def Feed.Good (fd : Feed) : Prop :=
  ∃ n, fd.app.self.nvenc_ = some n ∧ Steady n ∧ fd.accepted = n.inputIndex_ ∧
    fd.app.self.encodedDataList_.length = n.outputIndex_



/-! ### Concrete backends and states -/

/-- A backend that accepts every call, signals every wait and hands out the
non-null handle `t + 1` at position `t`. -/
def okBackend : Backend :=
  { status := fun _ => NVENCSTATUS.NV_ENC_SUCCESS
    handle := fun t => t + 1
    succeeded := fun _ => true
    wait := fun _ => WaitResult.WAIT_OBJECT_0
    bitstream := fun t => [t]
    version := fun _ => 0
    currentVersion := 0 }

/-- A backend like `okBackend` whose every completion wait times out. -/
def timeoutBackend : Backend :=
  { okBackend with wait := fun _ => WaitResult.WAIT_TIMEOUT }

/-- A backend like `okBackend` that rejects the call made at position `k`
with `NV_ENC_ERR_INVALID_PARAM`. -/
def rejectingBackend (k : Nat) : Backend :=
  { okBackend with
    status := fun t =>
      if t = k then NVENCSTATUS.NV_ENC_ERR_INVALID_PARAM else NVENCSTATUS.NV_ENC_SUCCESS }

/-- A backend like `okBackend` on which opening a shared texture fails. -/
def copyFailBackend : Backend :=
  { okBackend with succeeded := fun _ => false }

/-- An initialized 640x480 session with nothing submitted: the slot is
registered, not mapped and not in flight. -/
def readySession : Nvenc :=
  { desc_ := ⟨1, 640, 480, 87, 30⟩
    encoder_ := 6
    isInitialized_ := true
    inputIndex_ := 0
    outputIndex_ := 0
    resources_ := [⟨11, 12, 13, 0, 14, 9, false⟩]
    initializeParams_ := ⟨640, 480, 640, 480, 30⟩ }

/-- The process with the backend library loaded for one session and an empty
call log. -/
def readyProcess : Process := ⟨1, true, 1, []⟩

def readyWorld : World := ⟨readySession, readyProcess⟩

/-- The session of `readyWorld` after one accepted submission: the slot is
mapped and in flight. -/
def busyWorld : World :=
  ⟨{ readySession with inputIndex_ := 1, resources_ := [⟨11, 12, 13, 5, 14, 9, true⟩] }, readyProcess⟩

/-- The session of `busyWorld` after `SendEOS`: two indices are pending on
the one slot. -/
def eosWorld : World :=
  ⟨{ readySession with inputIndex_ := 2, resources_ := [⟨11, 12, 13, 5, 14, 9, true⟩] }, readyProcess⟩

/-- A session whose pending index 1 selects a slot that is not in flight. -/
def gapWorld : World :=
  ⟨{ readySession with
      inputIndex_ := 2
      outputIndex_ := 1
      resources_ := [⟨11, 12, 13, 5, 14, 9, false⟩] }, readyProcess⟩

/-- A valid encoder that owns `readySession`. -/
def readyApp : App :=
  ⟨{ desc_ := ⟨640, 480, 30, 87⟩
     device_ := 1
     nvenc_ := some readySession
     encodedDataList_ := []
     encodedDataListCopied_ := []
     encodeThread_ := true
     shouldStopEncodeThread_ := false
     isEncodeRequested := false
     error_ := "" }, readyProcess⟩

/-- The part of the session no slot operation touches: the encoder handle
and the description. -/
def settings (n : Nvenc) : Nat × NvencDesc := (n.encoder_, n.desc_)

/-- Every exception the operation can raise carries a non-empty message. -/
structure RaisesMessage {σ α : Type} (m : Eff σ α) : Prop where
  nonempty : ∀ s e, (m s).1 = Outcome.thrown e → e ≠ ""

/-- A call on the module's reference count. -/
inductive ModuleOp where
  | LoadModule
  | UnloadModule
  deriving DecidableEq, Repr

def ModuleOp.run (B : Backend) : ModuleOp → Eff World Unit
  | ModuleOp.LoadModule => Nvenc.LoadModule B
  | ModuleOp.UnloadModule => Nvenc.UnloadModule

/-- What one call of a sequence did: the reference count it found and the
one it left, whether it returned, and the calls it made to the collaborators. -/
structure ModuleStep where
  op : ModuleOp
  countBefore : Int
  countAfter : Int
  returned : Bool
  calls : List Call
  deriving DecidableEq, Repr

/-- The record of one call made in the state `w`. -/
def ModuleOp.step (B : Backend) (op : ModuleOp) (w : World) : ModuleStep :=
  { op := op
    countBefore := w.proc.s_referenceCount
    countAfter := (op.run B w).2.proc.s_referenceCount
    returned := decide ((op.run B w).1 = Outcome.ok ())
    calls := (op.run B w).2.proc.log.drop w.proc.log.length }

/-- A valid encoder whose session is that of `eosWorld`, with one packet
already accumulated. -/
def eosApp : App :=
  ⟨{ readyApp.self with
      nvenc_ := some eosWorld.self
      encodedDataList_ := [⟨9, 1, [9]⟩] }, readyProcess⟩

/-- One index more is pending than the one slot can hold in flight: either
the slot is free and one index is pending, or the slot is in flight and two
are. -/
def Overrun (n : Nvenc) : Prop :=
  n.encoder_ ≠ 0 ∧
    ((flags n = [false] ∧ n.inputIndex_ = n.outputIndex_ + 1) ∨
      (flags n = [true] ∧ n.inputIndex_ = n.outputIndex_ + 2))

/-- The number of indices pending in the encoder's session. -/
def pendingAt (a : App) : Nat :=
  match a.self.nvenc_ with
  | none => 0
  | some n => n.inputIndex_ - n.outputIndex_

/-! ## Running the operations -/

section run

variable {σ α β : Type}

@[simp] theorem run_pure (a : α) (s : σ) : (pure a : Eff σ α) s = (Outcome.ok a, s) := rfl

@[simp] theorem run_bind (m : Eff σ α) (f : α → Eff σ β) (s : σ) :
    (m >>= f) s =
      match m s with
      | (Outcome.ok a, s1) => f a s1
      | (Outcome.thrown e, s1) => (Outcome.thrown e, s1)
      | (Outcome.undefined, s1) => (Outcome.undefined, s1) := rfl

@[simp] theorem run_Eff_pure (a : α) (s : σ) : Eff.pure a s = (Outcome.ok a, s) := rfl

@[simp] theorem run_Eff_bind (m : Eff σ α) (f : α → Eff σ β) (s : σ) :
    Eff.bind m f s =
      match m s with
      | (Outcome.ok a, s1) => f a s1
      | (Outcome.thrown e, s1) => (Outcome.thrown e, s1)
      | (Outcome.undefined, s1) => (Outcome.undefined, s1) := rfl

@[simp] theorem run_ite (c : Prop) [Decidable c] (m1 m2 : Eff σ α) (s : σ) :
    (if c then m1 else m2) s = if c then m1 s else m2 s := by
  split <;> rfl

@[simp] theorem run_ThrowError (error : String) (s : σ) :
    (ThrowError error : Eff σ Unit) s = (Outcome.thrown error, s) := rfl

@[simp] theorem run_call (c : Call) (w : World) :
    call c w = (Outcome.ok w.proc.log.length, w.logged c) := rfl

@[simp] theorem run_getSelf (w : World) : getSelf w = (Outcome.ok w.self, w) := rfl

@[simp] theorem run_modifySelf (f : Nvenc → Nvenc) (w : World) :
    modifySelf f w = (Outcome.ok (), { w with self := f w.self }) := rfl

@[simp] theorem run_getProcess (w : World) : getProcess w = (Outcome.ok w.proc, w) := rfl

@[simp] theorem run_modifyProcess (f : Process → Process) (w : World) :
    modifyProcess f w = (Outcome.ok (), { w with proc := f w.proc }) := rfl

@[simp] theorem run_getResource (index : Nat) (w : World) :
    getResource index w = (Outcome.ok (resourceAt w.self index), w) := rfl

@[simp] theorem run_modifyResource (index : Nat) (f : NvencResource → NvencResource) (w : World) :
    modifyResource index f w = (Outcome.ok (), { w with self := updateResource w.self index f }) := rfl

@[simp] theorem logged_eq (w : World) (c : Call) :
    w.logged c = { self := w.self, proc := { w.proc with log := w.proc.log ++ [c] } } := rfl

@[simp] theorem updateResource_encoder (n : Nvenc) (i : Nat) (f : NvencResource → NvencResource) :
    (updateResource n i f).encoder_ = n.encoder_ := rfl

@[simp] theorem updateResource_inputIndex (n : Nvenc) (i : Nat) (f : NvencResource → NvencResource) :
    (updateResource n i f).inputIndex_ = n.inputIndex_ := rfl

@[simp] theorem updateResource_outputIndex (n : Nvenc) (i : Nat) (f : NvencResource → NvencResource) :
    (updateResource n i f).outputIndex_ = n.outputIndex_ := rfl

@[simp] theorem updateResource_desc (n : Nvenc) (i : Nat) (f : NvencResource → NvencResource) :
    (updateResource n i f).desc_ = n.desc_ := rfl

@[simp] theorem updateResource_isInitialized (n : Nvenc) (i : Nat) (f : NvencResource → NvencResource) :
    (updateResource n i f).isInitialized_ = n.isInitialized_ := rfl

@[simp] theorem updateResource_length (n : Nvenc) (i : Nat) (f : NvencResource → NvencResource) :
    (updateResource n i f).resources_.length = n.resources_.length := by
  simp [updateResource]

/-- A write to the only entry of a ring of one. -/
theorem updateResource_single (n : Nvenc) (r : NvencResource) (f : NvencResource → NvencResource)
    (h : n.resources_ = [r]) : (updateResource n 0 f).resources_ = [f r] := by
  simp [updateResource, resourceAt, h]

@[simp] theorem run_OutputNvencApiError (apiName : String) (status : NVENCSTATUS) (s : σ) :
    (OutputNvencApiError apiName status : Eff σ Unit) s =
      (Outcome.thrown (failureMessage apiName status), s) := rfl

@[simp] theorem run_checkStatus (apiName : String) (status : NVENCSTATUS) (s : σ) :
    (checkStatus apiName status : Eff σ NVENCSTATUS) s =
      if status ≠ NVENCSTATUS.NV_ENC_SUCCESS ∧ status ≠ NVENCSTATUS.NV_ENC_ERR_NEED_MORE_INPUT then
        (Outcome.thrown (failureMessage apiName status), s)
      else (Outcome.ok status, s) := by
  by_cases h : status ≠ NVENCSTATUS.NV_ENC_SUCCESS ∧ status ≠ NVENCSTATUS.NV_ENC_ERR_NEED_MORE_INPUT <;>
    simp [checkStatus, h]

@[simp] theorem run_CallNvencApi (B : Backend) (apiName : String) (api : Call) (w : World) :
    CallNvencApi B apiName api w =
      if B.status w.proc.log.length ≠ NVENCSTATUS.NV_ENC_SUCCESS ∧
          B.status w.proc.log.length ≠ NVENCSTATUS.NV_ENC_ERR_NEED_MORE_INPUT then
        (Outcome.thrown (failureMessage apiName (B.status w.proc.log.length)), w.logged api)
      else (Outcome.ok (B.status w.proc.log.length, w.proc.log.length), w.logged api) := by
  by_cases h : B.status w.proc.log.length ≠ NVENCSTATUS.NV_ENC_SUCCESS ∧
      B.status w.proc.log.length ≠ NVENCSTATUS.NV_ENC_ERR_NEED_MORE_INPUT <;>
    simp [CallNvencApi, h]

@[simp] theorem run_ThrowErrorIfNotInitialized (w : World) :
    Nvenc.ThrowErrorIfNotInitialized w =
      if w.self.encoder_ = 0 then (Outcome.thrown "NVENC has not been initialized yet.", w)
      else (Outcome.ok (), w) := by
  simp only [Nvenc.ThrowErrorIfNotInitialized, Nvenc.IsValid, run_bind, run_getSelf, run_ite,
    run_ThrowError, run_pure]
  by_cases h : w.self.encoder_ = 0 <;> simp [h]

@[simp] theorem run_CopyToInputTexture (B : Backend) (index texture : Nat) (w : World) :
    Nvenc.CopyToInputTexture B index texture w =
      if w.self.encoder_ = 0 then (Outcome.thrown "NVENC has not been initialized yet.", w)
      else if B.succeeded w.proc.log.length = false then
        (Outcome.ok false,
          w.logged (Call.OpenSharedResource (resourceAt w.self index).inputTextureSharedHandle_))
      else
        (Outcome.ok true,
          (((w.logged (Call.OpenSharedResource (resourceAt w.self index).inputTextureSharedHandle_)).logged
            (Call.CopyResource (B.handle w.proc.log.length) texture)).logged Call.Flush).logged
            (Call.ReleaseTexture (B.handle w.proc.log.length))) := by
  by_cases hv : w.self.encoder_ = 0 <;> by_cases hs : B.succeeded w.proc.log.length = false <;>
    simp [Nvenc.CopyToInputTexture, hv, hs]

@[simp] theorem run_MapInputResource (B : Backend) (index : Nat) (w : World) :
    Nvenc.MapInputResource B index w =
      if w.self.encoder_ = 0 then (Outcome.thrown "NVENC has not been initialized yet.", w)
      else if (resourceAt w.self index).registeredResource_ = 0 then (Outcome.ok (), w)
      else if B.status w.proc.log.length ≠ NVENCSTATUS.NV_ENC_SUCCESS ∧
          B.status w.proc.log.length ≠ NVENCSTATUS.NV_ENC_ERR_NEED_MORE_INPUT then
        (Outcome.thrown (failureMessage "s_nvenc.nvEncMapInputResource" (B.status w.proc.log.length)),
          w.logged (Call.nvEncMapInputResource w.self.encoder_ (resourceAt w.self index).registeredResource_))
      else
        (Outcome.ok (),
          { w.logged (Call.nvEncMapInputResource w.self.encoder_
              (resourceAt w.self index).registeredResource_) with
            self := updateResource w.self index fun r =>
              { r with inputResource_ := B.handle w.proc.log.length } }) := by
  by_cases hv : w.self.encoder_ = 0 <;>
  by_cases hr : (resourceAt w.self index).registeredResource_ = 0 <;>
  by_cases hs : B.status w.proc.log.length ≠ NVENCSTATUS.NV_ENC_SUCCESS ∧
          B.status w.proc.log.length ≠ NVENCSTATUS.NV_ENC_ERR_NEED_MORE_INPUT <;>
    simp [Nvenc.MapInputResource, hv, hr, hs]

@[simp] theorem run_EncodeInputTexture (B : Backend) (index : Nat) (forceIdrFrame : Bool) (w : World) :
    Nvenc.EncodeInputTexture B index forceIdrFrame w =
      if w.self.encoder_ = 0 then (Outcome.thrown "NVENC has not been initialized yet.", w)
      else if B.status w.proc.log.length ≠ NVENCSTATUS.NV_ENC_SUCCESS ∧
          B.status w.proc.log.length ≠ NVENCSTATUS.NV_ENC_ERR_NEED_MORE_INPUT then
        (Outcome.thrown (failureMessage "s_nvenc.nvEncEncodePicture" (B.status w.proc.log.length)),
          w.logged (Call.nvEncEncodePicture w.self.encoder_ (framePicParams w.self index forceIdrFrame)))
      else
        (Outcome.ok true,
          w.logged (Call.nvEncEncodePicture w.self.encoder_ (framePicParams w.self index forceIdrFrame))) := by
  by_cases hv : w.self.encoder_ = 0 <;>
  by_cases hs : B.status w.proc.log.length ≠ NVENCSTATUS.NV_ENC_SUCCESS ∧
          B.status w.proc.log.length ≠ NVENCSTATUS.NV_ENC_ERR_NEED_MORE_INPUT <;>
    simp [Nvenc.EncodeInputTexture, framePicParams, hv, hs]

@[simp] theorem run_UnmapInputResource (B : Backend) (index : Nat) (w : World) :
    Nvenc.UnmapInputResource B index w =
      if w.self.encoder_ = 0 then (Outcome.thrown "NVENC has not been initialized yet.", w)
      else if (resourceAt w.self index).inputResource_ = 0 then
        if B.status w.proc.log.length ≠ NVENCSTATUS.NV_ENC_SUCCESS ∧
            B.status w.proc.log.length ≠ NVENCSTATUS.NV_ENC_ERR_NEED_MORE_INPUT then
          (Outcome.thrown (failureMessage "s_nvenc.nvEncUnmapInputResource" (B.status w.proc.log.length)),
            w.logged (Call.nvEncUnmapInputResource w.self.encoder_ 0))
        else
          (Outcome.ok (),
            { w.logged (Call.nvEncUnmapInputResource w.self.encoder_ 0) with
              self := updateResource w.self index fun r => { r with inputResource_ := 0 } })
      else (Outcome.ok (), w) := by
  by_cases hv : w.self.encoder_ = 0 <;>
  by_cases hr : (resourceAt w.self index).inputResource_ = 0 <;>
  by_cases hs : B.status w.proc.log.length ≠ NVENCSTATUS.NV_ENC_SUCCESS ∧
          B.status w.proc.log.length ≠ NVENCSTATUS.NV_ENC_ERR_NEED_MORE_INPUT <;>
    simp [Nvenc.UnmapInputResource, hv, hr, hs]

@[simp] theorem run_WaitForCompletion (B : Backend) (index duration : Nat) (w : World) :
    Nvenc.WaitForCompletion B index duration w =
      if w.self.encoder_ = 0 then (Outcome.thrown "NVENC has not been initialized yet.", w)
      else if B.wait w.proc.log.length = WaitResult.WAIT_FAILED then
        (Outcome.thrown "Failed to wait for encode completion.",
          w.logged (Call.WaitForSingleObject (resourceAt w.self index).completionEvent_ duration))
      else
        (Outcome.ok true,
          w.logged (Call.WaitForSingleObject (resourceAt w.self index).completionEvent_ duration)) := by
  by_cases hv : w.self.encoder_ = 0 <;>
  by_cases hs : B.wait w.proc.log.length = WaitResult.WAIT_FAILED <;>
    simp [Nvenc.WaitForCompletion, hv, hs]

@[simp] theorem run_SendEOS (B : Backend) (w : World) :
    Nvenc.SendEOS B w =
      if w.self.encoder_ = 0 then (Outcome.thrown "NVENC has not been initialized yet.", w)
      else if B.status w.proc.log.length ≠ NVENCSTATUS.NV_ENC_SUCCESS ∧
          B.status w.proc.log.length ≠ NVENCSTATUS.NV_ENC_ERR_NEED_MORE_INPUT then
        (Outcome.thrown (failureMessage "s_nvenc.nvEncEncodePicture" (B.status w.proc.log.length)),
          { (w.logged (Call.nvEncEncodePicture w.self.encoder_
              (eosPicParams (resourceAt (updateResource w.self w.self.GetInputIndex fun r =>
                { r with isEncoding_ := true }) w.self.GetInputIndex).completionEvent_))) with
            self := updateResource w.self w.self.GetInputIndex fun r => { r with isEncoding_ := true } })
      else
        (Outcome.ok (),
          { (w.logged (Call.nvEncEncodePicture w.self.encoder_
              (eosPicParams (resourceAt (updateResource w.self w.self.GetInputIndex fun r =>
                { r with isEncoding_ := true }) w.self.GetInputIndex).completionEvent_))) with
            self :=
              { (updateResource w.self w.self.GetInputIndex fun r => { r with isEncoding_ := true }) with
                inputIndex_ := w.self.inputIndex_ + 1 } }) := by
  by_cases hv : w.self.encoder_ = 0 <;>
  by_cases hs : B.status w.proc.log.length ≠ NVENCSTATUS.NV_ENC_SUCCESS ∧
          B.status w.proc.log.length ≠ NVENCSTATUS.NV_ENC_ERR_NEED_MORE_INPUT <;>
    simp [Nvenc.SendEOS, eosPicParams, hv, hs]

@[simp] theorem run_onWorld (m : Eff World α) (s : World × List NvencEncodedData) :
    Nvenc.onWorld m s = ((m s.1).1, ((m s.1).2, s.2)) := rfl

@[simp] theorem run_pushBack (ed : NvencEncodedData) (s : World × List NvencEncodedData) :
    Nvenc.pushBack ed s = (Outcome.ok (), (s.1, s.2 ++ [ed])) := rfl

@[simp] theorem run_advanceOutputIndex (s : World × List NvencEncodedData) :
    Nvenc.advanceOutputIndex s =
      (Outcome.ok (),
        ({ s.1 with self := { s.1.self with outputIndex_ := s.1.self.outputIndex_ + 1 } }, s.2)) := rfl

/-! ### The in-flight flags of the ring -/

@[simp] theorem flags_length (n : Nvenc) : (flags n).length = n.resources_.length := by
  simp only [flags, List.length_map]

theorem flags_updateResource (n : Nvenc) (i : Nat) (f : NvencResource → NvencResource) :
    flags (updateResource n i f) = (flags n).set i (f (resourceAt n i)).isEncoding_ := by
  simp [flags, updateResource, List.map_set]

theorem flags_set_of_eq (n : Nvenc) (i : Nat) (b : Bool) (h : (resourceAt n i).isEncoding_ = b) :
    (flags n).set i b = flags n := by
  apply List.ext_getElem
  · simp
  · intro k h1 h2
    rw [List.getElem_set]
    split
    · rename_i hik
      subst hik
      rw [← h]
      simp only [flags, List.length_map] at h2
      simp [flags, resourceAt, List.getElem?_eq_getElem h2]
    · rfl

theorem flags_set_self (n : Nvenc) (i : Nat) :
    (flags n).set i (resourceAt n i).isEncoding_ = flags n :=
  flags_set_of_eq n i _ rfl

theorem resourceAt_updateResource (n : Nvenc) (i j : Nat) (f : NvencResource → NvencResource) :
    resourceAt (updateResource n i f) j =
      if j = i ∧ i < n.resources_.length then f (resourceAt n i) else resourceAt n j := by
  simp only [resourceAt, updateResource, List.getD_eq_getElem?_getD, List.getElem?_set]
  by_cases hji : i = j
  · subst hji
    by_cases hlt : i < n.resources_.length
    · simp [hlt]
    · simp [hlt, List.getElem?_eq_none (Nat.le_of_not_lt hlt)]
  · have : ¬ (j = i) := fun h => hji h.symm
    simp [hji, this]

@[simp] theorem flags_mk (d : NvencDesc) (e : Nat) (i : Bool) (a b : Nat) (rs : List NvencResource)
    (ip : InitializeParams) :
    flags ⟨d, e, i, a, b, rs, ip⟩ = rs.map fun r => r.isEncoding_ := rfl

@[simp] theorem map_isEncoding_resources (n : Nvenc) :
    (n.resources_.map fun r => r.isEncoding_) = flags n := rfl

theorem flags_set_of_length_le (n : Nvenc) (i : Nat) (b : Bool) (h : ¬ i < n.resources_.length) :
    (flags n).set i b = flags n := by
  apply List.set_eq_of_length_le
  simp only [flags, List.length_map]
  exact Nat.le_of_not_lt h

theorem Encode_spec (B : Backend) (source : Nat) (f : Bool) (w : World) :
    (Nvenc.Encode B source f w).2.self.outputIndex_ = w.self.outputIndex_ ∧
    (Nvenc.Encode B source f w).2.self.encoder_ = w.self.encoder_ ∧
    (match (Nvenc.Encode B source f w).1 with
     | Outcome.ok true =>
        (Nvenc.Encode B source f w).2.self.inputIndex_ = w.self.inputIndex_ + 1 ∧
        (resourceAt w.self w.self.GetInputIndex).isEncoding_ = false ∧
        flags (Nvenc.Encode B source f w).2.self = (flags w.self).set w.self.GetInputIndex true
     | Outcome.ok false =>
        (Nvenc.Encode B source f w).2.self.inputIndex_ = w.self.inputIndex_ ∧
        flags (Nvenc.Encode B source f w).2.self = flags w.self
     | Outcome.thrown _ =>
        (Nvenc.Encode B source f w).2.self.inputIndex_ = w.self.inputIndex_ ∧
        (flags (Nvenc.Encode B source f w).2.self = flags w.self ∨
          ((resourceAt w.self w.self.GetInputIndex).isEncoding_ = false ∧
            flags (Nvenc.Encode B source f w).2.self = (flags w.self).set w.self.GetInputIndex true))
     | Outcome.undefined => False) := by
  have hflag : (resourceAt w.self w.self.GetInputIndex).isEncoding_ = true ∨
      (resourceAt w.self w.self.GetInputIndex).isEncoding_ = false := by
    cases (resourceAt w.self w.self.GetInputIndex).isEncoding_ <;> simp
  by_cases hv : w.self.encoder_ = 0
  · simp [Nvenc.Encode, hv]
  rcases hflag with hbusy | hfree
  · simp [Nvenc.Encode, hv, hbusy]
  by_cases hc : B.succeeded w.proc.log.length = false
  · simp [Nvenc.Encode, hv, hfree, hc, flags_updateResource, flags_set_of_eq, resourceAt_updateResource]
  by_cases hin : w.self.GetInputIndex < w.self.resources_.length
  · by_cases hreg : (resourceAt w.self w.self.GetInputIndex).registeredResource_ = 0
    · by_cases hs4 : B.status (w.proc.log.length + 4) ≠ NVENCSTATUS.NV_ENC_SUCCESS ∧
          B.status (w.proc.log.length + 4) ≠ NVENCSTATUS.NV_ENC_ERR_NEED_MORE_INPUT <;>
        simp [Nvenc.Encode, hv, hin, hfree, hc, hreg, hs4, flags_updateResource, resourceAt_updateResource,
          flags_set_of_eq _ _ _ hfree]
    · by_cases hs4 : B.status (w.proc.log.length + 4) ≠ NVENCSTATUS.NV_ENC_SUCCESS ∧
          B.status (w.proc.log.length + 4) ≠ NVENCSTATUS.NV_ENC_ERR_NEED_MORE_INPUT
      · simp [Nvenc.Encode, hv, hin, hfree, hc, hreg, hs4, flags_updateResource, resourceAt_updateResource,
          flags_set_of_eq _ _ _ hfree]
      · by_cases hs5 : B.status (w.proc.log.length + 5) ≠ NVENCSTATUS.NV_ENC_SUCCESS ∧
            B.status (w.proc.log.length + 5) ≠ NVENCSTATUS.NV_ENC_ERR_NEED_MORE_INPUT <;>
          simp [Nvenc.Encode, hv, hin, hfree, hc, hreg, hs4, hs5, flags_updateResource,
            resourceAt_updateResource, flags_set_of_eq _ _ _ hfree]
  · by_cases hreg : (resourceAt w.self w.self.GetInputIndex).registeredResource_ = 0
    · by_cases hs4 : B.status (w.proc.log.length + 4) ≠ NVENCSTATUS.NV_ENC_SUCCESS ∧
          B.status (w.proc.log.length + 4) ≠ NVENCSTATUS.NV_ENC_ERR_NEED_MORE_INPUT <;>
        simp [Nvenc.Encode, hv, hin, hfree, hc, hreg, hs4, flags_updateResource, resourceAt_updateResource,
          flags_set_of_eq _ _ _ hfree, flags_set_of_length_le _ _ _ hin]
    · by_cases hs4 : B.status (w.proc.log.length + 4) ≠ NVENCSTATUS.NV_ENC_SUCCESS ∧
          B.status (w.proc.log.length + 4) ≠ NVENCSTATUS.NV_ENC_ERR_NEED_MORE_INPUT
      · simp [Nvenc.Encode, hv, hin, hfree, hc, hreg, hs4, flags_updateResource, resourceAt_updateResource,
          flags_set_of_eq _ _ _ hfree, flags_set_of_length_le _ _ _ hin]
      · by_cases hs5 : B.status (w.proc.log.length + 5) ≠ NVENCSTATUS.NV_ENC_SUCCESS ∧
            B.status (w.proc.log.length + 5) ≠ NVENCSTATUS.NV_ENC_ERR_NEED_MORE_INPUT <;>
          simp [Nvenc.Encode, hv, hin, hfree, hc, hreg, hs4, hs5, flags_updateResource,
            resourceAt_updateResource, flags_set_of_eq _ _ _ hfree, flags_set_of_length_le _ _ _ hin]

/-- On a free slot of a valid session, with a backend that rejects nothing,
`Encode` returns whether the copy into the slot's input texture succeeded. -/
theorem Encode_outcome_free (B : Backend) (source : Nat) (f : Bool) (w : World)
    (hB : ∀ t, ¬(B.status t ≠ NVENCSTATUS.NV_ENC_SUCCESS ∧
      B.status t ≠ NVENCSTATUS.NV_ENC_ERR_NEED_MORE_INPUT))
    (hv : w.self.encoder_ ≠ 0)
    (hfree : (resourceAt w.self w.self.GetInputIndex).isEncoding_ = false) :
    (Nvenc.Encode B source f w).1 = Outcome.ok (B.succeeded w.proc.log.length) := by
  by_cases hc : B.succeeded w.proc.log.length = false
  · simp [Nvenc.Encode, hv, hfree, hc]
  · have hc1 : B.succeeded w.proc.log.length = true := by simpa using hc
    by_cases hreg : (resourceAt (updateResource w.self w.self.GetInputIndex fun r =>
        { r with isEncoding_ := true }) w.self.GetInputIndex).registeredResource_ = 0 <;>
      simp [Nvenc.Encode, hv, hfree, hc1, hreg, hB]

/-- On a slot in flight, `Encode` returns `false` and changes nothing. -/
theorem Encode_busy (B : Backend) (source : Nat) (f : Bool) (w : World)
    (hv : w.self.encoder_ ≠ 0)
    (hbusy : (resourceAt w.self w.self.GetInputIndex).isEncoding_ = true) :
    Nvenc.Encode B source f w = (Outcome.ok false, w) := by
  simp [Nvenc.Encode, hv, hbusy]

/-- What one pass of the drain loop's body leaves, whatever the backend
answers. -/
theorem GetEncodedDataBody_spec (B : Backend) (s : World × List NvencEncodedData) :
    (Nvenc.GetEncodedDataBody B s).2.1.self.inputIndex_ = s.1.self.inputIndex_ ∧
    (Nvenc.GetEncodedDataBody B s).2.1.self.outputIndex_ = s.1.self.outputIndex_ ∧
    (Nvenc.GetEncodedDataBody B s).2.1.self.encoder_ = s.1.self.encoder_ ∧
    (match (Nvenc.GetEncodedDataBody B s).1 with
     | Outcome.ok _ =>
        s.1.self.encoder_ ≠ 0 ∧
        (resourceAt s.1.self s.1.self.GetOutputIndex).isEncoding_ = true ∧
        flags (Nvenc.GetEncodedDataBody B s).2.1.self = (flags s.1.self).set s.1.self.GetOutputIndex false ∧
        ∃ ed : NvencEncodedData, ed.index = s.1.self.outputIndex_ ∧
          (Nvenc.GetEncodedDataBody B s).2.2 = s.2 ++ [ed]
     | Outcome.thrown _ =>
        flags (Nvenc.GetEncodedDataBody B s).2.1.self = flags s.1.self ∧
        ((Nvenc.GetEncodedDataBody B s).2.2 = s.2 ∨
          ∃ ed : NvencEncodedData, ed.index = s.1.self.outputIndex_ ∧
            (Nvenc.GetEncodedDataBody B s).2.2 = s.2 ++ [ed])
     | Outcome.undefined => False) := by
  obtain ⟨w, d⟩ := s
  have hflag : (resourceAt w.self w.self.GetOutputIndex).isEncoding_ = true ∨
      (resourceAt w.self w.self.GetOutputIndex).isEncoding_ = false := by
    cases (resourceAt w.self w.self.GetOutputIndex).isEncoding_ <;> simp
  rcases hflag with hbusy | hfree
  swap
  · simp [Nvenc.GetEncodedDataBody, hfree]
  by_cases hv : w.self.encoder_ = 0
  · simp [Nvenc.GetEncodedDataBody, hv, hbusy]
  by_cases hw : B.wait w.proc.log.length = WaitResult.WAIT_FAILED
  · simp [Nvenc.GetEncodedDataBody, hv, hbusy, hw]
  by_cases hs1 : B.status (w.proc.log.length + 1) ≠ NVENCSTATUS.NV_ENC_SUCCESS ∧
      B.status (w.proc.log.length + 1) ≠ NVENCSTATUS.NV_ENC_ERR_NEED_MORE_INPUT
  · simp [Nvenc.GetEncodedDataBody, hv, hbusy, hw, hs1]
  by_cases hs2 : B.status (w.proc.log.length + 2) ≠ NVENCSTATUS.NV_ENC_SUCCESS ∧
      B.status (w.proc.log.length + 2) ≠ NVENCSTATUS.NV_ENC_ERR_NEED_MORE_INPUT
  · simp [Nvenc.GetEncodedDataBody, hv, hbusy, hw, hs1, hs2]
  by_cases hm : (resourceAt w.self w.self.GetOutputIndex).inputResource_ = 0
  · by_cases hs3 : B.status (w.proc.log.length + 3) ≠ NVENCSTATUS.NV_ENC_SUCCESS ∧
        B.status (w.proc.log.length + 3) ≠ NVENCSTATUS.NV_ENC_ERR_NEED_MORE_INPUT
    · simp [Nvenc.GetEncodedDataBody, hv, hbusy, hw, hs1, hs2, hm, hs3]
    · simp [Nvenc.GetEncodedDataBody, hv, hbusy, hw, hs1, hs2, hm, hs3, flags_updateResource,
        resourceAt_updateResource, flags_set_of_eq _ _ _ hbusy]
  · simp [Nvenc.GetEncodedDataBody, hv, hbusy, hw, hs1, hs2, hm, flags_updateResource,
        resourceAt_updateResource]

theorem isEncoding_resourceAt (n : Nvenc) (k : Nat) :
    (resourceAt n k).isEncoding_ = (flags n).getD k false := by
  simp only [resourceAt, flags, List.getD_eq_getElem?_getD, List.getElem?_map]
  cases n.resources_[k]? <;> rfl

theorem getD_set_false (l : List Bool) (i k : Nat) (h : l.getD k false = false) :
    (l.set i false).getD k false = false := by
  simp only [List.getD_eq_getElem?_getD, List.getElem?_set] at *
  split
  · split <;> simp
  · exact h

/-- With a backend that rejects nothing and a wait that does not fail, the
body of the drain loop returns on a slot in flight. -/
theorem GetEncodedDataBody_ok (B : Backend) (s : World × List NvencEncodedData)
    (hB : ∀ t, ¬(B.status t ≠ NVENCSTATUS.NV_ENC_SUCCESS ∧
      B.status t ≠ NVENCSTATUS.NV_ENC_ERR_NEED_MORE_INPUT))
    (hW : ∀ t, B.wait t ≠ WaitResult.WAIT_FAILED)
    (hv : s.1.self.encoder_ ≠ 0)
    (hbusy : (resourceAt s.1.self s.1.self.GetOutputIndex).isEncoding_ = true) :
    (Nvenc.GetEncodedDataBody B s).1 = Outcome.ok () := by
  obtain ⟨w, d⟩ := s
  by_cases hm : (resourceAt w.self w.self.GetOutputIndex).inputResource_ = 0 <;>
    simp [Nvenc.GetEncodedDataBody, hv, hbusy, hB, hW, hm]

/-- What the drain loop leaves, whatever the backend answers: the input index,
the encoder handle and the ring's size are kept, the output index does not
go back and does not pass the input index, and no slot becomes in flight. -/
theorem GetEncodedDataLoop_frame (B : Backend) (fuel : Nat) :
    ∀ s : World × List NvencEncodedData,
      (Nvenc.GetEncodedDataLoop B fuel s).2.1.self.inputIndex_ = s.1.self.inputIndex_ ∧
      (Nvenc.GetEncodedDataLoop B fuel s).2.1.self.encoder_ = s.1.self.encoder_ ∧
      (flags (Nvenc.GetEncodedDataLoop B fuel s).2.1.self).length = (flags s.1.self).length ∧
      s.1.self.outputIndex_ ≤ (Nvenc.GetEncodedDataLoop B fuel s).2.1.self.outputIndex_ ∧
      (s.1.self.outputIndex_ ≤ s.1.self.inputIndex_ →
        (Nvenc.GetEncodedDataLoop B fuel s).2.1.self.outputIndex_ ≤ s.1.self.inputIndex_) ∧
      (∀ k, (flags s.1.self).getD k false = false →
        (flags (Nvenc.GetEncodedDataLoop B fuel s).2.1.self).getD k false = false) ∧
      (Nvenc.GetEncodedDataLoop B fuel s).1 ≠ Outcome.undefined := by
  induction fuel with
  | zero => intro s; simp [Nvenc.GetEncodedDataLoop]
  | succ fuel ih =>
    intro s
    by_cases hlt : s.1.self.outputIndex_ < s.1.self.inputIndex_
    swap
    · simp [Nvenc.GetEncodedDataLoop, hlt]
    have spec := GetEncodedDataBody_spec B s
    rcases hb : Nvenc.GetEncodedDataBody B s with ⟨r, w1, d1⟩
    rw [hb] at spec
    cases r with
    | ok u =>
      obtain ⟨h1, h2, h3, -, -, h5, -⟩ := spec
      have ih1 := ih ({ w1 with self := { w1.self with outputIndex_ := w1.self.outputIndex_ + 1 } }, d1)
      simp only [Nvenc.GetEncodedDataLoop, run_bind, run_onWorld, run_getSelf, hlt, if_true, hb,
        run_advanceOutputIndex]
      simp only [flags_mk, map_isEncoding_resources] at ih1
      simp only at h1 h2 h3 h5
      obtain ⟨i1, i2, i3, i4, i5, i6, i7⟩ := ih1
      refine ⟨by rw [i1, h1], by rw [i2, h3], by rw [i3, h5]; simp, by omega, fun _ => ?_, fun k hk => ?_, i7⟩
      · have := i5 (by omega); omega
      · apply i6
        rw [h5]
        exact getD_set_false _ _ _ hk
    | thrown e =>
      obtain ⟨h1, h2, h3, h5, -⟩ := spec
      simp only [Nvenc.GetEncodedDataLoop, run_bind, run_onWorld, run_getSelf, hlt, if_true, hb]
      simp only at h1 h2 h3 h5
      refine ⟨h1, h3, by rw [h5], by omega, fun _ => by omega, fun k hk => by rw [h5]; exact hk, by simp⟩
    | undefined => exact absurd spec.2.2.2 (by simp)

@[simp] theorem run_GetEncodedData (B : Backend) (s : World × List NvencEncodedData) :
    Nvenc.GetEncodedData B s =
      if s.1.self.encoder_ = 0 then (Outcome.thrown "NVENC has not been initialized yet.", s)
      else Nvenc.GetEncodedDataLoop B (s.1.self.inputIndex_ - s.1.self.outputIndex_) s := by
  by_cases hv : s.1.self.encoder_ = 0 <;> simp [Nvenc.GetEncodedData, hv]

/-- The drain loop does nothing once the output index has reached the input
index. -/
theorem GetEncodedDataLoop_done (B : Backend) (fuel : Nat) (s : World × List NvencEncodedData)
    (h : ¬ s.1.self.outputIndex_ < s.1.self.inputIndex_) :
    Nvenc.GetEncodedDataLoop B fuel s = (Outcome.ok (), s) := by
  cases fuel <;> simp [Nvenc.GetEncodedDataLoop, h]

/-- One pass of the drain loop, when the body returns. -/
theorem GetEncodedDataLoop_step (B : Backend) (fuel : Nat) (s s1 : World × List NvencEncodedData)
    (hlt : s.1.self.outputIndex_ < s.1.self.inputIndex_)
    (hb : Nvenc.GetEncodedDataBody B s = (Outcome.ok (), s1)) :
    Nvenc.GetEncodedDataLoop B (fuel + 1) s =
      Nvenc.GetEncodedDataLoop B fuel
        ({ s1.1 with self := { s1.1.self with outputIndex_ := s1.1.self.outputIndex_ + 1 } }, s1.2) := by
  simp [Nvenc.GetEncodedDataLoop, hlt, hb]

/-- One pass of the drain loop, when the body throws. -/
theorem GetEncodedDataLoop_throw (B : Backend) (fuel : Nat) (s s1 : World × List NvencEncodedData)
    (e : String) (hlt : s.1.self.outputIndex_ < s.1.self.inputIndex_)
    (hb : Nvenc.GetEncodedDataBody B s = (Outcome.thrown e, s1)) :
    Nvenc.GetEncodedDataLoop B (fuel + 1) s = (Outcome.thrown e, s1) := by
  simp [Nvenc.GetEncodedDataLoop, hlt, hb]

theorem getD_set_self_false (l : List Bool) (i : Nat) : (l.set i false).getD i false = false := by
  by_cases h : i < l.length
  · simp [List.getD_eq_getElem?_getD, List.getElem?_set, h]
  · simp [List.getD_eq_getElem?_getD, List.getElem?_eq_none, Nat.le_of_not_lt h]

/-- When the drain loop returns, it has reached the input index, every slot it
visited is free, and it has appended one packet per index, in index order. -/
theorem GetEncodedDataLoop_ok (B : Backend) (fuel : Nat) :
    ∀ s : World × List NvencEncodedData,
      (Nvenc.GetEncodedDataLoop B fuel s).1 = Outcome.ok () →
      s.1.self.inputIndex_ - s.1.self.outputIndex_ ≤ fuel →
      (s.1.self.outputIndex_ ≤ s.1.self.inputIndex_ →
        (Nvenc.GetEncodedDataLoop B fuel s).2.1.self.outputIndex_ = s.1.self.inputIndex_) ∧
      (∀ j, s.1.self.outputIndex_ ≤ j → j < s.1.self.inputIndex_ →
        (flags (Nvenc.GetEncodedDataLoop B fuel s).2.1.self).getD (j % s.1.self.resources_.length) false
          = false) ∧
      ∃ pk : List NvencEncodedData,
        (Nvenc.GetEncodedDataLoop B fuel s).2.2 = s.2 ++ pk ∧
        pk.map (fun ed => ed.index) =
          List.range' s.1.self.outputIndex_ (s.1.self.inputIndex_ - s.1.self.outputIndex_) := by
  induction fuel with
  | zero =>
    intro s _ hf
    have h : ¬ s.1.self.outputIndex_ < s.1.self.inputIndex_ := by omega
    rw [GetEncodedDataLoop_done B 0 s h]
    refine ⟨fun _ => by simp only; omega, fun j h1 h2 => by omega, [], by simp, ?_⟩
    have : s.1.self.inputIndex_ - s.1.self.outputIndex_ = 0 := by omega
    simp [this]
  | succ fuel ih =>
    intro s hok hf
    by_cases hlt : s.1.self.outputIndex_ < s.1.self.inputIndex_
    swap
    · rw [GetEncodedDataLoop_done B _ s hlt]
      refine ⟨fun _ => by simp only; omega, fun j h1 h2 => by omega, [], by simp, ?_⟩
      have : s.1.self.inputIndex_ - s.1.self.outputIndex_ = 0 := by omega
      simp [this]
    have spec := GetEncodedDataBody_spec B s
    rcases hb : Nvenc.GetEncodedDataBody B s with ⟨r, s1⟩
    rw [hb] at spec
    cases r with
    | ok u =>
      obtain ⟨h1, h2, h3, -, -, h5, ed, hed, hd⟩ := spec
      simp only at h1 h2 h3 h5 hd
      rw [GetEncodedDataLoop_step B fuel s s1 hlt hb] at hok ⊢
      have hfr := GetEncodedDataLoop_frame B fuel
        ({ s1.1 with self := { s1.1.self with outputIndex_ := s1.1.self.outputIndex_ + 1 } }, s1.2)
      obtain ⟨i1, i2, pk, i3, i4⟩ := ih _ hok (by simp only; omega)
      simp only at i1 i2 i3 i4
      have hlen : s1.1.self.resources_.length = s.1.self.resources_.length := by
        have := congrArg List.length h5
        simp only [flags, List.length_map, List.length_set] at this
        exact this
      refine ⟨fun _ => by rw [i1 (by omega), h1], fun j hj1 hj2 => ?_, ed :: pk, ?_, ?_⟩
      · by_cases hj : j = s.1.self.outputIndex_
        · subst hj
          apply hfr.2.2.2.2.2.1
          simp only [flags_mk, map_isEncoding_resources]
          rw [h5]
          exact getD_set_self_false _ _
        · have := i2 j (by omega) (by omega)
          rw [hlen] at this
          exact this
      · rw [i3, hd]; simp
      · rw [List.map_cons, i4, hed, h1, h2]
        have : s.1.self.inputIndex_ - s.1.self.outputIndex_ =
            (s.1.self.inputIndex_ - (s.1.self.outputIndex_ + 1)) + 1 := by omega
        rw [this, List.range'_succ]
    | thrown e =>
      rw [GetEncodedDataLoop_throw B fuel s s1 e hlt hb] at hok
      simp at hok
    | undefined => exact absurd spec.2.2.2 (by simp)

@[simp] theorem run_callApp (c : Call) (a : App) :
    callApp c a =
      (Outcome.ok a.proc.log.length, { a with proc := { a.proc with log := a.proc.log ++ [c] } }) := rfl

@[simp] theorem run_getEncoder (a : App) : getEncoder a = (Outcome.ok a.self, a) := rfl

@[simp] theorem run_modifyEncoder (f : Encoder → Encoder) (a : App) :
    modifyEncoder f a = (Outcome.ok (), { a with self := f a.self }) := rfl

@[simp] theorem run_tryCatch (body : Eff σ α) (handler : String → Eff σ α) (s : σ) :
    tryCatch body handler s =
      match body s with
      | (Outcome.thrown e, s1) => handler e s1
      | r => r := rfl

theorem run_withNvenc (m : Eff World α) (a : App) (n : Nvenc) (h : a.self.nvenc_ = some n) :
    withNvenc m a =
      ((m ⟨n, a.proc⟩).1,
        { self := { a.self with nvenc_ := some (m ⟨n, a.proc⟩).2.self }, proc := (m ⟨n, a.proc⟩).2.proc }) := by
  simp [withNvenc, h]

theorem Backend.Accepts.not_rejected {B : Backend} (h : B.Accepts) :
    ∀ t, ¬(B.status t ≠ NVENCSTATUS.NV_ENC_SUCCESS ∧
      B.status t ≠ NVENCSTATUS.NV_ENC_ERR_NEED_MORE_INPUT) := by
  intro t ht
  rcases h t with h1 | h1
  · exact ht.1 h1
  · exact ht.2 h1

theorem okBackend_accepts : okBackend.Accepts := fun _ => Or.inl rfl

theorem okBackend_waits : okBackend.WaitsDoNotFail := fun _ => by simp [okBackend]

end run

/-! ## What the set-up and tear-down functions keep -/

section keeps

variable {α β κ : Type} {g : Nvenc → κ}

theorem Keeps.pure (a : α) : Keeps g (pure a : Eff World α) := ⟨fun _ => rfl⟩

theorem Keeps.throw (e : String) : Keeps g (ThrowError e : Eff World Unit) := ⟨fun _ => rfl⟩

theorem Keeps.bind {m : Eff World α} {f : α → Eff World β} (hm : Keeps g m)
    (hf : ∀ a, Keeps g (f a)) : Keeps g (m >>= f) := by
  constructor
  intro w
  have h1 := hm.keeps w
  simp only [run_bind]
  rcases h : m w with ⟨r, w1⟩
  rw [h] at h1
  cases r with
  | ok a => exact ((hf a).keeps w1).trans h1
  | thrown e => exact h1
  | undefined => exact h1

theorem Keeps.ite {c : Prop} [Decidable c] {m1 m2 : Eff World α} (h1 : Keeps g m1)
    (h2 : Keeps g m2) : Keeps g (if c then m1 else m2) := by
  split
  · exact h1
  · exact h2

theorem Keeps.call (c : Call) : Keeps g (call c) := ⟨fun _ => rfl⟩

theorem Keeps.getSelf : Keeps g getSelf := ⟨fun _ => rfl⟩

theorem Keeps.getProcess : Keeps g getProcess := ⟨fun _ => rfl⟩

theorem Keeps.getResource (i : Nat) : Keeps g (getResource i) := ⟨fun _ => rfl⟩

theorem Keeps.modifyProcess (f : Process → Process) : Keeps g (modifyProcess f) := ⟨fun _ => rfl⟩

theorem Keeps.modifySelf {f : Nvenc → Nvenc} (h : ∀ n, g (f n) = g n) : Keeps g (modifySelf f) :=
  ⟨fun w => h w.self⟩

theorem Keeps.modifyResource {i : Nat} {f : NvencResource → NvencResource}
    (h : ∀ n, g (updateResource n i f) = g n) : Keeps g (modifyResource i f) :=
  ⟨fun w => h w.self⟩

theorem Keeps.checkStatus (apiName : String) (status : NVENCSTATUS) :
    Keeps g (checkStatus apiName status : Eff World NVENCSTATUS) := by
  constructor
  intro w
  rw [run_checkStatus]
  split <;> rfl

theorem Keeps.CallNvencApi (B : Backend) (apiName : String) (api : Call) :
    Keeps g (CallNvencApi B apiName api) := by
  constructor
  intro w
  rw [run_CallNvencApi]
  split <;> rfl

theorem Keeps.ThrowErrorIfNotInitialized : Keeps g Nvenc.ThrowErrorIfNotInitialized := by
  constructor
  intro w
  rw [run_ThrowErrorIfNotInitialized]
  split <;> rfl

theorem Keeps.forEachIndex {body : Nat → Eff World Unit} (h : ∀ i, Keeps g (body i)) :
    ∀ l : List Nat, Keeps g (forEachIndex body l)
  | [] => Keeps.pure ()
  | i :: rest => Keeps.bind (h i) fun _ => Keeps.forEachIndex h rest

theorem Keeps.forEachResource {body : Nat → Eff World Unit} (h : ∀ i, Keeps g (body i)) :
    Keeps g (forEachResource body) :=
  Keeps.bind Keeps.getSelf fun _ => Keeps.forEachIndex h _

end keeps

theorem ring_updateResource_of_flag (n : Nvenc) (i : Nat) (f : NvencResource → NvencResource)
    (h : ∀ r, (f r).isEncoding_ = r.isEncoding_) : ring (updateResource n i f) = ring n := by
  simp [ring, flags_updateResource, h, flags_set_self]

theorem keeps_ring_modifyResource {i : Nat} {f : NvencResource → NvencResource}
    (h : ∀ r, (f r).isEncoding_ = r.isEncoding_) : Keeps ring (modifyResource i f) :=
  Keeps.modifyResource fun n => ring_updateResource_of_flag n i f h

set_option maxRecDepth 4096 in
theorem keeps_ring_LoadModule (B : Backend) : Keeps ring (Nvenc.LoadModule B) := by
  unfold Nvenc.LoadModule
  repeat (first
    | with_reducible (first
      | exact Keeps.pure _ | exact Keeps.throw _ | exact Keeps.call _ | exact Keeps.getSelf
      | exact Keeps.getProcess | exact Keeps.modifyProcess _ | exact Keeps.getResource _
      | exact Keeps.CallNvencApi _ _ _ | exact Keeps.checkStatus _ _
      | exact Keeps.ThrowErrorIfNotInitialized
      | apply Keeps.forEachResource
      | apply Keeps.bind
      | apply Keeps.ite)
    | exact Keeps.modifySelf (fun _ => rfl)
    | exact keeps_ring_modifyResource (fun _ => rfl)
    | intro _
    | dsimp only)

theorem keeps_ring_OpenEncodeSession (B : Backend) : Keeps ring (Nvenc.OpenEncodeSession B) := by
  unfold Nvenc.OpenEncodeSession
  repeat (first
    | with_reducible (first
      | exact Keeps.pure _ | exact Keeps.throw _ | exact Keeps.call _ | exact Keeps.getSelf
      | exact Keeps.getProcess | exact Keeps.modifyProcess _ | exact Keeps.getResource _
      | exact Keeps.CallNvencApi _ _ _ | exact Keeps.checkStatus _ _
      | exact Keeps.ThrowErrorIfNotInitialized
      | apply Keeps.forEachResource
      | apply Keeps.bind
      | apply Keeps.ite)
    | exact Keeps.modifySelf (fun _ => rfl)
    | exact keeps_ring_modifyResource (fun _ => rfl)
    | intro _
    | dsimp only)

theorem keeps_ring_InitializeEncoder (B : Backend) : Keeps ring (Nvenc.InitializeEncoder B) := by
  unfold Nvenc.InitializeEncoder
  repeat (first
    | with_reducible (first
      | exact Keeps.pure _ | exact Keeps.throw _ | exact Keeps.call _ | exact Keeps.getSelf
      | exact Keeps.getProcess | exact Keeps.modifyProcess _ | exact Keeps.getResource _
      | exact Keeps.CallNvencApi _ _ _ | exact Keeps.checkStatus _ _
      | exact Keeps.ThrowErrorIfNotInitialized
      | apply Keeps.forEachResource
      | apply Keeps.bind
      | apply Keeps.ite)
    | exact Keeps.modifySelf (fun _ => rfl)
    | exact keeps_ring_modifyResource (fun _ => rfl)
    | intro _
    | dsimp only)

theorem keeps_ring_CreateCompletionEvents (B : Backend) : Keeps ring (Nvenc.CreateCompletionEvents B) := by
  unfold Nvenc.CreateCompletionEvents
  repeat (first
    | with_reducible (first
      | exact Keeps.pure _ | exact Keeps.throw _ | exact Keeps.call _ | exact Keeps.getSelf
      | exact Keeps.getProcess | exact Keeps.modifyProcess _ | exact Keeps.getResource _
      | exact Keeps.CallNvencApi _ _ _ | exact Keeps.checkStatus _ _
      | exact Keeps.ThrowErrorIfNotInitialized
      | apply Keeps.forEachResource
      | apply Keeps.bind
      | apply Keeps.ite)
    | exact Keeps.modifySelf (fun _ => rfl)
    | exact keeps_ring_modifyResource (fun _ => rfl)
    | intro _
    | dsimp only)

theorem keeps_ring_CreateBitstreamBuffers (B : Backend) : Keeps ring (Nvenc.CreateBitstreamBuffers B) := by
  unfold Nvenc.CreateBitstreamBuffers
  repeat (first
    | with_reducible (first
      | exact Keeps.pure _ | exact Keeps.throw _ | exact Keeps.call _ | exact Keeps.getSelf
      | exact Keeps.getProcess | exact Keeps.modifyProcess _ | exact Keeps.getResource _
      | exact Keeps.CallNvencApi _ _ _ | exact Keeps.checkStatus _ _
      | exact Keeps.ThrowErrorIfNotInitialized
      | apply Keeps.forEachResource
      | apply Keeps.bind
      | apply Keeps.ite)
    | exact Keeps.modifySelf (fun _ => rfl)
    | exact keeps_ring_modifyResource (fun _ => rfl)
    | intro _
    | dsimp only)

theorem keeps_ring_CreateInputTextures (B : Backend) : Keeps ring (Nvenc.CreateInputTextures B) := by
  unfold Nvenc.CreateInputTextures
  repeat (first
    | with_reducible (first
      | exact Keeps.pure _ | exact Keeps.throw _ | exact Keeps.call _ | exact Keeps.getSelf
      | exact Keeps.getProcess | exact Keeps.modifyProcess _ | exact Keeps.getResource _
      | exact Keeps.CallNvencApi _ _ _ | exact Keeps.checkStatus _ _
      | exact Keeps.ThrowErrorIfNotInitialized
      | apply Keeps.forEachResource
      | apply Keeps.bind
      | apply Keeps.ite)
    | exact Keeps.modifySelf (fun _ => rfl)
    | exact keeps_ring_modifyResource (fun _ => rfl)
    | intro _
    | dsimp only)

theorem keeps_ring_RegisterResources (B : Backend) : Keeps ring (Nvenc.RegisterResources B) := by
  unfold Nvenc.RegisterResources
  repeat (first
    | with_reducible (first
      | exact Keeps.pure _ | exact Keeps.throw _ | exact Keeps.call _ | exact Keeps.getSelf
      | exact Keeps.getProcess | exact Keeps.modifyProcess _ | exact Keeps.getResource _
      | exact Keeps.CallNvencApi _ _ _ | exact Keeps.checkStatus _ _
      | exact Keeps.ThrowErrorIfNotInitialized
      | apply Keeps.forEachResource
      | apply Keeps.bind
      | apply Keeps.ite)
    | exact Keeps.modifySelf (fun _ => rfl)
    | exact keeps_ring_modifyResource (fun _ => rfl)
    | intro _
    | dsimp only)

theorem keeps_ring_UnregisterResources (B : Backend) : Keeps ring (Nvenc.UnregisterResources B) := by
  unfold Nvenc.UnregisterResources
  repeat (first
    | with_reducible (first
      | exact Keeps.pure _ | exact Keeps.throw _ | exact Keeps.call _ | exact Keeps.getSelf
      | exact Keeps.getProcess | exact Keeps.modifyProcess _ | exact Keeps.getResource _
      | exact Keeps.CallNvencApi _ _ _ | exact Keeps.checkStatus _ _
      | exact Keeps.ThrowErrorIfNotInitialized
      | apply Keeps.forEachResource
      | apply Keeps.bind
      | apply Keeps.ite)
    | exact Keeps.modifySelf (fun _ => rfl)
    | exact keeps_ring_modifyResource (fun _ => rfl)
    | intro _
    | dsimp only)

theorem keeps_ring_DestroyBitstreamBuffers (B : Backend) : Keeps ring (Nvenc.DestroyBitstreamBuffers B) := by
  unfold Nvenc.DestroyBitstreamBuffers
  repeat (first
    | with_reducible (first
      | exact Keeps.pure _ | exact Keeps.throw _ | exact Keeps.call _ | exact Keeps.getSelf
      | exact Keeps.getProcess | exact Keeps.modifyProcess _ | exact Keeps.getResource _
      | exact Keeps.CallNvencApi _ _ _ | exact Keeps.checkStatus _ _
      | exact Keeps.ThrowErrorIfNotInitialized
      | apply Keeps.forEachResource
      | apply Keeps.bind
      | apply Keeps.ite)
    | exact Keeps.modifySelf (fun _ => rfl)
    | exact keeps_ring_modifyResource (fun _ => rfl)
    | intro _
    | dsimp only)

section maintains

variable {α β : Type} {I : Nvenc → Prop}

theorem Maintains.ret (a : α) : Maintains I (pure a : Eff World α) := ⟨fun _ h => h⟩

theorem Maintains.seq {m : Eff World α} {f : α → Eff World β} (hm : Maintains I m)
    (hf : ∀ a, Maintains I (f a)) : Maintains I (m >>= f) := by
  constructor
  intro w hw
  have h1 := hm.maintains w hw
  simp only [run_bind]
  rcases h : m w with ⟨r, w1⟩
  rw [h] at h1
  cases r with
  | ok a => exact (hf a).maintains w1 h1
  | thrown e => exact h1
  | undefined => exact h1

theorem Maintains.cond {c : Prop} [Decidable c] {m1 m2 : Eff World α} (h1 : Maintains I m1)
    (h2 : Maintains I m2) : Maintains I (if c then m1 else m2) := by
  split
  · exact h1
  · exact h2

/-- An operation that keeps the ring's bookkeeping maintains what is stated
in terms of it. -/
theorem Maintains.of_keeps {m : Eff World α} (hI : ∀ n1 n2, ring n2 = ring n1 → I n1 → I n2)
    (h : Keeps ring m) : Maintains I m :=
  ⟨fun w hw => hI _ _ (h.keeps w) hw⟩

end maintains

@[simp] theorem run_withLocalData {α : Type} (m : Eff (World × List NvencEncodedData) α) (w : World) :
    Nvenc.withLocalData m w = ((m (w, [])).1, (m (w, [])).2.1) := rfl

theorem keeps_ring_Initialize (B : Backend) : Keeps ring (Nvenc.Initialize B) := by
  unfold Nvenc.Initialize
  repeat (first
    | with_reducible (first
      | exact Keeps.pure _ | exact Keeps.getSelf
      | exact keeps_ring_LoadModule _ | exact keeps_ring_OpenEncodeSession _
      | exact keeps_ring_InitializeEncoder _ | exact keeps_ring_CreateCompletionEvents _
      | exact keeps_ring_CreateInputTextures _ | exact keeps_ring_RegisterResources _
      | exact keeps_ring_CreateBitstreamBuffers _
      | apply Keeps.bind
      | apply Keeps.ite)
    | exact Keeps.modifySelf (fun _ => rfl)
    | intro _
    | dsimp only)

theorem Steady.length {n : Nvenc} (h : Steady n) : n.resources_.length = 1 := by
  rw [← flags_length]
  rcases h.2 with h1 | h1 <;> rw [h1.1] <;> rfl

/-- On a steady session and a backend that rejects nothing, `Encode` returns,
and what it returns is whether it advanced `inputIndex`; the session stays
steady and `outputIndex` is kept. -/
theorem Encode_steady (B : Backend) (hA : B.Accepts) (source : Nat) (f : Bool) (w : World)
    (h : Steady w.self) :
    ∃ b, (Nvenc.Encode B source f w).1 = Outcome.ok b ∧
      Steady (Nvenc.Encode B source f w).2.self ∧
      (Nvenc.Encode B source f w).2.self.outputIndex_ = w.self.outputIndex_ ∧
      (Nvenc.Encode B source f w).2.self.inputIndex_ =
        w.self.inputIndex_ + (if b = true then 1 else 0) := by
  have hlen := h.length
  obtain ⟨hv, hr⟩ := h
  have h0 : w.self.GetInputIndex = 0 := by simp [Nvenc.GetInputIndex, hlen, Nat.mod_one]
  have spec := Encode_spec B source f w
  rcases hr with ⟨hf, hi⟩ | ⟨hf, hi⟩
  · have hfree : (resourceAt w.self w.self.GetInputIndex).isEncoding_ = false := by
      rw [isEncoding_resourceAt, h0, hf]; rfl
    have hout := Encode_outcome_free B source f w hA.not_rejected hv hfree
    rw [hout, h0, hf] at spec
    refine ⟨B.succeeded w.proc.log.length, hout, ?_⟩
    cases hc : B.succeeded w.proc.log.length
    · rw [hc] at spec
      simp only at spec
      obtain ⟨s1, s2, s3, s4⟩ := spec
      exact ⟨⟨by rw [s2]; exact hv, Or.inl ⟨s4, by omega⟩⟩, s1, by simp [s3]⟩
    · rw [hc] at spec
      simp only at spec
      obtain ⟨s1, s2, s3, -, s5⟩ := spec
      exact ⟨⟨by rw [s2]; exact hv, Or.inr ⟨by rw [s5]; rfl, by omega⟩⟩, s1, by simp [s3]⟩
  · have hbusy : (resourceAt w.self w.self.GetInputIndex).isEncoding_ = true := by
      rw [isEncoding_resourceAt, h0, hf]; rfl
    rw [Encode_busy B source f w hv hbusy]
    exact ⟨false, rfl, ⟨hv, Or.inr ⟨hf, hi⟩⟩, rfl, by simp⟩

/-- On a steady session, a backend that rejects nothing and waits that do not
fail, `GetEncodedData` returns, having appended one packet per pending index,
tagged with that index; afterwards nothing is pending and the slot is free. -/
theorem GetEncodedData_steady (B : Backend) (hA : B.Accepts) (hW : B.WaitsDoNotFail) (w : World)
    (d : List NvencEncodedData) (h : Steady w.self) :
    ∃ pk : List NvencEncodedData,
      (Nvenc.GetEncodedData B (w, d)).1 = Outcome.ok () ∧
      (Nvenc.GetEncodedData B (w, d)).2.2 = d ++ pk ∧
      pk.map (fun ed => ed.index) =
        List.range' w.self.outputIndex_ (w.self.inputIndex_ - w.self.outputIndex_) ∧
      flags (Nvenc.GetEncodedData B (w, d)).2.1.self = [false] ∧
      (Nvenc.GetEncodedData B (w, d)).2.1.self.inputIndex_ = w.self.inputIndex_ ∧
      (Nvenc.GetEncodedData B (w, d)).2.1.self.outputIndex_ = w.self.inputIndex_ ∧
      (Nvenc.GetEncodedData B (w, d)).2.1.self.encoder_ = w.self.encoder_ := by
  have hlen := h.length
  obtain ⟨hv, hr⟩ := h
  rw [run_GetEncodedData, if_neg hv]
  rcases hr with ⟨hf, hi⟩ | ⟨hf, hi⟩
  · rw [GetEncodedDataLoop_done B _ (w, d) (by simp only; omega)]
    refine ⟨[], rfl, by simp, ?_, hf, rfl, by simp only; omega, rfl⟩
    have : w.self.inputIndex_ - w.self.outputIndex_ = 0 := by omega
    simp [this]
  · have hfuel : w.self.inputIndex_ - w.self.outputIndex_ = 0 + 1 := by omega
    have hlt : w.self.outputIndex_ < w.self.inputIndex_ := by omega
    have h0 : w.self.GetOutputIndex = 0 := by simp [Nvenc.GetOutputIndex, hlen, Nat.mod_one]
    have hbusy : (resourceAt w.self w.self.GetOutputIndex).isEncoding_ = true := by
      rw [isEncoding_resourceAt, h0, hf]; rfl
    have hok := GetEncodedDataBody_ok B (w, d) hA.not_rejected hW hv hbusy
    have spec := GetEncodedDataBody_spec B (w, d)
    rcases hbody : Nvenc.GetEncodedDataBody B (w, d) with ⟨r, s1⟩
    rw [hbody] at spec hok
    simp only at hok
    subst hok
    simp only [h0, hf] at spec
    obtain ⟨s2, s3, s4, -, -, s5, ed, hed, hd⟩ := spec
    rw [hfuel, GetEncodedDataLoop_step B 0 (w, d) s1 hlt hbody]
    simp only [Nvenc.GetEncodedDataLoop, run_pure]
    refine ⟨[ed], trivial, hd, ?_, ?_, s2, by omega, s4⟩
    · simp [hfuel, hed]
    · simp only [flags_mk, map_isEncoding_resources]
      rw [s5]; rfl


theorem bind_ok_inv {σ α β : Type} {m : Eff σ α} {f : α → Eff σ β} {s s2 : σ} {b : β}
    (h : (m >>= f) s = (Outcome.ok b, s2)) :
    ∃ a s1, m s = (Outcome.ok a, s1) ∧ f a s1 = (Outcome.ok b, s2) := by
  rw [run_bind] at h
  rcases hm : m s with ⟨r, s1⟩
  rw [hm] at h
  cases r with
  | ok a => exact ⟨a, s1, rfl, h⟩
  | thrown e => simp at h
  | undefined => simp at h

theorem keeps_encoder_CreateBitstreamBuffers (B : Backend) :
    Keeps (fun n => n.encoder_) (Nvenc.CreateBitstreamBuffers B) := by
  unfold Nvenc.CreateBitstreamBuffers
  repeat (first
    | with_reducible (first
      | exact Keeps.pure _ | exact Keeps.getSelf | exact Keeps.CallNvencApi _ _ _
      | exact Keeps.ThrowErrorIfNotInitialized
      | apply Keeps.forEachResource
      | apply Keeps.bind
      | apply Keeps.ite)
    | exact Keeps.modifyResource (fun _ => rfl)
    | intro _
    | dsimp only)

theorem CreateBitstreamBuffers_ok_valid (B : Backend) (w w1 : World)
    (h : Nvenc.CreateBitstreamBuffers B w = (Outcome.ok (), w1)) : w1.self.encoder_ ≠ 0 := by
  have hk := (keeps_encoder_CreateBitstreamBuffers B).keeps w
  rw [h] at hk
  simp only at hk
  rw [hk]
  intro h0
  obtain ⟨_, _, h1, -⟩ := bind_ok_inv h
  rw [run_ThrowErrorIfNotInitialized, if_pos h0] at h1
  simp at h1

/-- When `Initialize` returns on a freshly constructed session, the session
is valid, nothing is pending and its one slot is free. -/
theorem Initialize_steady (B : Backend) (desc : NvencDesc) (p : Process) (w : World)
    (h : Nvenc.Initialize B ⟨Nvenc.new desc, p⟩ = (Outcome.ok (), w)) :
    Steady w.self ∧ w.self.inputIndex_ = 0 ∧ w.self.outputIndex_ = 0 := by
  have hk := (keeps_ring_Initialize B).keeps ⟨Nvenc.new desc, p⟩
  rw [h] at hk
  simp only [ring, Nvenc.new, Prod.mk.injEq] at hk
  obtain ⟨k1, k2, k3⟩ := hk
  have k3' : flags w.self = [false] := k3
  refine ⟨⟨?_, Or.inl ⟨k3', by omega⟩⟩, k1, k2⟩
  unfold Nvenc.Initialize at h
  obtain ⟨n, w0, h0, h⟩ := bind_ok_inv h
  simp only [run_getSelf, Prod.mk.injEq, Outcome.ok.injEq] at h0
  obtain ⟨hn, hw0⟩ := h0
  subst hn hw0
  simp only [Nvenc.new, Bool.false_eq_true, if_false] at h
  obtain ⟨_, _, -, h⟩ := bind_ok_inv h
  obtain ⟨_, _, -, h⟩ := bind_ok_inv h
  obtain ⟨_, _, -, h⟩ := bind_ok_inv h
  obtain ⟨_, _, -, h⟩ := bind_ok_inv h
  obtain ⟨_, _, -, h⟩ := bind_ok_inv h
  obtain ⟨_, _, -, h⟩ := bind_ok_inv h
  obtain ⟨_, w7, h7, h⟩ := bind_ok_inv h
  have hv := CreateBitstreamBuffers_ok_valid B _ _ h7
  simp only [run_modifySelf, Prod.mk.injEq] at h
  rw [← h.2]
  exact hv


theorem Stream.step_good (B : Backend) (hA : B.Accepts) (hW : B.WaitsDoNotFail) (st : Stream)
    (op : StreamOp) (h : st.Good) :
    (st.step B op).Good ∧
      (op = StreamOp.GetEncodedData →
        (st.step B op).world.self.outputIndex_ = (st.step B op).world.self.inputIndex_) := by
  obtain ⟨hs, hr, ha, hp⟩ := h
  cases op with
  | Encode source f =>
    obtain ⟨b, e1, e2, e3, e4⟩ := Encode_steady B hA source f st.world hs
    rcases hres : Nvenc.Encode B source f st.world with ⟨r, w1⟩
    rw [hres] at e1 e2 e3 e4
    simp only at e1 e2 e3 e4
    subst e1
    refine ⟨?_, fun h => by simp at h⟩
    cases b
    · simp only [Stream.step, hres, Stream.Good]
      exact ⟨e2, hr, by simp at e4; omega, by rw [e3]; exact hp⟩
    · simp only [Stream.step, hres, Stream.Good]
      exact ⟨e2, hr, by simp at e4; omega, by rw [e3]; exact hp⟩
  | GetEncodedData =>
    obtain ⟨pk, g1, g2, g3, g4, g5, g6, g7⟩ := GetEncodedData_steady B hA hW st.world [] hs
    rcases hres : Nvenc.GetEncodedData B (st.world, []) with ⟨r, w1, d1⟩
    rw [hres] at g1 g2 g4 g5 g6 g7
    simp only at g1 g2 g4 g5 g6 g7
    subst g1
    have hle : st.world.self.outputIndex_ ≤ st.world.self.inputIndex_ := by
      rcases hs.2 with h1 | h1 <;> omega
    simp only [Stream.step, hres, Stream.Good]
    refine ⟨⟨⟨by rw [g7]; exact hs.1, Or.inl ⟨g4, by omega⟩⟩, hr, by omega, ?_⟩, fun _ => by omega⟩
    rw [g2, List.nil_append, List.map_append, hp, g3, g6, List.range_eq_range', List.range_eq_range']
    have := List.range'_append 0 st.world.self.outputIndex_
      (st.world.self.inputIndex_ - st.world.self.outputIndex_) 1
    simp only [Nat.zero_add, Nat.one_mul] at this
    rw [this]
    congr 1
    omega

theorem foldl_step_good (B : Backend) (hA : B.Accepts) (hW : B.WaitsDoNotFail)
    (ops : List StreamOp) :
    ∀ st : Stream, st.Good → (ops.foldl (Stream.step B) st).Good := by
  induction ops with
  | nil => intro st h; exact h
  | cons op rest ih => intro st h; exact ih _ (Stream.step_good B hA hW st op h).1

theorem eq_ok_of_fst {σ α : Type} {m : Eff σ α} {s : σ} {a : α} (h : (m s).1 = Outcome.ok a) :
    m s = (Outcome.ok a, (m s).2) := by
  rw [← h]

/-- On `okBackend`, `Initialize` returns on a freshly constructed session. -/
theorem Initialize_okBackend (desc : NvencDesc) :
    (Nvenc.Initialize okBackend ⟨Nvenc.new desc, freshProcess⟩).1 = Outcome.ok () := by
  simp [Nvenc.Initialize, Nvenc.LoadModule, Nvenc.OpenEncodeSession, Nvenc.InitializeEncoder,
    Nvenc.CreateCompletionEvents, Nvenc.CreateInputTextures, Nvenc.RegisterResources,
    Nvenc.CreateBitstreamBuffers, Nvenc.new, forEachResource, forEachIndex, List.range,
    List.range.loop, okBackend, freshProcess]

/-! ## The encoder around a resize -/

/-- What `Encoder::Encode` does with the outcome of `nvenc_->Encode`: a
returned value, `true` or `false`, gives `true`; an exception gives `false`
and its message in `error_`. -/
theorem Encoder_Encode_run (B : Backend) (source : Nat) (f : Bool) (a : App) (n : Nvenc)
    (hn : a.self.nvenc_ = some n) :
    Encoder.Encode B source f a =
      match Nvenc.Encode B source f ⟨n, a.proc⟩ with
      | (Outcome.ok _, w) =>
        (Outcome.ok true,
          { self := { a.self with nvenc_ := some w.self, isEncodeRequested := true }, proc := w.proc })
      | (Outcome.thrown what, w) =>
        (Outcome.ok false, { self := { a.self with nvenc_ := some w.self, error_ := what }, proc := w.proc })
      | (Outcome.undefined, w) =>
        (Outcome.undefined, { self := { a.self with nvenc_ := some w.self }, proc := w.proc }) := by
  rcases h : Nvenc.Encode B source f ⟨n, a.proc⟩ with ⟨r, w⟩
  cases r <;>
    simp [Encoder.Encode, Encoder.RequestGetEncodedData, withNvenc, hn, h]

theorem Steady.of_idle {n : Nvenc} (hv : n.encoder_ ≠ 0) (h : Idle n) : Steady n :=
  ⟨hv, Or.inl h⟩

theorem Steady.idle {n : Nvenc} (h : Steady n) (hi : n.outputIndex_ = n.inputIndex_) : Idle n := by
  rcases h.2 with h1 | h1
  · exact h1
  · omega

theorem Feed.step_keeps_good (B : Backend) (hA : B.Accepts) (hW : B.WaitsDoNotFail) (fd : Feed)
    (op : AppOp) (h : fd.Good) : (fd.step B op).Good := by
  obtain ⟨n, hn, hs, ha, hl⟩ := h
  cases op with
  | Encode source f =>
    obtain ⟨b, e1, e2, e3, e4⟩ := Encode_steady B hA source f ⟨n, fd.app.proc⟩ hs
    have hrun := Encoder_Encode_run B source f fd.app n hn
    have hacc : sessionAccepts B source f fd.app = b := by
      simp only [sessionAccepts, hn, e1]
      cases b <;> simp
    rcases hres : Nvenc.Encode B source f ⟨n, fd.app.proc⟩ with ⟨r, w1⟩
    rw [hres] at e1 e2 e3 e4 hrun
    simp only at e1 e2 e3 e4
    subst e1
    simp only at hrun
    refine ⟨w1.self, ?_, e2, ?_, ?_⟩
    · simp only [Feed.step, hrun]
    · simp only [Feed.step, hacc, e4, ha]
    · simp only [Feed.step, hrun, e3, hl]
  | UpdateGetEncodedData =>
    obtain ⟨pk, g1, g2, g3, g4, g5, g6, g7⟩ := GetEncodedData_steady B hA hW ⟨n, fd.app.proc⟩ [] hs
    rcases hres : Nvenc.GetEncodedData B (⟨n, fd.app.proc⟩, []) with ⟨r, w1, d1⟩
    rw [hres] at g1 g2 g4 g5 g6 g7
    simp only at g1 g2 g3 g4 g5 g6 g7
    subst g1
    have hle : n.outputIndex_ ≤ n.inputIndex_ := by
      rcases hs.2 with h1 | h1 <;> omega
    have hpk : pk.length = n.inputIndex_ - n.outputIndex_ := by
      have := congrArg List.length g3
      simpa using this
    refine ⟨w1.self, ?_, ⟨by rw [g7]; exact hs.1, Or.inl ⟨g4, by omega⟩⟩, ?_, ?_⟩
    · simp only [Feed.step, Encoder.UpdateGetEncodedData, hn, hres]
    · simp only [Feed.step]; omega
    · simp only [Feed.step, Encoder.UpdateGetEncodedData, hn, hres, g2, List.nil_append,
        List.length_append, hpk]
      omega

theorem runFeed_good (B : Backend) (hA : B.Accepts) (hW : B.WaitsDoNotFail) (ops : List AppOp) :
    ∀ fd : Feed, fd.Good → (ops.foldl (Feed.step B) fd).Good := by
  induction ops with
  | nil => intro fd h; exact h
  | cons op rest ih => intro fd h; exact ih _ (Feed.step_keeps_good B hA hW fd op h)

/-- On a valid idle session and a backend that rejects nothing, `SendEOS`
returns and leaves the session steady, with the end-of-stream index pending. -/
theorem SendEOS_idle (B : Backend) (hA : B.Accepts) (w : World) (hv : w.self.encoder_ ≠ 0)
    (hw : Idle w.self) :
    (Nvenc.SendEOS B w).1 = Outcome.ok () ∧ Steady (Nvenc.SendEOS B w).2.self := by
  have hlen : w.self.resources_.length = 1 := by
    rw [← flags_length, hw.1]; rfl
  have h0 : w.self.GetInputIndex = 0 := by simp [Nvenc.GetInputIndex, hlen, Nat.mod_one]
  have hnr := hA.not_rejected w.proc.log.length
  rw [run_SendEOS, if_neg hv, if_neg hnr, h0]
  refine ⟨rfl, hv, Or.inr ⟨?_, ?_⟩⟩
  · simp only [logged_eq, flags_mk, map_isEncoding_resources, flags_updateResource, hw.1]
    rfl
  · simp only [logged_eq, updateResource_outputIndex]
    have := hw.2
    omega

/-- On a backend that never fails, a drain into a local vector leaves a
steady session idle. -/
theorem withLocalData_GetEncodedData_idle (B : Backend) (hA : B.Accepts) (hW : B.WaitsDoNotFail)
    (w : World) (h : Steady w.self) :
    Idle (Nvenc.withLocalData (Nvenc.GetEncodedData B) w).2.self := by
  obtain ⟨pk, -, -, -, g4, g5, g6, -⟩ := GetEncodedData_steady B hA hW w [] h
  rw [run_withLocalData]
  exact ⟨g4, by rw [g5, g6]⟩

/-- On a backend that never fails, `EndEncode` leaves an idle session idle:
the end-of-stream index it adds is drained into the local vector. -/
theorem maintains_idle_EndEncode (B : Backend) (hA : B.Accepts) (hW : B.WaitsDoNotFail) :
    Maintains Idle (Nvenc.EndEncode B) := by
  constructor
  intro w hw
  by_cases hv : w.self.encoder_ = 0
  · simp [Nvenc.EndEncode, hv, hw]
  by_cases hz : w.self.inputIndex_ = 0
  · simp [Nvenc.EndEncode, hv, hz, hw]
  obtain ⟨e1, e2⟩ := SendEOS_idle B hA w hv hw
  rcases hres : Nvenc.SendEOS B w with ⟨r, w1⟩
  rw [hres] at e1 e2
  simp only at e1 e2
  subst e1
  have hfin := withLocalData_GetEncodedData_idle B hA hW w1 e2
  simp only [Nvenc.EndEncode, run_bind, run_ThrowErrorIfNotInitialized, if_neg hv, run_getSelf, run_ite,
    if_neg hz, hres]
  exact hfin

theorem Idle.of_equal_ring (n1 n2 : Nvenc) (h : ring n2 = ring n1) (h1 : Idle n1) : Idle n2 := by
  simp only [ring, Prod.mk.injEq] at h
  exact ⟨by rw [h.2.2]; exact h1.1, by have := h1.2; omega⟩

theorem maintains_idle_Resize (B : Backend) (hA : B.Accepts) (hW : B.WaitsDoNotFail)
    (width height : Nat) : Maintains Idle (Nvenc.Resize B width height) := by
  unfold Nvenc.Resize
  repeat (first
    | with_reducible (first
      | exact Maintains.ret _
      | exact maintains_idle_EndEncode _ hA hW
      | exact Maintains.of_keeps Idle.of_equal_ring Keeps.getSelf
      | exact Maintains.of_keeps Idle.of_equal_ring (keeps_ring_DestroyBitstreamBuffers _)
      | exact Maintains.of_keeps Idle.of_equal_ring (keeps_ring_UnregisterResources _)
      | exact Maintains.of_keeps Idle.of_equal_ring (Keeps.CallNvencApi _ _ _)
      | exact Maintains.of_keeps Idle.of_equal_ring (keeps_ring_CreateInputTextures _)
      | exact Maintains.of_keeps Idle.of_equal_ring (keeps_ring_RegisterResources _)
      | exact Maintains.of_keeps Idle.of_equal_ring (keeps_ring_CreateBitstreamBuffers _)
      | apply Maintains.seq
      | apply Maintains.cond)
    | exact Maintains.of_keeps Idle.of_equal_ring (Keeps.modifySelf (fun _ => rfl))
    | intro _
    | dsimp only)

/-- What `Encoder::Resize` leaves of the encoder: the session as
`nvenc_->Resize` left it, and the accumulated list untouched. -/
theorem Encoder_Resize_run (B : Backend) (width height : Nat) (a : App) (n : Nvenc)
    (hn : a.self.nvenc_ = some n) :
    (Encoder.Resize B width height a).2.self.nvenc_ =
        some (Nvenc.Resize B width height ⟨n, a.proc⟩).2.self ∧
      (Encoder.Resize B width height a).2.self.encodedDataList_ = a.self.encodedDataList_ := by
  rcases h : Nvenc.Resize B width height ⟨n, a.proc⟩ with ⟨r, w⟩
  cases r <;> simp [Encoder.Resize, withNvenc, hn, h]

/-- A drain pass on an idle session adds nothing to the accumulated list. -/
theorem UpdateGetEncodedData_idle (B : Backend) (a : App) (n : Nvenc) (hn : a.self.nvenc_ = some n)
    (hi : Idle n) :
    (Encoder.UpdateGetEncodedData B a).2.self.encodedDataList_ = a.self.encodedDataList_ := by
  by_cases hv : n.encoder_ = 0
  · simp [Encoder.UpdateGetEncodedData, hn, hv]
  · have hd := GetEncodedDataLoop_done B (n.inputIndex_ - n.outputIndex_)
      ((⟨n, a.proc⟩ : World), ([] : List NvencEncodedData)) (by simp only; have := hi.2; omega)
    simp [Encoder.UpdateGetEncodedData, hn, hv, hd]

theorem CopyEncodedDataList_exposes (a : App) :
    Encoder.GetEncodedDataList (Encoder.CopyEncodedDataList a).2.self = a.self.encodedDataList_ := by
  simp [Encoder.CopyEncodedDataList, Encoder.GetEncodedDataList]

theorem readySession_steady : Steady readySession :=
  ⟨by decide, Or.inl ⟨rfl, rfl⟩⟩

/-! ## The concrete states

The states the statements below evaluate the code at are states the code
reaches: `readySession` is what `Initialize` leaves of a freshly constructed
640x480 session on `okBackend`, and the others follow from it by the session's
own operations. Their call logs start afresh, so that positions count from the
operation under study. -/

theorem readySession_reached :
    (Nvenc.Initialize okBackend ⟨Nvenc.new ⟨1, 640, 480, 87, 30⟩, freshProcess⟩).2.self = readySession ∧
    { (Nvenc.Initialize okBackend ⟨Nvenc.new ⟨1, 640, 480, 87, 30⟩, freshProcess⟩).2.proc with
        log := [] } = readyProcess := by
  simp [Nvenc.Initialize, Nvenc.LoadModule, Nvenc.OpenEncodeSession, Nvenc.InitializeEncoder,
    Nvenc.CreateCompletionEvents, Nvenc.CreateInputTextures, Nvenc.RegisterResources,
    Nvenc.CreateBitstreamBuffers, Nvenc.new, forEachResource, forEachIndex, List.range,
    List.range.loop, okBackend, freshProcess, readySession, readyProcess, resourceAt, updateResource]
  exact ⟨rfl, rfl⟩

theorem busyWorld_reached :
    (Nvenc.Encode okBackend 7 false readyWorld).1 = Outcome.ok true ∧
    (Nvenc.Encode okBackend 7 false readyWorld).2.self = busyWorld.self :=
  ⟨rfl, rfl⟩

theorem eosWorld_reached :
    (Nvenc.SendEOS okBackend busyWorld).1 = Outcome.ok () ∧
    (Nvenc.SendEOS okBackend busyWorld).2.self = eosWorld.self :=
  ⟨rfl, rfl⟩

theorem gapWorld_reached :
    (Nvenc.GetEncodedData okBackend (eosWorld, [])).2.1.self = gapWorld.self :=
  rfl

/-! ## Paths the code cannot take -/

/-- `WaitForCompletion` never returns `false`: it raises or returns `true`. -/
theorem WaitForCompletion_ne_false (B : Backend) (index duration : Nat) (w : World) :
    (Nvenc.WaitForCompletion B index duration w).1 ≠ Outcome.ok false := by
  rw [run_WaitForCompletion]
  split
  · simp
  · split <;> simp

/-- Once the copy has succeeded, `Encode` returns `true` or raises; when it
raises, the target slot is left in flight and `inputIndex` is unchanged. -/
theorem Encode_after_copy (B : Backend) (source : Nat) (f : Bool) (w : World)
    (hv : w.self.encoder_ ≠ 0)
    (hfree : (resourceAt w.self w.self.GetInputIndex).isEncoding_ = false)
    (hin : w.self.GetInputIndex < w.self.resources_.length)
    (hc : B.succeeded w.proc.log.length = true) :
    (Nvenc.Encode B source f w).1 = Outcome.ok true ∨
    ((∃ what, (Nvenc.Encode B source f w).1 = Outcome.thrown what) ∧
      (resourceAt (Nvenc.Encode B source f w).2.self w.self.GetInputIndex).isEncoding_ = true ∧
      (Nvenc.Encode B source f w).2.self.inputIndex_ = w.self.inputIndex_) := by
  by_cases hreg : (resourceAt w.self w.self.GetInputIndex).registeredResource_ = 0
  · by_cases hs4 : B.status (w.proc.log.length + 4) ≠ NVENCSTATUS.NV_ENC_SUCCESS ∧
        B.status (w.proc.log.length + 4) ≠ NVENCSTATUS.NV_ENC_ERR_NEED_MORE_INPUT <;>
      simp [Nvenc.Encode, hv, hin, hfree, hc, hreg, hs4, resourceAt_updateResource]
  · by_cases hs4 : B.status (w.proc.log.length + 4) ≠ NVENCSTATUS.NV_ENC_SUCCESS ∧
        B.status (w.proc.log.length + 4) ≠ NVENCSTATUS.NV_ENC_ERR_NEED_MORE_INPUT
    · simp [Nvenc.Encode, hv, hin, hfree, hc, hreg, hs4, resourceAt_updateResource]
    · by_cases hs5 : B.status (w.proc.log.length + 5) ≠ NVENCSTATUS.NV_ENC_SUCCESS ∧
          B.status (w.proc.log.length + 5) ≠ NVENCSTATUS.NV_ENC_ERR_NEED_MORE_INPUT <;>
        simp [Nvenc.Encode, hv, hin, hfree, hc, hreg, hs4, hs5, resourceAt_updateResource]

/-! ## The messages of rejected calls -/

/-- The message names the status as the table does. -/
theorem failureMessage_listed (apiName : String) (s : NVENCSTATUS) (name : String)
    (h : (s, name) ∈ nvEncStatusErrorNameTable) :
    failureMessage apiName s = apiName ++ " call failed: " ++ name := by
  cases s <;> simp [nvEncStatusErrorNameTable] at h <;> subst h <;> rfl

/-- A status the table does not list is named "Unknown". -/
theorem failureMessage_unlisted (apiName : String) (s : NVENCSTATUS)
    (h : ∀ name, (s, name) ∉ nvEncStatusErrorNameTable) :
    failureMessage apiName s = apiName ++ " call failed: " ++ "Unknown" := by
  cases s <;> first | rfl | (exfalso; simp [nvEncStatusErrorNameTable] at h)

/-! ## What a resize keeps of the session -/

theorem keeps_settings_modifyResource (i : Nat) (f : NvencResource → NvencResource) :
    Keeps settings (modifyResource i f) :=
  Keeps.modifyResource fun _ => rfl

theorem keeps_settings_DestroyBitstreamBuffers (B : Backend) :
    Keeps settings (Nvenc.DestroyBitstreamBuffers B) := by
  unfold Nvenc.DestroyBitstreamBuffers
  repeat (first
    | with_reducible (first
      | exact Keeps.pure _ | exact Keeps.throw _ | exact Keeps.call _ | exact Keeps.getSelf
      | exact Keeps.CallNvencApi _ _ _ | exact Keeps.ThrowErrorIfNotInitialized
      | exact keeps_settings_modifyResource _ _
      | apply Keeps.forEachResource
      | apply Keeps.bind
      | apply Keeps.ite)
    | intro _
    | dsimp only)

theorem keeps_settings_UnregisterResources (B : Backend) :
    Keeps settings (Nvenc.UnregisterResources B) := by
  unfold Nvenc.UnregisterResources
  repeat (first
    | with_reducible (first
      | exact Keeps.pure _ | exact Keeps.throw _ | exact Keeps.call _ | exact Keeps.getSelf
      | exact Keeps.CallNvencApi _ _ _ | exact Keeps.ThrowErrorIfNotInitialized
      | exact keeps_settings_modifyResource _ _
      | apply Keeps.forEachResource
      | apply Keeps.bind
      | apply Keeps.ite)
    | intro _
    | dsimp only)

theorem keeps_settings_CreateInputTextures (B : Backend) :
    Keeps settings (Nvenc.CreateInputTextures B) := by
  unfold Nvenc.CreateInputTextures
  repeat (first
    | with_reducible (first
      | exact Keeps.pure _ | exact Keeps.throw _ | exact Keeps.call _ | exact Keeps.getSelf
      | exact Keeps.CallNvencApi _ _ _ | exact Keeps.ThrowErrorIfNotInitialized
      | exact keeps_settings_modifyResource _ _
      | apply Keeps.forEachResource
      | apply Keeps.bind
      | apply Keeps.ite)
    | intro _
    | dsimp only)

theorem keeps_settings_RegisterResources (B : Backend) :
    Keeps settings (Nvenc.RegisterResources B) := by
  unfold Nvenc.RegisterResources
  repeat (first
    | with_reducible (first
      | exact Keeps.pure _ | exact Keeps.throw _ | exact Keeps.call _ | exact Keeps.getSelf
      | exact Keeps.CallNvencApi _ _ _ | exact Keeps.ThrowErrorIfNotInitialized
      | exact keeps_settings_modifyResource _ _
      | apply Keeps.forEachResource
      | apply Keeps.bind
      | apply Keeps.ite)
    | intro _
    | dsimp only)

theorem keeps_settings_CreateBitstreamBuffers (B : Backend) :
    Keeps settings (Nvenc.CreateBitstreamBuffers B) := by
  unfold Nvenc.CreateBitstreamBuffers
  repeat (first
    | with_reducible (first
      | exact Keeps.pure _ | exact Keeps.throw _ | exact Keeps.call _ | exact Keeps.getSelf
      | exact Keeps.CallNvencApi _ _ _ | exact Keeps.ThrowErrorIfNotInitialized
      | exact keeps_settings_modifyResource _ _
      | apply Keeps.forEachResource
      | apply Keeps.bind
      | apply Keeps.ite)
    | intro _
    | dsimp only)

theorem keeps_settings_SendEOS (B : Backend) : Keeps settings (Nvenc.SendEOS B) := by
  unfold Nvenc.SendEOS
  repeat (first
    | with_reducible (first
      | exact Keeps.pure _ | exact Keeps.throw _ | exact Keeps.call _ | exact Keeps.getSelf
      | exact Keeps.getResource _
      | exact Keeps.CallNvencApi _ _ _ | exact Keeps.ThrowErrorIfNotInitialized
      | exact keeps_settings_modifyResource _ _
      | apply Keeps.bind
      | apply Keeps.ite)
    | exact Keeps.modifySelf (fun _ => rfl)
    | intro _
    | dsimp only)

/-- One pass of the drain loop's body keeps the handle and the description. -/
theorem GetEncodedDataBody_settings (B : Backend) (s : World × List NvencEncodedData) :
    settings (Nvenc.GetEncodedDataBody B s).2.1.self = settings s.1.self := by
  obtain ⟨w, d⟩ := s
  have hflag : (resourceAt w.self w.self.GetOutputIndex).isEncoding_ = true ∨
      (resourceAt w.self w.self.GetOutputIndex).isEncoding_ = false := by
    cases (resourceAt w.self w.self.GetOutputIndex).isEncoding_ <;> simp
  rcases hflag with hbusy | hfree
  swap
  · simp [Nvenc.GetEncodedDataBody, hfree]
  by_cases hv : w.self.encoder_ = 0
  · simp [Nvenc.GetEncodedDataBody, hv, hbusy]
  by_cases hw : B.wait w.proc.log.length = WaitResult.WAIT_FAILED
  · simp [Nvenc.GetEncodedDataBody, hv, hbusy, hw, settings]
  by_cases hs1 : B.status (w.proc.log.length + 1) ≠ NVENCSTATUS.NV_ENC_SUCCESS ∧
      B.status (w.proc.log.length + 1) ≠ NVENCSTATUS.NV_ENC_ERR_NEED_MORE_INPUT
  · simp [Nvenc.GetEncodedDataBody, hv, hbusy, hw, hs1, settings]
  by_cases hs2 : B.status (w.proc.log.length + 2) ≠ NVENCSTATUS.NV_ENC_SUCCESS ∧
      B.status (w.proc.log.length + 2) ≠ NVENCSTATUS.NV_ENC_ERR_NEED_MORE_INPUT
  · simp [Nvenc.GetEncodedDataBody, hv, hbusy, hw, hs1, hs2, settings]
  by_cases hm : (resourceAt w.self w.self.GetOutputIndex).inputResource_ = 0
  · by_cases hs3 : B.status (w.proc.log.length + 3) ≠ NVENCSTATUS.NV_ENC_SUCCESS ∧
        B.status (w.proc.log.length + 3) ≠ NVENCSTATUS.NV_ENC_ERR_NEED_MORE_INPUT
    · simp [Nvenc.GetEncodedDataBody, hv, hbusy, hw, hs1, hs2, hm, hs3, settings]
    · simp [Nvenc.GetEncodedDataBody, hv, hbusy, hw, hs1, hs2, hm, hs3, settings, updateResource]
  · simp [Nvenc.GetEncodedDataBody, hv, hbusy, hw, hs1, hs2, hm, settings, updateResource]

theorem GetEncodedDataLoop_settings (B : Backend) (fuel : Nat) :
    ∀ s : World × List NvencEncodedData,
      settings (Nvenc.GetEncodedDataLoop B fuel s).2.1.self = settings s.1.self := by
  induction fuel with
  | zero => intro s; simp [Nvenc.GetEncodedDataLoop]
  | succ fuel ih =>
    intro s
    by_cases hlt : s.1.self.outputIndex_ < s.1.self.inputIndex_
    swap
    · simp [Nvenc.GetEncodedDataLoop, hlt]
    have hbody := GetEncodedDataBody_settings B s
    rcases hb : Nvenc.GetEncodedDataBody B s with ⟨r, w1, d1⟩
    rw [hb] at hbody
    simp only at hbody
    cases r with
    | ok u =>
      have ih1 := ih ({ w1 with self := { w1.self with outputIndex_ := w1.self.outputIndex_ + 1 } }, d1)
      simp only [Nvenc.GetEncodedDataLoop, run_bind, run_onWorld, run_getSelf, hlt, if_true, hb,
        run_advanceOutputIndex]
      rw [ih1, ← hbody]
      rfl
    | thrown e =>
      simp only [Nvenc.GetEncodedDataLoop, run_bind, run_onWorld, run_getSelf, hlt, if_true, hb]
      exact hbody
    | undefined =>
      simp only [Nvenc.GetEncodedDataLoop, run_bind, run_onWorld, run_getSelf, hlt, if_true, hb]
      exact hbody

theorem keeps_settings_GetEncodedData (B : Backend) :
    Keeps settings (Nvenc.withLocalData (Nvenc.GetEncodedData B)) := by
  constructor
  intro w
  simp only [run_withLocalData, run_GetEncodedData]
  split
  · rfl
  · exact GetEncodedDataLoop_settings B _ (w, [])

theorem keeps_settings_EndEncode (B : Backend) : Keeps settings (Nvenc.EndEncode B) := by
  unfold Nvenc.EndEncode
  repeat (first
    | with_reducible (first
      | exact Keeps.pure _ | exact Keeps.getSelf
      | exact Keeps.ThrowErrorIfNotInitialized
      | exact keeps_settings_SendEOS _
      | exact keeps_settings_GetEncodedData _
      | apply Keeps.bind
      | apply Keeps.ite)
    | intro _
    | dsimp only)

theorem keeps_encoder_of_settings {α : Type} {m : Eff World α} (h : Keeps settings m) :
    Keeps (fun n => n.encoder_) m :=
  ⟨fun w => congrArg Prod.fst (h.keeps w)⟩

theorem keeps_desc_of_settings {α : Type} {m : Eff World α} (h : Keeps settings m) :
    Keeps (fun n => n.desc_) m :=
  ⟨fun w => congrArg Prod.snd (h.keeps w)⟩

/-- No step of `Resize` writes the encoder handle. -/
theorem keeps_encoder_Resize (B : Backend) (width height : Nat) :
    Keeps (fun n => n.encoder_) (Nvenc.Resize B width height) := by
  unfold Nvenc.Resize
  repeat (first
    | with_reducible (first
      | exact Keeps.pure _ | exact Keeps.getSelf
      | exact Keeps.CallNvencApi _ _ _
      | exact keeps_encoder_of_settings (keeps_settings_EndEncode _)
      | exact keeps_encoder_of_settings (keeps_settings_DestroyBitstreamBuffers _)
      | exact keeps_encoder_of_settings (keeps_settings_UnregisterResources _)
      | exact keeps_encoder_of_settings (keeps_settings_CreateInputTextures _)
      | exact keeps_encoder_of_settings (keeps_settings_RegisterResources _)
      | exact keeps_encoder_of_settings (keeps_settings_CreateBitstreamBuffers _)
      | apply Keeps.bind
      | apply Keeps.ite)
    | exact Keeps.modifySelf (fun _ => rfl)
    | intro _
    | dsimp only)

/-! ## The messages of the exceptions -/

theorem failureMessage_ne_empty (apiName : String) (status : NVENCSTATUS) :
    failureMessage apiName status ≠ "" := by
  intro h
  have h1 := congrArg String.length h
  simp only [failureMessage, String.length_append] at h1
  have h2 : " call failed: ".length = 14 := by decide
  have h3 : "".length = 0 := by decide
  rw [h2, h3] at h1
  omega

section raises

variable {σ α β : Type}

theorem raises_pure (a : α) : RaisesMessage (pure a : Eff σ α) :=
  ⟨fun _ _ h => by simp at h⟩

theorem raises_throw {e : String} (h : e ≠ "") : RaisesMessage (ThrowError e : Eff σ Unit) :=
  ⟨fun _ _ h1 => by simp at h1; rw [← h1]; exact h⟩

theorem raises_bind {m : Eff σ α} {f : α → Eff σ β} (hm : RaisesMessage m)
    (hf : ∀ a, RaisesMessage (f a)) : RaisesMessage (m >>= f) := by
  constructor
  intro s e h
  simp only [run_bind] at h
  have h1 := hm.nonempty s
  rcases hr : m s with ⟨r, s1⟩
  rw [hr] at h h1
  cases r with
  | ok a => exact (hf a).nonempty s1 e h
  | thrown e1 => exact h1 e (by simpa using h)
  | undefined => simp at h

theorem raises_ite {c : Prop} [Decidable c] {m1 m2 : Eff σ α} (h1 : RaisesMessage m1)
    (h2 : RaisesMessage m2) : RaisesMessage (if c then m1 else m2) := by
  split
  · exact h1
  · exact h2

theorem raises_call (c : Call) : RaisesMessage (call c) := ⟨fun _ _ h => by simp at h⟩

theorem raises_getSelf : RaisesMessage getSelf := ⟨fun _ _ h => by simp at h⟩

theorem raises_getResource (i : Nat) : RaisesMessage (getResource i) := ⟨fun _ _ h => by simp at h⟩

theorem raises_modifySelf (f : Nvenc → Nvenc) : RaisesMessage (modifySelf f) :=
  ⟨fun _ _ h => by simp at h⟩

theorem raises_modifyResource (i : Nat) (f : NvencResource → NvencResource) :
    RaisesMessage (modifyResource i f) :=
  ⟨fun _ _ h => by simp at h⟩

theorem raises_CallNvencApi (B : Backend) (apiName : String) (api : Call) :
    RaisesMessage (CallNvencApi B apiName api) := by
  constructor
  intro w e h
  rw [run_CallNvencApi] at h
  split at h
  · simp only [Outcome.thrown.injEq] at h
    rw [← h]
    exact failureMessage_ne_empty _ _
  · simp at h

theorem raises_ThrowErrorIfNotInitialized : RaisesMessage Nvenc.ThrowErrorIfNotInitialized := by
  constructor
  intro w e h
  rw [run_ThrowErrorIfNotInitialized] at h
  split at h
  · simp only [Outcome.thrown.injEq] at h
    rw [← h]
    decide
  · simp at h

theorem raises_forEachIndex {body : Nat → Eff World Unit} (h : ∀ i, RaisesMessage (body i)) :
    ∀ l : List Nat, RaisesMessage (forEachIndex body l)
  | [] => raises_pure ()
  | i :: rest => raises_bind (h i) fun _ => raises_forEachIndex h rest

theorem raises_forEachResource {body : Nat → Eff World Unit} (h : ∀ i, RaisesMessage (body i)) :
    RaisesMessage (forEachResource body) :=
  raises_bind raises_getSelf fun _ => raises_forEachIndex h _

theorem raises_onWorld {m : Eff World α} (h : RaisesMessage m) : RaisesMessage (Nvenc.onWorld m) :=
  ⟨fun s e h1 => h.nonempty s.1 e (by simpa using h1)⟩

theorem raises_pushBack (ed : NvencEncodedData) : RaisesMessage (Nvenc.pushBack ed) :=
  ⟨fun _ _ h => by simp at h⟩

theorem raises_advanceOutputIndex : RaisesMessage Nvenc.advanceOutputIndex :=
  ⟨fun _ _ h => by simp at h⟩

theorem raises_withLocalData {m : Eff (World × List NvencEncodedData) α} (h : RaisesMessage m) :
    RaisesMessage (Nvenc.withLocalData m) :=
  ⟨fun w e h1 => h.nonempty (w, []) e (by simpa using h1)⟩

end raises

theorem raises_WaitForCompletion (B : Backend) (index duration : Nat) :
    RaisesMessage (Nvenc.WaitForCompletion B index duration) := by
  constructor
  intro w e h
  rw [run_WaitForCompletion] at h
  split at h
  · simp only [Outcome.thrown.injEq] at h
    rw [← h]
    decide
  · split at h
    · simp only [Outcome.thrown.injEq] at h
      rw [← h]
      decide
    · simp at h

theorem raises_UnmapInputResource (B : Backend) (index : Nat) :
    RaisesMessage (Nvenc.UnmapInputResource B index) := by
  unfold Nvenc.UnmapInputResource
  repeat (first
    | with_reducible (first
      | exact raises_pure _ | exact raises_getSelf | exact raises_getResource _
      | exact raises_CallNvencApi _ _ _ | exact raises_ThrowErrorIfNotInitialized
      | exact raises_modifyResource _ _
      | apply raises_bind
      | apply raises_ite)
    | intro _
    | dsimp only)

theorem raises_GetEncodedDataBody (B : Backend) : RaisesMessage (Nvenc.GetEncodedDataBody B) := by
  unfold Nvenc.GetEncodedDataBody
  repeat (first
    | with_reducible (first
      | exact raises_pure _ | exact raises_pushBack _
      | exact raises_onWorld raises_getSelf | exact raises_onWorld (raises_getResource _)
      | exact raises_onWorld (raises_CallNvencApi _ _ _)
      | exact raises_onWorld (raises_WaitForCompletion _ _ _)
      | exact raises_onWorld (raises_UnmapInputResource _ _)
      | exact raises_onWorld (raises_modifyResource _ _)
      | apply raises_bind
      | apply raises_ite)
    | exact raises_throw (by decide)
    | intro _
    | dsimp only)

theorem raises_GetEncodedDataLoop (B : Backend) :
    ∀ fuel, RaisesMessage (Nvenc.GetEncodedDataLoop B fuel)
  | 0 => raises_pure ()
  | fuel + 1 => by
    have ih := raises_GetEncodedDataLoop B fuel
    unfold Nvenc.GetEncodedDataLoop
    repeat (first
      | with_reducible (first
        | exact raises_pure _ | exact ih
        | exact raises_onWorld raises_getSelf
        | exact raises_GetEncodedDataBody _
        | exact raises_advanceOutputIndex
        | apply raises_bind
        | apply raises_ite)
      | intro _
      | dsimp only)

theorem raises_GetEncodedData (B : Backend) : RaisesMessage (Nvenc.GetEncodedData B) := by
  unfold Nvenc.GetEncodedData
  repeat (first
    | with_reducible (first
      | exact raises_pure _
      | exact raises_onWorld raises_getSelf
      | exact raises_onWorld raises_ThrowErrorIfNotInitialized
      | exact raises_GetEncodedDataLoop _ _
      | apply raises_bind
      | apply raises_ite)
    | intro _
    | dsimp only)

theorem raises_SendEOS (B : Backend) : RaisesMessage (Nvenc.SendEOS B) := by
  unfold Nvenc.SendEOS
  repeat (first
    | with_reducible (first
      | exact raises_pure _ | exact raises_getSelf | exact raises_getResource _
      | exact raises_CallNvencApi _ _ _ | exact raises_ThrowErrorIfNotInitialized
      | exact raises_modifyResource _ _ | exact raises_modifySelf _
      | apply raises_bind
      | apply raises_ite)
    | intro _
    | dsimp only)

theorem raises_EndEncode (B : Backend) : RaisesMessage (Nvenc.EndEncode B) := by
  unfold Nvenc.EndEncode
  repeat (first
    | with_reducible (first
      | exact raises_pure _ | exact raises_getSelf
      | exact raises_ThrowErrorIfNotInitialized
      | exact raises_SendEOS _
      | exact raises_withLocalData (raises_GetEncodedData _)
      | apply raises_bind
      | apply raises_ite)
    | intro _
    | dsimp only)

theorem raises_DestroyBitstreamBuffers (B : Backend) :
    RaisesMessage (Nvenc.DestroyBitstreamBuffers B) := by
  unfold Nvenc.DestroyBitstreamBuffers
  repeat (first
    | with_reducible (first
      | exact raises_pure _ | exact raises_getSelf | exact raises_call _
      | exact raises_CallNvencApi _ _ _ | exact raises_ThrowErrorIfNotInitialized
      | exact raises_modifyResource _ _
      | apply raises_forEachResource
      | apply raises_bind
      | apply raises_ite)
    | exact raises_throw (by decide)
    | intro _
    | dsimp only)

theorem raises_UnregisterResources (B : Backend) :
    RaisesMessage (Nvenc.UnregisterResources B) := by
  unfold Nvenc.UnregisterResources
  repeat (first
    | with_reducible (first
      | exact raises_pure _ | exact raises_getSelf | exact raises_call _
      | exact raises_CallNvencApi _ _ _ | exact raises_ThrowErrorIfNotInitialized
      | exact raises_modifyResource _ _
      | apply raises_forEachResource
      | apply raises_bind
      | apply raises_ite)
    | exact raises_throw (by decide)
    | intro _
    | dsimp only)

theorem raises_CreateInputTextures (B : Backend) :
    RaisesMessage (Nvenc.CreateInputTextures B) := by
  unfold Nvenc.CreateInputTextures
  repeat (first
    | with_reducible (first
      | exact raises_pure _ | exact raises_getSelf | exact raises_call _
      | exact raises_CallNvencApi _ _ _ | exact raises_ThrowErrorIfNotInitialized
      | exact raises_modifyResource _ _
      | apply raises_forEachResource
      | apply raises_bind
      | apply raises_ite)
    | exact raises_throw (by decide)
    | intro _
    | dsimp only)

theorem raises_RegisterResources (B : Backend) :
    RaisesMessage (Nvenc.RegisterResources B) := by
  unfold Nvenc.RegisterResources
  repeat (first
    | with_reducible (first
      | exact raises_pure _ | exact raises_getSelf | exact raises_call _
      | exact raises_CallNvencApi _ _ _ | exact raises_ThrowErrorIfNotInitialized
      | exact raises_modifyResource _ _
      | apply raises_forEachResource
      | apply raises_bind
      | apply raises_ite)
    | exact raises_throw (by decide)
    | intro _
    | dsimp only)

theorem raises_CreateBitstreamBuffers (B : Backend) :
    RaisesMessage (Nvenc.CreateBitstreamBuffers B) := by
  unfold Nvenc.CreateBitstreamBuffers
  repeat (first
    | with_reducible (first
      | exact raises_pure _ | exact raises_getSelf | exact raises_call _
      | exact raises_CallNvencApi _ _ _ | exact raises_ThrowErrorIfNotInitialized
      | exact raises_modifyResource _ _
      | apply raises_forEachResource
      | apply raises_bind
      | apply raises_ite)
    | exact raises_throw (by decide)
    | intro _
    | dsimp only)

/-- Every exception `Resize` can raise carries a non-empty message. -/
theorem raises_Resize (B : Backend) (width height : Nat) :
    RaisesMessage (Nvenc.Resize B width height) := by
  unfold Nvenc.Resize
  repeat (first
    | with_reducible (first
      | exact raises_pure _ | exact raises_getSelf
      | exact raises_CallNvencApi _ _ _
      | exact raises_modifySelf _
      | exact raises_EndEncode _
      | exact raises_DestroyBitstreamBuffers _
      | exact raises_UnregisterResources _
      | exact raises_CreateInputTextures _
      | exact raises_RegisterResources _
      | exact raises_CreateBitstreamBuffers _
      | apply raises_bind
      | apply raises_ite)
    | intro _
    | dsimp only)

/-! ## The encoder after a resize -/

/-- `Encoder::Resize` stores the requested size in the encoder's description
before the session is asked, whatever the session then does. -/
theorem Encoder_Resize_desc (B : Backend) (width height : Nat) (a : App) :
    Encoder.GetWidth (Encoder.Resize B width height a).2.self = width ∧
    Encoder.GetHeight (Encoder.Resize B width height a).2.self = height := by
  cases hn : a.self.nvenc_ with
  | none => simp [Encoder.Resize, withNvenc, hn, Encoder.GetWidth, Encoder.GetHeight]
  | some n =>
    rcases h : Nvenc.Resize B width height ⟨n, a.proc⟩ with ⟨r, w⟩
    cases r <;> simp [Encoder.Resize, withNvenc, hn, h, Encoder.GetWidth, Encoder.GetHeight]

/-- What `Encoder::Resize` leaves when `nvenc_->Resize` raises: the session
as the exception left it and the message in `error_`. -/
theorem Encoder_Resize_thrown (B : Backend) (width height : Nat) (a : App) (n : Nvenc)
    (what : String) (hn : a.self.nvenc_ = some n)
    (hfail : (Nvenc.Resize B width height ⟨n, a.proc⟩).1 = Outcome.thrown what) :
    (Encoder.Resize B width height a).2.self.nvenc_ =
        some (Nvenc.Resize B width height ⟨n, a.proc⟩).2.self ∧
      (Encoder.Resize B width height a).2.self.device_ = a.self.device_ ∧
      (Encoder.Resize B width height a).2.self.error_ = what := by
  rcases h : Nvenc.Resize B width height ⟨n, a.proc⟩ with ⟨r, w⟩
  rw [h] at hfail
  simp only at hfail
  subst hfail
  simp [Encoder.Resize, withNvenc, hn, h]

/-- When the teardown of `Resize` has returned and the backend rejects the
reconfigure call, `Resize` raises the call's error and the session's
description is the one it had. -/
theorem Resize_reconfigure_rejected (B : Backend) (width height : Nat) (w w1 w2 w3 : World)
    (hdiff : ¬ (w.self.desc_.width = width ∧ w.self.desc_.height = height))
    (h1 : Nvenc.EndEncode B w = (Outcome.ok (), w1))
    (h2 : Nvenc.DestroyBitstreamBuffers B w1 = (Outcome.ok (), w2))
    (h3 : Nvenc.UnregisterResources B w2 = (Outcome.ok (), w3))
    (hrej : B.status w3.proc.log.length ≠ NVENCSTATUS.NV_ENC_SUCCESS ∧
      B.status w3.proc.log.length ≠ NVENCSTATUS.NV_ENC_ERR_NEED_MORE_INPUT) :
    (Nvenc.Resize B width height w).1 =
        Outcome.thrown (failureMessage "s_nvenc.nvEncReconfigureEncoder"
          (B.status w3.proc.log.length)) ∧
      (Nvenc.Resize B width height w).2.self.desc_ = w.self.desc_ := by
  have k1 := (keeps_desc_of_settings (keeps_settings_EndEncode B)).keeps w
  have k2 := (keeps_desc_of_settings (keeps_settings_DestroyBitstreamBuffers B)).keeps w1
  have k3 := (keeps_desc_of_settings (keeps_settings_UnregisterResources B)).keeps w2
  rw [h1] at k1
  rw [h2] at k2
  rw [h3] at k3
  simp only at k1 k2 k3
  simp only [Nvenc.Resize, run_bind, run_getSelf, run_ite, if_neg hdiff, h1, h2, h3,
    run_CallNvencApi, if_pos hrej, logged_eq]
  exact ⟨trivial, by rw [k3, k2, k1]⟩

/-! ## The mapped reference of a slot -/

/-- On a slot whose mapped reference is set, `UnmapInputResource` does
nothing: the source's test is `!resource.inputResource_`. -/
theorem UnmapInputResource_mapped (B : Backend) (index : Nat) (w : World)
    (hv : w.self.encoder_ ≠ 0) (hm : (resourceAt w.self index).inputResource_ ≠ 0) :
    Nvenc.UnmapInputResource B index w = (Outcome.ok (), w) := by
  simp [Nvenc.UnmapInputResource, hv, hm]

/-- A pass of the drain loop's body that returns, on a slot whose mapped
reference is set, leaves the reference as it is, and the calls it makes are
the wait, the lock and the unlock. -/
theorem GetEncodedDataBody_mapped (B : Backend) (s : World × List NvencEncodedData)
    (hok : (Nvenc.GetEncodedDataBody B s).1 = Outcome.ok ())
    (hm : (resourceAt s.1.self s.1.self.GetOutputIndex).inputResource_ ≠ 0) :
    (resourceAt (Nvenc.GetEncodedDataBody B s).2.1.self s.1.self.GetOutputIndex).inputResource_ =
        (resourceAt s.1.self s.1.self.GetOutputIndex).inputResource_ ∧
      (Nvenc.GetEncodedDataBody B s).2.1.proc.log =
        s.1.proc.log ++
          [Call.WaitForSingleObject
              (resourceAt s.1.self s.1.self.GetOutputIndex).completionEvent_ 10000,
            Call.nvEncLockBitstream s.1.self.encoder_
              (resourceAt s.1.self s.1.self.GetOutputIndex).bitstreamBuffer_,
            Call.nvEncUnlockBitstream s.1.self.encoder_
              (resourceAt s.1.self s.1.self.GetOutputIndex).bitstreamBuffer_] := by
  obtain ⟨w, d⟩ := s
  simp only at hok hm ⊢
  have hin : w.self.GetOutputIndex < w.self.resources_.length := by
    by_contra hge
    apply hm
    have hnone : w.self.resources_[w.self.GetOutputIndex]? = none :=
      List.getElem?_eq_none (Nat.le_of_not_lt hge)
    simp only [resourceAt, List.getD_eq_getElem?_getD, hnone]
    rfl
  have hflag : (resourceAt w.self w.self.GetOutputIndex).isEncoding_ = true ∨
      (resourceAt w.self w.self.GetOutputIndex).isEncoding_ = false := by
    cases (resourceAt w.self w.self.GetOutputIndex).isEncoding_ <;> simp
  rcases hflag with hbusy | hfree
  swap
  · simp [Nvenc.GetEncodedDataBody, hfree] at hok
  by_cases hv : w.self.encoder_ = 0
  · simp [Nvenc.GetEncodedDataBody, hv, hbusy] at hok
  by_cases hw : B.wait w.proc.log.length = WaitResult.WAIT_FAILED
  · simp [Nvenc.GetEncodedDataBody, hv, hbusy, hw] at hok
  by_cases hs1 : B.status (w.proc.log.length + 1) ≠ NVENCSTATUS.NV_ENC_SUCCESS ∧
      B.status (w.proc.log.length + 1) ≠ NVENCSTATUS.NV_ENC_ERR_NEED_MORE_INPUT
  · simp [Nvenc.GetEncodedDataBody, hv, hbusy, hw, hs1] at hok
  by_cases hs2 : B.status (w.proc.log.length + 2) ≠ NVENCSTATUS.NV_ENC_SUCCESS ∧
      B.status (w.proc.log.length + 2) ≠ NVENCSTATUS.NV_ENC_ERR_NEED_MORE_INPUT
  · simp [Nvenc.GetEncodedDataBody, hv, hbusy, hw, hs1, hs2] at hok
  simp [Nvenc.GetEncodedDataBody, hv, hbusy, hw, hs1, hs2, hm, resourceAt_updateResource, hin]

/-! ## The module's reference count -/

/-- Whatever its outcome, the drain loop appends packets tagged with
consecutive indices from the output index it started at: one for each index
it has passed, and at most one more, for the index at which it raised. When
it returns there is none more. -/
theorem GetEncodedDataLoop_drained (B : Backend) (fuel : Nat) :
    ∀ s : World × List NvencEncodedData,
      ∃ pk : List NvencEncodedData,
        (Nvenc.GetEncodedDataLoop B fuel s).2.2 = s.2 ++ pk ∧
        pk.map (fun ed => ed.index) = List.range' s.1.self.outputIndex_ pk.length ∧
        (Nvenc.GetEncodedDataLoop B fuel s).2.1.self.outputIndex_ - s.1.self.outputIndex_ ≤ pk.length ∧
        pk.length ≤
          (Nvenc.GetEncodedDataLoop B fuel s).2.1.self.outputIndex_ - s.1.self.outputIndex_ + 1 ∧
        ((Nvenc.GetEncodedDataLoop B fuel s).1 = Outcome.ok () →
          pk.length =
            (Nvenc.GetEncodedDataLoop B fuel s).2.1.self.outputIndex_ - s.1.self.outputIndex_) := by
  induction fuel with
  | zero => intro s; exact ⟨[], by simp [Nvenc.GetEncodedDataLoop]⟩
  | succ fuel ih =>
    intro s
    by_cases hlt : s.1.self.outputIndex_ < s.1.self.inputIndex_
    swap
    · rw [GetEncodedDataLoop_done B _ s hlt]
      exact ⟨[], by simp⟩
    have spec := GetEncodedDataBody_spec B s
    rcases hb : Nvenc.GetEncodedDataBody B s with ⟨r, w1, d1⟩
    rw [hb] at spec
    cases r with
    | ok u =>
      obtain ⟨-, h2, -, -, -, -, ed, hed, hd⟩ := spec
      simp only at h2 hd
      rw [GetEncodedDataLoop_step B fuel s (w1, d1) hlt hb]
      obtain ⟨pk, i1, i2, i3, i4, i5⟩ :=
        ih ({ w1 with self := { w1.self with outputIndex_ := w1.self.outputIndex_ + 1 } }, d1)
      have hmono := (GetEncodedDataLoop_frame B fuel
        ({ w1 with self := { w1.self with outputIndex_ := w1.self.outputIndex_ + 1 } }, d1)).2.2.2.1
      simp only at i1 i2 i3 i4 i5 hmono ⊢
      generalize Nvenc.GetEncodedDataLoop B fuel
        ({ w1 with self := { w1.self with outputIndex_ := w1.self.outputIndex_ + 1 } }, d1) = R
        at i1 i3 i4 i5 hmono ⊢
      rw [h2] at i2 i3 i4 i5 hmono
      refine ⟨ed :: pk, ?_, ?_, ?_, ?_, ?_⟩
      · rw [i1, hd, List.append_assoc]
        rfl
      · simp only [List.map_cons, List.length_cons, List.range'_succ, hed, i2]
      · simp only [List.length_cons]
        omega
      · simp only [List.length_cons]
        omega
      · intro hok
        have := i5 hok
        simp only [List.length_cons]
        omega
    | thrown e =>
      obtain ⟨-, h2, -, -, hd⟩ := spec
      simp only at h2 hd
      rw [GetEncodedDataLoop_throw B fuel s (w1, d1) e hlt hb]
      rcases hd with hd | ⟨ed, hed, hd⟩
      · exact ⟨[], by simp [hd, h2]⟩
      · refine ⟨[ed], hd, by simp [hed], by simp [h2], by simp [h2], fun h => by simp at h⟩
    | undefined => exact absurd spec.2.2.2 (by simp)

/-! ## A drain that meets a slot not in flight -/

/-- A pass of the drain loop that starts at a pending index whose slot is not
in flight raises and leaves the state as it is. -/
theorem GetEncodedDataLoop_not_in_flight (B : Backend) (fuel : Nat)
    (s : World × List NvencEncodedData)
    (hlt : s.1.self.outputIndex_ < s.1.self.inputIndex_)
    (hfree : (resourceAt s.1.self s.1.self.GetOutputIndex).isEncoding_ = false) :
    Nvenc.GetEncodedDataLoop B (fuel + 1) s =
      (Outcome.thrown "Try to get an invalid bitstream.", s) := by
  have hbody : Nvenc.GetEncodedDataBody B s =
      (Outcome.thrown "Try to get an invalid bitstream.", s) := by
    simp [Nvenc.GetEncodedDataBody, hfree]
  exact GetEncodedDataLoop_throw B fuel s s _ hlt hbody

theorem Overrun.one_slot {n : Nvenc} (h : Overrun n) : n.resources_.length = 1 := by
  rw [← flags_length]
  rcases h.2 with h1 | h1 <;> rw [h1.1] <;> rfl

/-- On a session with one index too many pending, the drain raises at the
index whose slot is not in flight, on a backend that never fails; the session
is left with the slot free and one index pending. -/
theorem GetEncodedData_overrun (B : Backend) (hA : B.Accepts) (hW : B.WaitsDoNotFail) (w : World)
    (d : List NvencEncodedData) (h : Overrun w.self) :
    (Nvenc.GetEncodedData B (w, d)).1 = Outcome.thrown "Try to get an invalid bitstream." ∧
    (Nvenc.GetEncodedData B (w, d)).2.1.self.encoder_ ≠ 0 ∧
    flags (Nvenc.GetEncodedData B (w, d)).2.1.self = [false] ∧
    (Nvenc.GetEncodedData B (w, d)).2.1.self.inputIndex_ = w.self.inputIndex_ ∧
    (Nvenc.GetEncodedData B (w, d)).2.1.self.inputIndex_ =
      (Nvenc.GetEncodedData B (w, d)).2.1.self.outputIndex_ + 1 := by
  have hlen := h.one_slot
  obtain ⟨hv, hr⟩ := h
  rw [run_GetEncodedData, if_neg hv]
  have h0 : ∀ n : Nvenc, n.resources_.length = 1 → n.GetOutputIndex = 0 := by
    intro n hn
    simp [Nvenc.GetOutputIndex, hn, Nat.mod_one]
  rcases hr with ⟨hf, hi⟩ | ⟨hf, hi⟩
  · have hfuel : w.self.inputIndex_ - w.self.outputIndex_ = 0 + 1 := by omega
    have hfree : (resourceAt w.self w.self.GetOutputIndex).isEncoding_ = false := by
      rw [isEncoding_resourceAt, h0 _ hlen, hf]; rfl
    rw [hfuel, GetEncodedDataLoop_not_in_flight B 0 (w, d) (by simp only; omega) hfree]
    exact ⟨rfl, hv, hf, rfl, hi⟩
  · have hfuel : w.self.inputIndex_ - w.self.outputIndex_ = 1 + 1 := by omega
    have hlt : w.self.outputIndex_ < w.self.inputIndex_ := by omega
    have hbusy : (resourceAt w.self w.self.GetOutputIndex).isEncoding_ = true := by
      rw [isEncoding_resourceAt, h0 _ hlen, hf]; rfl
    have hok := GetEncodedDataBody_ok B (w, d) hA.not_rejected hW hv hbusy
    have spec := GetEncodedDataBody_spec B (w, d)
    rcases hbody : Nvenc.GetEncodedDataBody B (w, d) with ⟨r, w1, d1⟩
    rw [hbody] at spec hok
    simp only at hok
    subst hok
    simp only [h0 _ hlen, hf] at spec
    obtain ⟨s2, s3, s4, -, -, s5, -⟩ := spec
    have hflags1 : flags w1.self = [false] := by rw [s5]; rfl
    have hlen1 : w1.self.resources_.length = 1 := by rw [← flags_length, hflags1]; rfl
    rw [hfuel, GetEncodedDataLoop_step B 1 (w, d) (w1, d1) hlt hbody]
    have hfree : (resourceAt
        ({ w1 with self := { w1.self with outputIndex_ := w1.self.outputIndex_ + 1 } } : World).self
        ({ w1 with self := { w1.self with outputIndex_ := w1.self.outputIndex_ + 1 } } :
          World).self.GetOutputIndex).isEncoding_ = false := by
      rw [isEncoding_resourceAt, h0 _ (by simpa using hlen1)]
      simp only [flags_mk, map_isEncoding_resources, hflags1]
      rfl
    rw [GetEncodedDataLoop_not_in_flight B 0
      ({ w1 with self := { w1.self with outputIndex_ := w1.self.outputIndex_ + 1 } }, d1)
      (by simp only; omega) hfree]
    refine ⟨rfl, ?_, ?_, ?_, ?_⟩
    · simp only; rw [s4]; exact hv
    · simp only [flags_mk, map_isEncoding_resources]; exact hflags1
    · simp only; exact s2
    · simp only; omega

/-- With one index too many pending, `Encode` on a backend that rejects
nothing returns and leaves one index too many pending (it takes the slot when
the slot is free and the copy succeeds); `outputIndex` is kept. -/
theorem Encode_overrun (B : Backend) (hA : B.Accepts) (source : Nat) (f : Bool) (w : World)
    (h : Overrun w.self) :
    (∃ b, (Nvenc.Encode B source f w).1 = Outcome.ok b) ∧
      Overrun (Nvenc.Encode B source f w).2.self := by
  have hlen := h.one_slot
  obtain ⟨hv, hr⟩ := h
  have h0 : w.self.GetInputIndex = 0 := by simp [Nvenc.GetInputIndex, hlen, Nat.mod_one]
  have spec := Encode_spec B source f w
  rcases hr with ⟨hf, hi⟩ | ⟨hf, hi⟩
  · have hfree : (resourceAt w.self w.self.GetInputIndex).isEncoding_ = false := by
      rw [isEncoding_resourceAt, h0, hf]; rfl
    have hout := Encode_outcome_free B source f w hA.not_rejected hv hfree
    rw [hout, h0, hf] at spec
    refine ⟨⟨_, hout⟩, ?_⟩
    cases hc : B.succeeded w.proc.log.length
    · rw [hc] at spec
      simp only at spec
      obtain ⟨s1, s2, s3, s4⟩ := spec
      exact ⟨by rw [s2]; exact hv, Or.inl ⟨s4, by omega⟩⟩
    · rw [hc] at spec
      simp only at spec
      obtain ⟨s1, s2, s3, -, s5⟩ := spec
      exact ⟨by rw [s2]; exact hv, Or.inr ⟨by rw [s5]; rfl, by omega⟩⟩
  · have hbusy : (resourceAt w.self w.self.GetInputIndex).isEncoding_ = true := by
      rw [isEncoding_resourceAt, h0, hf]; rfl
    rw [Encode_busy B source f w hv hbusy]
    exact ⟨⟨false, rfl⟩, hv, Or.inr ⟨hf, hi⟩⟩

/-- On a valid session with one index pending on its slot and a backend that
rejects nothing, `SendEOS` returns and leaves two indices pending on the
slot. -/
theorem SendEOS_pending (B : Backend) (hA : B.Accepts) (w : World) (hv : w.self.encoder_ ≠ 0)
    (hf : flags w.self = [true]) (hi : w.self.inputIndex_ = w.self.outputIndex_ + 1) :
    (Nvenc.SendEOS B w).1 = Outcome.ok () ∧ Overrun (Nvenc.SendEOS B w).2.self ∧
      (Nvenc.SendEOS B w).2.self.outputIndex_ = w.self.outputIndex_ := by
  have hlen : w.self.resources_.length = 1 := by
    rw [← flags_length, hf]; rfl
  have h0 : w.self.GetInputIndex = 0 := by simp [Nvenc.GetInputIndex, hlen, Nat.mod_one]
  have hnr := hA.not_rejected w.proc.log.length
  rw [run_SendEOS, if_neg hv, if_neg hnr, h0]
  refine ⟨rfl, ⟨hv, Or.inr ⟨?_, ?_⟩⟩, ?_⟩
  · simp only [logged_eq, flags_mk, map_isEncoding_resources, flags_updateResource, hf]
    rfl
  · simp only [logged_eq, updateResource_outputIndex]
    omega
  · simp only [logged_eq, updateResource_outputIndex]

/-- On a valid session with one index pending on its slot and a backend that
never fails, `EndEncode` sends the end of stream, drains the pending packet
into its local vector and raises at the end-of-stream index; `outputIndex`
has passed the pending index. -/
theorem EndEncode_pending (B : Backend) (hA : B.Accepts) (hW : B.WaitsDoNotFail) (w : World)
    (hv : w.self.encoder_ ≠ 0) (hf : flags w.self = [true])
    (hi : w.self.inputIndex_ = w.self.outputIndex_ + 1) :
    (Nvenc.EndEncode B w).1 = Outcome.thrown "Try to get an invalid bitstream." ∧
      Overrun (Nvenc.EndEncode B w).2.self ∧
      (Nvenc.EndEncode B w).2.self.outputIndex_ = w.self.outputIndex_ + 1 := by
  have hz : w.self.inputIndex_ ≠ 0 := by omega
  obtain ⟨e1, e2, e3⟩ := SendEOS_pending B hA w hv hf hi
  rcases hres : Nvenc.SendEOS B w with ⟨r, w1⟩
  rw [hres] at e1 e2 e3
  simp only at e1 e2 e3
  subst e1
  obtain ⟨g1, g2, g3, g4, g5⟩ := GetEncodedData_overrun B hA hW w1 [] e2
  have hin1 : w1.self.inputIndex_ = w.self.inputIndex_ + 1 := by
    have := congrArg (fun r => r.2.self.inputIndex_) hres
    simp only [run_SendEOS, if_neg hv, if_neg (hA.not_rejected w.proc.log.length), logged_eq,
      updateResource_inputIndex] at this
    exact this.symm
  simp only [Nvenc.EndEncode, run_bind, run_ThrowErrorIfNotInitialized, if_neg hv, run_getSelf,
    run_ite, if_neg hz, hres, run_withLocalData]
  generalize Nvenc.GetEncodedData B (w1, []) = R at g1 g2 g3 g4 g5
  refine ⟨g1, ⟨g2, Or.inl ⟨g3, g5⟩⟩, ?_⟩
  omega

/-- A `Resize` to another size, with one index pending: it stops in
`EndEncode`. -/
theorem Resize_pending (B : Backend) (hA : B.Accepts) (hW : B.WaitsDoNotFail) (width height : Nat)
    (w : World) (hv : w.self.encoder_ ≠ 0) (hf : flags w.self = [true])
    (hi : w.self.inputIndex_ = w.self.outputIndex_ + 1)
    (hdiff : ¬ (w.self.desc_.width = width ∧ w.self.desc_.height = height)) :
    (Nvenc.Resize B width height w).1 = Outcome.thrown "Try to get an invalid bitstream." ∧
      Overrun (Nvenc.Resize B width height w).2.self ∧
      (Nvenc.Resize B width height w).2.self.outputIndex_ = w.self.outputIndex_ + 1 := by
  obtain ⟨e1, e2, e3⟩ := EndEncode_pending B hA hW w hv hf hi
  rcases hres : Nvenc.EndEncode B w with ⟨r, w1⟩
  rw [hres] at e1 e2 e3
  simp only at e1 e2 e3
  subst e1
  simp only [Nvenc.Resize, run_bind, run_getSelf, run_ite, if_neg hdiff, hres]
  exact ⟨trivial, e2, e3⟩

/-- A drain pass on a session with one index too many pending adds nothing to
the accumulated list, on a backend that never fails, and leaves one index too
many pending. -/
theorem UpdateGetEncodedData_overrun (B : Backend) (hA : B.Accepts) (hW : B.WaitsDoNotFail)
    (a : App) (n : Nvenc) (hn : a.self.nvenc_ = some n) (h : Overrun n) :
    (Encoder.UpdateGetEncodedData B a).2.self.encodedDataList_ = a.self.encodedDataList_ ∧
      ∃ n1, (Encoder.UpdateGetEncodedData B a).2.self.nvenc_ = some n1 ∧ Overrun n1 := by
  obtain ⟨g1, g2, g3, g4, g5⟩ := GetEncodedData_overrun B hA hW ⟨n, a.proc⟩ [] h
  rcases hres : Nvenc.GetEncodedData B (⟨n, a.proc⟩, []) with ⟨r, w1, d1⟩
  rw [hres] at g1 g2 g3 g4 g5
  simp only at g1 g2 g3 g4 g5
  subst g1
  simp only [Encoder.UpdateGetEncodedData, hn, hres]
  exact ⟨trivial, w1.self, rfl, g2, Or.inl ⟨g3, g5⟩⟩

/-- A submission through the encoder on a session with one index too many
pending leaves the accumulated list as it is and one index too many
pending. -/
theorem Encoder_Encode_overrun (B : Backend) (hA : B.Accepts) (source : Nat) (f : Bool) (a : App)
    (n : Nvenc) (hn : a.self.nvenc_ = some n) (h : Overrun n) :
    (Encoder.Encode B source f a).2.self.encodedDataList_ = a.self.encodedDataList_ ∧
      ∃ n1, (Encoder.Encode B source f a).2.self.nvenc_ = some n1 ∧ Overrun n1 := by
  obtain ⟨⟨b, e1⟩, e2⟩ := Encode_overrun B hA source f ⟨n, a.proc⟩ h
  have hrun := Encoder_Encode_run B source f a n hn
  rcases hres : Nvenc.Encode B source f ⟨n, a.proc⟩ with ⟨r, w1⟩
  rw [hres] at e1 e2 hrun
  simp only at e1 e2
  subst e1
  simp only at hrun
  rw [hrun]
  exact ⟨rfl, w1.self, rfl, e2⟩

/-- Once one index too many is pending, no submission and no drain pass adds
a packet to the accumulated list, on a backend that never fails. -/
theorem runFeed_overrun (B : Backend) (hA : B.Accepts) (hW : B.WaitsDoNotFail) (ops : List AppOp) :
    ∀ (fd : Feed) (n : Nvenc), fd.app.self.nvenc_ = some n → Overrun n →
      (ops.foldl (Feed.step B) fd).app.self.encodedDataList_ = fd.app.self.encodedDataList_ ∧
        ∃ n1, (ops.foldl (Feed.step B) fd).app.self.nvenc_ = some n1 ∧ Overrun n1 := by
  induction ops with
  | nil => intro fd n hn h; exact ⟨rfl, n, hn, h⟩
  | cons op rest ih =>
    intro fd n hn h
    cases op with
    | Encode source f =>
      obtain ⟨e1, n1, e2, e3⟩ := Encoder_Encode_overrun B hA source f fd.app n hn h
      obtain ⟨i1, i2⟩ := ih (fd.step B (AppOp.Encode source f)) n1 e2 e3
      exact ⟨i1.trans e1, i2⟩
    | UpdateGetEncodedData =>
      obtain ⟨e1, n1, e2, e3⟩ := UpdateGetEncodedData_overrun B hA hW fd.app n hn h
      obtain ⟨i1, i2⟩ := ih (fd.step B AppOp.UpdateGetEncodedData) n1 e2 e3
      exact ⟨i1.trans e1, i2⟩

/-! ## The claims -/

/-- C1: on a backend that never fails (no call is rejected, no wait fails),
from the state in which `Initialize` returned on a freshly constructed
session, every interleaving of `Encode` and `GetEncodedData` calls followed by
a final `GetEncodedData` runs without any call raising, and the packets
produced in total carry, in the order produced, the indices `0, 1, ..., N-1`,
where `N` is the number of `Encode` calls that returned `true`; so exactly `N`
packets are produced. -/
theorem C1_accepted_submissions_yield_packets_in_index_order (B : Backend) (hA : B.Accepts)
    (hW : B.WaitsDoNotFail) (desc : NvencDesc) (p : Process) (w : World)
    (hinit : Nvenc.Initialize B ⟨Nvenc.new desc, p⟩ = (Outcome.ok (), w))
    (ops : List StreamOp) :
    (runStream B (ops ++ [StreamOp.GetEncodedData]) w).raised = 0 ∧
    (runStream B (ops ++ [StreamOp.GetEncodedData]) w).packets.map (fun ed => ed.index) =
      List.range (runStream B (ops ++ [StreamOp.GetEncodedData]) w).accepted ∧
    (runStream B (ops ++ [StreamOp.GetEncodedData]) w).packets.length =
      (runStream B (ops ++ [StreamOp.GetEncodedData]) w).accepted := by
  obtain ⟨h1, h2, h3⟩ := Initialize_steady B desc p w hinit
  have h0 : Stream.Good ⟨w, 0, [], 0⟩ := ⟨h1, rfl, h2.symm, by simp [h3]⟩
  have hg := foldl_step_good B hA hW ops _ h0
  have hlast := Stream.step_good B hA hW _ StreamOp.GetEncodedData hg
  simp only [runStream, List.foldl_append, List.foldl_cons, List.foldl_nil]
  obtain ⟨⟨-, g2, g3, g4⟩, g5⟩ := hlast
  have g6 := g5 rfl
  have hmap : (Stream.step B (List.foldl (Stream.step B) ⟨w, 0, [], 0⟩ ops)
      StreamOp.GetEncodedData).packets.map (fun ed => ed.index) =
      List.range (Stream.step B (List.foldl (Stream.step B) ⟨w, 0, [], 0⟩ ops)
        StreamOp.GetEncodedData).accepted := by
    rw [g4, g3, g6]
  refine ⟨g2, hmap, ?_⟩
  have := congrArg List.length hmap
  simpa using this

/-- C1 at a concrete input: a 640x480 session on `okBackend`; the second
`Encode` finds the slot in flight and is turned away. -/
theorem C1_witness :
    (runStream okBackend
      ([StreamOp.Encode 7 false, StreamOp.Encode 8 false, StreamOp.GetEncodedData,
        StreamOp.Encode 9 true] ++ [StreamOp.GetEncodedData])
      (Nvenc.Initialize okBackend ⟨Nvenc.new ⟨1, 640, 480, 87, 30⟩, freshProcess⟩).2).raised = 0 ∧
    (runStream okBackend
      ([StreamOp.Encode 7 false, StreamOp.Encode 8 false, StreamOp.GetEncodedData,
        StreamOp.Encode 9 true] ++ [StreamOp.GetEncodedData])
      (Nvenc.Initialize okBackend ⟨Nvenc.new ⟨1, 640, 480, 87, 30⟩, freshProcess⟩).2).packets.map
        (fun ed => ed.index) =
      List.range (runStream okBackend
        ([StreamOp.Encode 7 false, StreamOp.Encode 8 false, StreamOp.GetEncodedData,
          StreamOp.Encode 9 true] ++ [StreamOp.GetEncodedData])
        (Nvenc.Initialize okBackend ⟨Nvenc.new ⟨1, 640, 480, 87, 30⟩, freshProcess⟩).2).accepted ∧
    (runStream okBackend
      ([StreamOp.Encode 7 false, StreamOp.Encode 8 false, StreamOp.GetEncodedData,
        StreamOp.Encode 9 true] ++ [StreamOp.GetEncodedData])
      (Nvenc.Initialize okBackend ⟨Nvenc.new ⟨1, 640, 480, 87, 30⟩, freshProcess⟩).2).packets.length =
      (runStream okBackend
        ([StreamOp.Encode 7 false, StreamOp.Encode 8 false, StreamOp.GetEncodedData,
          StreamOp.Encode 9 true] ++ [StreamOp.GetEncodedData])
        (Nvenc.Initialize okBackend ⟨Nvenc.new ⟨1, 640, 480, 87, 30⟩, freshProcess⟩).2).accepted :=
  C1_accepted_submissions_yield_packets_in_index_order okBackend okBackend_accepts okBackend_waits
    ⟨1, 640, 480, 87, 30⟩ freshProcess
    (Nvenc.Initialize okBackend ⟨Nvenc.new ⟨1, 640, 480, 87, 30⟩, freshProcess⟩).2
    (eq_ok_of_fst (Initialize_okBackend ⟨1, 640, 480, 87, 30⟩))
    [StreamOp.Encode 7 false, StreamOp.Encode 8 false, StreamOp.GetEncodedData, StreamOp.Encode 9 true]

/-- C2: on a valid session whose target slot `inputIndex mod ringSize` is in
flight, `Encode` returns `false` and leaves the whole state unchanged; and
once a `GetEncodedData` that returned has drained that slot (one of the
indices it visited selects it), an `Encode` whose copy succeeds, on a backend
that rejects nothing, returns `true` and adds one to `inputIndex`. -/
theorem C2_in_flight_slot_rejects_then_accepts_after_drain (B : Backend) (source : Nat)
    (forceIdrFrame : Bool) (w : World)
    (hvalid : w.self.IsValid = true)
    (hbusy : (resourceAt w.self w.self.GetInputIndex).isEncoding_ = true) :
    Nvenc.Encode B source forceIdrFrame w = (Outcome.ok false, w) ∧
    ∀ (d : List NvencEncodedData) (source1 : Nat) (force1 : Bool),
      B.Accepts →
      (Nvenc.GetEncodedData B (w, d)).1 = Outcome.ok () →
      (∃ j, w.self.outputIndex_ ≤ j ∧ j < w.self.inputIndex_ ∧
        j % w.self.resources_.length = w.self.GetInputIndex) →
      B.succeeded (Nvenc.GetEncodedData B (w, d)).2.1.proc.log.length = true →
      (Nvenc.Encode B source1 force1 (Nvenc.GetEncodedData B (w, d)).2.1).1 = Outcome.ok true ∧
      (Nvenc.Encode B source1 force1 (Nvenc.GetEncodedData B (w, d)).2.1).2.self.inputIndex_ =
        w.self.inputIndex_ + 1 := by
  have hv : w.self.encoder_ ≠ 0 := by simpa [Nvenc.IsValid] using hvalid
  refine ⟨Encode_busy B source forceIdrFrame w hv hbusy, ?_⟩
  intro d source1 force1 hB hok ⟨j, hj1, hj2, hj3⟩ hcopy
  have hrun : Nvenc.GetEncodedData B (w, d) =
      Nvenc.GetEncodedDataLoop B (w.self.inputIndex_ - w.self.outputIndex_) (w, d) := by
    simp [hv]
  rw [hrun] at hok hcopy ⊢
  obtain ⟨f1, f2, f3, -, -, -, -⟩ :=
    GetEncodedDataLoop_frame B (w.self.inputIndex_ - w.self.outputIndex_) (w, d)
  obtain ⟨-, k2, -⟩ :=
    GetEncodedDataLoop_ok B (w.self.inputIndex_ - w.self.outputIndex_) (w, d) hok (Nat.le_refl _)
  simp only at f1 f2 f3 k2
  generalize Nvenc.GetEncodedDataLoop B (w.self.inputIndex_ - w.self.outputIndex_) (w, d) = r
    at hok hcopy f1 f2 f3 k2 ⊢
  have hlen : r.2.1.self.resources_.length = w.self.resources_.length := by
    simpa using f3
  have hidx : r.2.1.self.GetInputIndex = w.self.GetInputIndex := by
    simp [Nvenc.GetInputIndex, f1, hlen]
  have hfree : (resourceAt r.2.1.self r.2.1.self.GetInputIndex).isEncoding_ = false := by
    rw [isEncoding_resourceAt, hidx, ← hj3]
    exact k2 j hj1 hj2
  have hv1 : r.2.1.self.encoder_ ≠ 0 := by rw [f2]; exact hv
  have hout := Encode_outcome_free B source1 force1 r.2.1 hB.not_rejected hv1 hfree
  rw [hcopy] at hout
  have spec := Encode_spec B source1 force1 r.2.1
  rw [hout] at spec
  exact ⟨hout, by rw [spec.2.2.1, f1]⟩

/-- C2 at a concrete input: `busyWorld` has its one slot in flight. -/
theorem C2_witness :
    Nvenc.Encode okBackend 7 false busyWorld = (Outcome.ok false, busyWorld) ∧
    (Nvenc.Encode okBackend 8 true
      (Nvenc.GetEncodedData okBackend (busyWorld, [])).2.1).1 = Outcome.ok true ∧
    (Nvenc.Encode okBackend 8 true
      (Nvenc.GetEncodedData okBackend (busyWorld, [])).2.1).2.self.inputIndex_ =
        busyWorld.self.inputIndex_ + 1 := by
  have h := C2_in_flight_slot_rejects_then_accepts_after_drain okBackend 7 false busyWorld
    (by decide) (by decide)
  exact ⟨h.1, h.2 [] 8 true okBackend_accepts (by rfl) ⟨0, by decide, by decide, by decide⟩ (by rfl)⟩

/-- C4: two consecutive `CopyEncodedDataList` calls with nothing appended in
between: after the first, `GetEncodedDataList` is the accumulated list and the
accumulated list is empty; after the second, both are empty. Both calls
return. -/
theorem C4_copy_twice_full_then_empty (a : App) :
    (Encoder.CopyEncodedDataList a).1 = Outcome.ok () ∧
    Encoder.GetEncodedDataList (Encoder.CopyEncodedDataList a).2.self = a.self.encodedDataList_ ∧
    (Encoder.CopyEncodedDataList a).2.self.encodedDataList_ = [] ∧
    (Encoder.CopyEncodedDataList (Encoder.CopyEncodedDataList a).2).1 = Outcome.ok () ∧
    Encoder.GetEncodedDataList
      (Encoder.CopyEncodedDataList (Encoder.CopyEncodedDataList a).2).2.self = [] ∧
    (Encoder.CopyEncodedDataList (Encoder.CopyEncodedDataList a).2).2.self.encodedDataList_ = [] := by
  simp [Encoder.CopyEncodedDataList, Encoder.GetEncodedDataList]

/-- C5 as stated fails: on `readyApp` and a backend that accepts everything,
one submission is accepted and is still pending when `Resize(1280, 720)` is
called. The resize sends the end of stream, drains packet 0 into the local
vector of `EndEncode`, which is dropped, and stops at index 1 with "Try to
get an invalid bitstream."; the drain and copy made right after the resize
expose no packet. -/
theorem C5_counterexample :
    (runFeed okBackend [AppOp.Encode 7 false] readyApp).accepted = 1 ∧
    exposedAfterResize okBackend 1280 720 (runFeed okBackend [AppOp.Encode 7 false] readyApp).app = 0 ∧
    (Encoder.Resize okBackend 1280 720
      (runFeed okBackend [AppOp.Encode 7 false] readyApp).app).2.self.error_ =
        "Try to get an invalid bitstream." := by
  simp [runFeed, Feed.step, sessionAccepts, exposedAfterResize, Encoder.Encode, Encoder.Resize,
    Encoder.UpdateGetEncodedData, Encoder.CopyEncodedDataList, Encoder.GetEncodedDataList,
    Encoder.RequestGetEncodedData, withNvenc, Nvenc.Encode, Nvenc.Resize, Nvenc.EndEncode,
    Nvenc.GetEncodedDataLoop, Nvenc.GetEncodedDataBody, Nvenc.GetInputIndex, Nvenc.GetOutputIndex,
    resourceAt, updateResource, readyApp, readySession, readyProcess, okBackend]

/-- C5 as amended: on a backend that never fails, from an encoder whose
session is steady with both indices 0 and whose accumulated list is empty,
after any sequence of `Encode` calls and drain passes, the drain and copy
made right after a `Resize` to another size expose as many packets as
submissions were accepted before it, less the number still pending when
`Resize` is called, which is at most one: a packet pending at the resize is
drained into the local vector of `EndEncode` and dropped. -/
theorem C5_exposed_after_resize_is_accepted_less_pending (B : Backend) (hA : B.Accepts)
    (hW : B.WaitsDoNotFail) (a : App) (n0 : Nvenc) (hn0 : a.self.nvenc_ = some n0)
    (hs0 : Steady n0) (hin : n0.inputIndex_ = 0) (hout : n0.outputIndex_ = 0)
    (hl0 : a.self.encodedDataList_ = []) (ops : List AppOp) (width height : Nat)
    (hdiff : ∀ n, (runFeed B ops a).app.self.nvenc_ = some n →
      ¬ (n.desc_.width = width ∧ n.desc_.height = height)) :
    pendingAt (runFeed B ops a).app ≤ 1 ∧
    exposedAfterResize B width height (runFeed B ops a).app + pendingAt (runFeed B ops a).app =
      (runFeed B ops a).accepted := by
  have h0 : Feed.Good ⟨a, 0⟩ := ⟨n0, hn0, hs0, hin.symm, by simp [hl0, hout]⟩
  obtain ⟨n, hn, hs, ha, hl⟩ := runFeed_good B hA hW ops _ h0
  have hd := hdiff n hn
  obtain ⟨r1, r2⟩ := Encoder_Resize_run B width height _ n hn
  have hc := CopyEncodedDataList_exposes
    (Encoder.UpdateGetEncodedData B (Encoder.Resize B width height
      (List.foldl (Feed.step B) ⟨a, 0⟩ ops).app).2).2
  have hp : pendingAt (runFeed B ops a).app = n.inputIndex_ - n.outputIndex_ := by
    simp only [pendingAt, runFeed, hn]
  rw [hp]
  simp only [exposedAfterResize, runFeed]
  rw [hc]
  rcases hs.2 with ⟨hf, hi⟩ | ⟨hf, hi⟩
  · have hidle : Idle n := ⟨hf, hi⟩
    have hi1 := (maintains_idle_Resize B hA hW width height).maintains
      ⟨n, (List.foldl (Feed.step B) ⟨a, 0⟩ ops).app.proc⟩ hidle
    have hu := UpdateGetEncodedData_idle B _ _ r1 hi1
    rw [hu, r2, hl, ha]
    omega
  · obtain ⟨p1, p2, p3⟩ := Resize_pending B hA hW width height
      ⟨n, (List.foldl (Feed.step B) ⟨a, 0⟩ ops).app.proc⟩ hs.1 hf hi hd
    obtain ⟨u1, -⟩ := UpdateGetEncodedData_overrun B hA hW _ _ r1 p2
    rw [u1, r2, hl, ha]
    omega

/-- C5 as amended, at a concrete input: on `readyApp`, two submissions are
accepted, the first drained by a pass and the second still pending at
`Resize(1280, 720)`; the drain and copy made after the resize expose one
packet. -/
theorem C5_witness :
    (pendingAt (runFeed okBackend
        [AppOp.Encode 7 false, AppOp.UpdateGetEncodedData, AppOp.Encode 8 true] readyApp).app ≤ 1 ∧
      exposedAfterResize okBackend 1280 720
          (runFeed okBackend
            [AppOp.Encode 7 false, AppOp.UpdateGetEncodedData, AppOp.Encode 8 true] readyApp).app +
        pendingAt (runFeed okBackend
          [AppOp.Encode 7 false, AppOp.UpdateGetEncodedData, AppOp.Encode 8 true] readyApp).app =
        (runFeed okBackend
          [AppOp.Encode 7 false, AppOp.UpdateGetEncodedData, AppOp.Encode 8 true] readyApp).accepted) ∧
    (runFeed okBackend
      [AppOp.Encode 7 false, AppOp.UpdateGetEncodedData, AppOp.Encode 8 true] readyApp).accepted = 2 ∧
    pendingAt (runFeed okBackend
      [AppOp.Encode 7 false, AppOp.UpdateGetEncodedData, AppOp.Encode 8 true] readyApp).app = 1 ∧
    exposedAfterResize okBackend 1280 720
      (runFeed okBackend
        [AppOp.Encode 7 false, AppOp.UpdateGetEncodedData, AppOp.Encode 8 true] readyApp).app = 1 := by
  have hstate : (runFeed okBackend
      [AppOp.Encode 7 false, AppOp.UpdateGetEncodedData, AppOp.Encode 8 true] readyApp).accepted = 2 ∧
      pendingAt (runFeed okBackend
        [AppOp.Encode 7 false, AppOp.UpdateGetEncodedData, AppOp.Encode 8 true] readyApp).app = 1 ∧
      ∀ n, (runFeed okBackend
        [AppOp.Encode 7 false, AppOp.UpdateGetEncodedData, AppOp.Encode 8 true]
          readyApp).app.self.nvenc_ = some n → n.desc_ = ⟨1, 640, 480, 87, 30⟩ := by
    simp [runFeed, Feed.step, sessionAccepts, pendingAt, Encoder.Encode, Encoder.UpdateGetEncodedData,
      Encoder.RequestGetEncodedData, withNvenc, Nvenc.Encode, Nvenc.GetEncodedDataLoop,
      Nvenc.GetEncodedDataBody, Nvenc.GetInputIndex, Nvenc.GetOutputIndex, resourceAt,
      updateResource, readyApp, readySession, readyProcess, okBackend]
  have h := C5_exposed_after_resize_is_accepted_less_pending okBackend okBackend_accepts
    okBackend_waits readyApp readySession rfl readySession_steady rfl rfl rfl
    [AppOp.Encode 7 false, AppOp.UpdateGetEncodedData, AppOp.Encode 8 true] 1280 720
    (fun n hn hd => by
      have hdesc := hstate.2.2 n hn
      rw [hdesc] at hd
      exact absurd hd.1 (by decide))
  refine ⟨h, hstate.1, hstate.2.1, ?_⟩
  have h2 := h.2
  rw [hstate.1, hstate.2.1] at h2
  omega

/-- C6: `Resize` with the session's configured width and height returns
having changed nothing of the session or the process (no call is logged). The
encoder's `Resize` with those values leaves the session, the packet lists, the
error string and the call log as they were and stores the values in the
encoder's own description; when that description already holds them, the
whole encoder state is unchanged. -/
theorem C6_resize_same_size_changes_nothing (B : Backend) :
    (∀ w : World, Nvenc.Resize B w.self.desc_.width w.self.desc_.height w = (Outcome.ok (), w)) ∧
    (∀ (a : App) (n : Nvenc), a.self.nvenc_ = some n →
      Encoder.Resize B n.desc_.width n.desc_.height a =
        (Outcome.ok (),
          { a with self := { a.self with
              desc_ := { a.self.desc_ with width := n.desc_.width, height := n.desc_.height } } })) ∧
    (∀ (a : App) (n : Nvenc), a.self.nvenc_ = some n →
      a.self.desc_.width = n.desc_.width → a.self.desc_.height = n.desc_.height →
      Encoder.Resize B n.desc_.width n.desc_.height a = (Outcome.ok (), a)) := by
  have h1 : ∀ w : World,
      Nvenc.Resize B w.self.desc_.width w.self.desc_.height w = (Outcome.ok (), w) := by
    intro w
    simp [Nvenc.Resize]
  have h2 : ∀ (a : App) (n : Nvenc), a.self.nvenc_ = some n →
      Encoder.Resize B n.desc_.width n.desc_.height a =
        (Outcome.ok (),
          { a with self := { a.self with
              desc_ := { a.self.desc_ with width := n.desc_.width, height := n.desc_.height } } }) := by
    intro a n hn
    have hw := h1 ⟨n, a.proc⟩
    simp only at hw
    simp [Encoder.Resize, withNvenc, hn, hw]
  refine ⟨h1, h2, ?_⟩
  intro a n hn hwd hht
  rw [h2 a n hn, ← hwd, ← hht]

/-- C6 at a concrete input: `readyApp` and its session are configured for
640x480. -/
theorem C6_witness :
    Nvenc.Resize okBackend 640 480 readyWorld = (Outcome.ok (), readyWorld) ∧
    Encoder.Resize okBackend 640 480 readyApp = (Outcome.ok (), readyApp) :=
  ⟨(C6_resize_same_size_changes_nothing okBackend).1 readyWorld,
    (C6_resize_same_size_changes_nothing okBackend).2.2 readyApp readySession rfl rfl rfl⟩

/-- C7, the code against the claim. `WaitForCompletion` compares the result
of the wait with `WAIT_FAILED` only: it never returns `false`, and on a valid
session it returns `true` when the wait times out, so the branch of
`GetEncodedData` that raises "Timeout when getting an encoded bitstream."
cannot run. At the failing input, the one slot of `busyWorld` is in flight and
the wait made at position 0 times out: `GetEncodedData` returns without
raising, having locked the bitstream and produced packet 0 as for a completed
frame; the slot is freed and `outputIndex` is 1. -/
theorem C7_timeout_is_taken_as_completion :
    (∀ (B : Backend) (index duration : Nat) (w : World),
      (Nvenc.WaitForCompletion B index duration w).1 ≠ Outcome.ok false) ∧
    (∀ (B : Backend) (index duration : Nat) (w : World), w.self.IsValid = true →
      B.wait w.proc.log.length = WaitResult.WAIT_TIMEOUT →
      (Nvenc.WaitForCompletion B index duration w).1 = Outcome.ok true) ∧
    timeoutBackend.wait busyWorld.proc.log.length = WaitResult.WAIT_TIMEOUT ∧
    (Nvenc.GetEncodedData timeoutBackend (busyWorld, [])).1 = Outcome.ok () ∧
    (Nvenc.GetEncodedData timeoutBackend (busyWorld, [])).2.2 = [⟨0, 1, [1]⟩] ∧
    (Nvenc.GetEncodedData timeoutBackend (busyWorld, [])).2.1.self.outputIndex_ = 1 ∧
    flags (Nvenc.GetEncodedData timeoutBackend (busyWorld, [])).2.1.self = [false] ∧
    (Nvenc.GetEncodedData timeoutBackend (busyWorld, [])).2.1.proc.log =
      [Call.WaitForSingleObject 9 10000, Call.nvEncLockBitstream 6 14, Call.nvEncUnlockBitstream 6 14] := by
  refine ⟨WaitForCompletion_ne_false, ?_, rfl, rfl, rfl, rfl, rfl, rfl⟩
  intro B index duration w hvalid hwait
  have hv : w.self.encoder_ ≠ 0 := by simpa [Nvenc.IsValid] using hvalid
  simp [hv, hwait]

/-- C8, the code against the claim. When the drain is at a pending index
whose slot is not in flight, `ThrowError` raises "Try to get an invalid
bitstream." and the `continue` written after it is not reached: on every
backend `GetEncodedData` stops there with the whole state as it is,
`outputIndex` still at that index. The drain never gets past it by itself:
once one index too many is pending, on a backend that never fails no sequence
of submissions and drain passes adds a packet to the encoder's accumulated
list. At the failing input, `eosWorld`, indices 0 and 1 are pending on the
one slot: the drain produces packet 0 and frees the slot, raises at index 1
and leaves `outputIndex` 1, short of `inputIndex` 2; a second drain from the
state it left raises again and changes nothing. -/
theorem C8_not_in_flight_index_raises_and_halts :
    (∀ (B : Backend) (s : World × List NvencEncodedData), s.1.self.IsValid = true →
      s.1.self.outputIndex_ < s.1.self.inputIndex_ →
      (resourceAt s.1.self s.1.self.GetOutputIndex).isEncoding_ = false →
      Nvenc.GetEncodedData B s = (Outcome.thrown "Try to get an invalid bitstream.", s) ∧
      ∀ fuel, Nvenc.GetEncodedDataLoop B (fuel + 1) s =
        (Outcome.thrown "Try to get an invalid bitstream.", s)) ∧
    (∀ (B : Backend), B.Accepts → B.WaitsDoNotFail →
      ∀ (ops : List AppOp) (a : App) (n : Nvenc), a.self.nvenc_ = some n → Overrun n →
        (runFeed B ops a).app.self.encodedDataList_ = a.self.encodedDataList_) ∧
    (Nvenc.GetEncodedData okBackend (eosWorld, [])).1 =
      Outcome.thrown "Try to get an invalid bitstream." ∧
    (Nvenc.GetEncodedData okBackend (eosWorld, [])).2.2 = [⟨0, 1, [1]⟩] ∧
    flags (Nvenc.GetEncodedData okBackend (eosWorld, [])).2.1.self = [false] ∧
    (Nvenc.GetEncodedData okBackend (eosWorld, [])).2.1.self.outputIndex_ = 1 ∧
    (Nvenc.GetEncodedData okBackend (eosWorld, [])).2.1.self.inputIndex_ = 2 ∧
    Nvenc.GetEncodedData okBackend ((Nvenc.GetEncodedData okBackend (eosWorld, [])).2.1, []) =
      (Outcome.thrown "Try to get an invalid bitstream.",
        ((Nvenc.GetEncodedData okBackend (eosWorld, [])).2.1, [])) := by
  refine ⟨?_, ?_, rfl, rfl, rfl, rfl, rfl, rfl⟩
  · intro B s hvalid hlt hfree
    have hv : s.1.self.encoder_ ≠ 0 := by simpa [Nvenc.IsValid] using hvalid
    have hloop : ∀ fuel, Nvenc.GetEncodedDataLoop B (fuel + 1) s =
        (Outcome.thrown "Try to get an invalid bitstream.", s) :=
      fun fuel => GetEncodedDataLoop_not_in_flight B fuel s hlt hfree
    refine ⟨?_, hloop⟩
    obtain ⟨k, hk⟩ : ∃ k, s.1.self.inputIndex_ - s.1.self.outputIndex_ = k + 1 :=
      ⟨s.1.self.inputIndex_ - s.1.self.outputIndex_ - 1, by omega⟩
    rw [run_GetEncodedData, if_neg hv, hk]
    exact hloop k
  · intro B hA hW ops a n hn h
    exact (runFeed_overrun B hA hW ops ⟨a, 0⟩ n hn h).1

/-- C9, the code against the claim. On a valid session whose target slot is
free, once the copy has succeeded `Encode` never returns `false` (the branch
that clears the flag and returns `false` cannot run), and whenever it does not
return `true` it leaves the target slot in flight and `inputIndex` unchanged.
At the failing input, `readyWorld`, the backend rejects the map-input call
(position 4) or the encode-picture call (position 5): `Encode` raises,
`inputIndex` stays 0 and the slot is left in flight; the next `Encode`, on a
backend that accepts everything, is turned away as back-pressure. -/
theorem C9_rejected_submission_leaves_slot_in_flight :
    (∀ (B : Backend) (source : Nat) (forceIdrFrame : Bool) (w : World),
      w.self.IsValid = true →
      (resourceAt w.self w.self.GetInputIndex).isEncoding_ = false →
      w.self.GetInputIndex < w.self.resources_.length →
      B.succeeded w.proc.log.length = true →
      (Nvenc.Encode B source forceIdrFrame w).1 ≠ Outcome.ok false ∧
      ((Nvenc.Encode B source forceIdrFrame w).1 ≠ Outcome.ok true →
        (resourceAt (Nvenc.Encode B source forceIdrFrame w).2.self
          w.self.GetInputIndex).isEncoding_ = true ∧
        (Nvenc.Encode B source forceIdrFrame w).2.self.inputIndex_ = w.self.inputIndex_)) ∧
    (Nvenc.Encode (rejectingBackend 4) 7 false readyWorld).1 =
      Outcome.thrown "s_nvenc.nvEncMapInputResource call failed: NV_ENC_ERR_INVALID_PARAM" ∧
    (Nvenc.Encode (rejectingBackend 4) 7 false readyWorld).2.self.inputIndex_ = 0 ∧
    flags (Nvenc.Encode (rejectingBackend 4) 7 false readyWorld).2.self = [true] ∧
    (Nvenc.Encode (rejectingBackend 5) 7 false readyWorld).1 =
      Outcome.thrown "s_nvenc.nvEncEncodePicture call failed: NV_ENC_ERR_INVALID_PARAM" ∧
    (Nvenc.Encode (rejectingBackend 5) 7 false readyWorld).2.self.inputIndex_ = 0 ∧
    flags (Nvenc.Encode (rejectingBackend 5) 7 false readyWorld).2.self = [true] ∧
    (Nvenc.Encode okBackend 8 false
      (Nvenc.Encode (rejectingBackend 5) 7 false readyWorld).2).1 = Outcome.ok false := by
  refine ⟨?_, by decide, rfl, rfl, by decide, rfl, rfl, rfl⟩
  intro B source f w hvalid hfree hin hc
  have hv : w.self.encoder_ ≠ 0 := by simpa [Nvenc.IsValid] using hvalid
  rcases Encode_after_copy B source f w hv hfree hin hc with h | ⟨⟨what, h⟩, h1, h2⟩
  · rw [h]
    exact ⟨by simp, fun hne => absurd rfl hne⟩
  · rw [h]
    exact ⟨by simp, fun _ => ⟨h1, h2⟩⟩

/-- C10, the code against the claim. Whenever the session's `Encode` returns
`false`, the encoder's `Encode` returns `true` and leaves the error string as
it was. At the failing input, `readyApp`, the session's slot is free and the
backend fails the copy of the source into the slot's input texture: the
session's `Encode` returns `false`, the encoder's `Encode` returns `true` and
records no error. -/
theorem C10_public_encode_true_when_session_refuses :
    (∀ (B : Backend) (source : Nat) (forceIdrFrame : Bool) (a : App) (n : Nvenc),
      a.self.nvenc_ = some n →
      (Nvenc.Encode B source forceIdrFrame ⟨n, a.proc⟩).1 = Outcome.ok false →
      (Encoder.Encode B source forceIdrFrame a).1 = Outcome.ok true ∧
      (Encoder.Encode B source forceIdrFrame a).2.self.error_ = a.self.error_) ∧
    (Nvenc.Encode copyFailBackend 7 false readyWorld).1 = Outcome.ok false ∧
    (Encoder.Encode copyFailBackend 7 false readyApp).1 = Outcome.ok true ∧
    (Encoder.Encode copyFailBackend 7 false readyApp).2.self.error_ = "" := by
  refine ⟨?_, rfl, rfl, rfl⟩
  intro B source f a n hn hfalse
  have hrun := Encoder_Encode_run B source f a n hn
  rcases hres : Nvenc.Encode B source f ⟨n, a.proc⟩ with ⟨r, w⟩
  rw [hres] at hrun hfalse
  simp only at hfalse
  subst hfalse
  simp only at hrun
  rw [hrun]
  exact ⟨rfl, rfl⟩

/-- C11: `CallNvencApi`, on a call the backend answers with status `s`,
returns `s` (with the call's position) exactly when `s` is `NV_ENC_SUCCESS` or
`NV_ENC_ERR_NEED_MORE_INPUT`, and returns at all only then. For every other
`s` it raises, and the message is the API name, `" call failed: "` and the
name the table pairs with `s`, or `"Unknown"` when the table has no pair for
`s`. -/
theorem C11_call_returns_status_or_raises_named_error (B : Backend) (apiName : String) (api : Call)
    (w : World) (s : NVENCSTATUS) (hs : B.status w.proc.log.length = s) :
    ((CallNvencApi B apiName api w).1 = Outcome.ok (s, w.proc.log.length) ↔
      (s = NVENCSTATUS.NV_ENC_SUCCESS ∨ s = NVENCSTATUS.NV_ENC_ERR_NEED_MORE_INPUT)) ∧
    ((∃ r, (CallNvencApi B apiName api w).1 = Outcome.ok r) ↔
      (s = NVENCSTATUS.NV_ENC_SUCCESS ∨ s = NVENCSTATUS.NV_ENC_ERR_NEED_MORE_INPUT)) ∧
    (¬ (s = NVENCSTATUS.NV_ENC_SUCCESS ∨ s = NVENCSTATUS.NV_ENC_ERR_NEED_MORE_INPUT) →
      (∀ name, (s, name) ∈ nvEncStatusErrorNameTable →
        (CallNvencApi B apiName api w).1 = Outcome.thrown (apiName ++ " call failed: " ++ name)) ∧
      ((∀ name, (s, name) ∉ nvEncStatusErrorNameTable) →
        (CallNvencApi B apiName api w).1 =
          Outcome.thrown (apiName ++ " call failed: " ++ "Unknown"))) := by
  subst hs
  by_cases h : B.status w.proc.log.length = NVENCSTATUS.NV_ENC_SUCCESS ∨
      B.status w.proc.log.length = NVENCSTATUS.NV_ENC_ERR_NEED_MORE_INPUT
  · have hn : ¬ (B.status w.proc.log.length ≠ NVENCSTATUS.NV_ENC_SUCCESS ∧
        B.status w.proc.log.length ≠ NVENCSTATUS.NV_ENC_ERR_NEED_MORE_INPUT) := by
      rcases h with h | h <;> simp [h]
    rw [run_CallNvencApi, if_neg hn]
    exact ⟨⟨fun _ => h, fun _ => rfl⟩, ⟨fun _ => h, fun _ => ⟨_, rfl⟩⟩, fun hne => absurd h hne⟩
  · have hn : B.status w.proc.log.length ≠ NVENCSTATUS.NV_ENC_SUCCESS ∧
        B.status w.proc.log.length ≠ NVENCSTATUS.NV_ENC_ERR_NEED_MORE_INPUT :=
      ⟨fun e => h (Or.inl e), fun e => h (Or.inr e)⟩
    rw [run_CallNvencApi, if_pos hn]
    refine ⟨⟨fun e => by simp at e, fun e => absurd e h⟩,
      ⟨fun ⟨r, e⟩ => by simp at e, fun e => absurd e h⟩, fun _ => ⟨fun name hmem => ?_, fun hno => ?_⟩⟩
    · rw [failureMessage_listed apiName _ name hmem]
    · rw [failureMessage_unlisted apiName _ hno]

/-- C11 at concrete inputs: a call rejected with `NV_ENC_ERR_INVALID_PARAM`
does not return and raises the table's name for it; a call answered with a
code the table does not list raises "Unknown"; a call answered with
`NV_ENC_SUCCESS` returns it. -/
theorem C11_witness :
    ((CallNvencApi (rejectingBackend 0) "s_nvenc.nvEncDestroyEncoder" (Call.nvEncDestroyEncoder 6)
        readyWorld).1 = Outcome.ok (NVENCSTATUS.NV_ENC_ERR_INVALID_PARAM, 0) ↔
      (NVENCSTATUS.NV_ENC_ERR_INVALID_PARAM = NVENCSTATUS.NV_ENC_SUCCESS ∨
        NVENCSTATUS.NV_ENC_ERR_INVALID_PARAM = NVENCSTATUS.NV_ENC_ERR_NEED_MORE_INPUT)) ∧
    (CallNvencApi (rejectingBackend 0) "s_nvenc.nvEncDestroyEncoder" (Call.nvEncDestroyEncoder 6)
        readyWorld).1 =
      Outcome.thrown "s_nvenc.nvEncDestroyEncoder call failed: NV_ENC_ERR_INVALID_PARAM" ∧
    (CallNvencApi { okBackend with status := fun _ => NVENCSTATUS.unlisted 99 }
        "s_nvenc.nvEncDestroyEncoder" (Call.nvEncDestroyEncoder 6) readyWorld).1 =
      Outcome.thrown "s_nvenc.nvEncDestroyEncoder call failed: Unknown" ∧
    (CallNvencApi okBackend "s_nvenc.nvEncDestroyEncoder" (Call.nvEncDestroyEncoder 6)
        readyWorld).1 = Outcome.ok (NVENCSTATUS.NV_ENC_SUCCESS, 0) :=
  ⟨(C11_call_returns_status_or_raises_named_error (rejectingBackend 0) "s_nvenc.nvEncDestroyEncoder"
      (Call.nvEncDestroyEncoder 6) readyWorld NVENCSTATUS.NV_ENC_ERR_INVALID_PARAM rfl).1,
    ((C11_call_returns_status_or_raises_named_error (rejectingBackend 0) "s_nvenc.nvEncDestroyEncoder"
      (Call.nvEncDestroyEncoder 6) readyWorld NVENCSTATUS.NV_ENC_ERR_INVALID_PARAM rfl).2.2
        (by decide)).1 "NV_ENC_ERR_INVALID_PARAM" (by decide),
    ((C11_call_returns_status_or_raises_named_error
      { okBackend with status := fun _ => NVENCSTATUS.unlisted 99 } "s_nvenc.nvEncDestroyEncoder"
      (Call.nvEncDestroyEncoder 6) readyWorld (NVENCSTATUS.unlisted 99) rfl).2.2
        (by decide)).2 (by intro name; simp [nvEncStatusErrorNameTable]),
    (C11_call_returns_status_or_raises_named_error okBackend "s_nvenc.nvEncDestroyEncoder"
      (Call.nvEncDestroyEncoder 6) readyWorld NVENCSTATUS.NV_ENC_SUCCESS rfl).1.2 (Or.inl rfl)⟩

/-- C12, the code against the claim. `Encoder::Resize` writes the requested
width and height into the encoder's description before it asks the session,
so `GetWidth` and `GetHeight` report them whatever the session does. The
session's own description is written after the reconfigure call: when the
teardown has returned and the backend rejects that call, `Nvenc::Resize`
raises and the session's description is unchanged. At the failing input,
`readyApp` at 640x480 with the reconfigure call (position 2) rejected,
`Resize(1280, 720)` leaves the session's description at 640x480 and the
encoder reporting 1280x720. -/
theorem C12_encoder_reports_requested_size_after_failed_reconfigure :
    (∀ (B : Backend) (width height : Nat) (a : App),
      Encoder.GetWidth (Encoder.Resize B width height a).2.self = width ∧
      Encoder.GetHeight (Encoder.Resize B width height a).2.self = height) ∧
    (∀ (B : Backend) (width height : Nat) (w w1 w2 w3 : World),
      ¬ (w.self.desc_.width = width ∧ w.self.desc_.height = height) →
      Nvenc.EndEncode B w = (Outcome.ok (), w1) →
      Nvenc.DestroyBitstreamBuffers B w1 = (Outcome.ok (), w2) →
      Nvenc.UnregisterResources B w2 = (Outcome.ok (), w3) →
      (B.status w3.proc.log.length ≠ NVENCSTATUS.NV_ENC_SUCCESS ∧
        B.status w3.proc.log.length ≠ NVENCSTATUS.NV_ENC_ERR_NEED_MORE_INPUT) →
      (Nvenc.Resize B width height w).1 =
          Outcome.thrown (failureMessage "s_nvenc.nvEncReconfigureEncoder"
            (B.status w3.proc.log.length)) ∧
        (Nvenc.Resize B width height w).2.self.desc_ = w.self.desc_) ∧
    (Nvenc.Resize (rejectingBackend 2) 1280 720 readyWorld).1 =
      Outcome.thrown "s_nvenc.nvEncReconfigureEncoder call failed: NV_ENC_ERR_INVALID_PARAM" ∧
    (Nvenc.Resize (rejectingBackend 2) 1280 720 readyWorld).2.proc.log =
      [Call.nvEncDestroyBitstreamBuffer 6 14, Call.nvEncUnregisterResource 6 13,
        Call.nvEncReconfigureEncoder 6 1280 720] ∧
    (Nvenc.Resize (rejectingBackend 2) 1280 720 readyWorld).2.self.desc_ = ⟨1, 640, 480, 87, 30⟩ ∧
    Encoder.GetWidth readyApp.self = 640 ∧
    Encoder.GetHeight readyApp.self = 480 ∧
    (Encoder.Resize (rejectingBackend 2) 1280 720 readyApp).2.self.nvenc_ =
      some (Nvenc.Resize (rejectingBackend 2) 1280 720 readyWorld).2.self ∧
    Encoder.GetWidth (Encoder.Resize (rejectingBackend 2) 1280 720 readyApp).2.self = 1280 ∧
    Encoder.GetHeight (Encoder.Resize (rejectingBackend 2) 1280 720 readyApp).2.self = 720 ∧
    (Encoder.Resize (rejectingBackend 2) 1280 720 readyApp).2.self.error_ =
      "s_nvenc.nvEncReconfigureEncoder call failed: NV_ENC_ERR_INVALID_PARAM" :=
  ⟨Encoder_Resize_desc, Resize_reconfigure_rejected, by decide, rfl, rfl, rfl, rfl, rfl, rfl, rfl,
    by decide⟩

/-- C13 as stated fails: `readyApp` is valid; the backend rejects the
reconfigure call of `Resize(1280, 720)`, the session's resize raises and the
error string is set, and `IsValid` still returns `true`. -/
theorem C13_counterexample :
    Encoder.IsValid readyApp.self = true ∧
    (Nvenc.Resize (rejectingBackend 2) 1280 720 readyWorld).1 =
      Outcome.thrown "s_nvenc.nvEncReconfigureEncoder call failed: NV_ENC_ERR_INVALID_PARAM" ∧
    (Encoder.Resize (rejectingBackend 2) 1280 720 readyApp).2.self.error_ =
      "s_nvenc.nvEncReconfigureEncoder call failed: NV_ENC_ERR_INVALID_PARAM" ∧
    Encoder.IsValid (Encoder.Resize (rejectingBackend 2) 1280 720 readyApp).2.self = true :=
  ⟨rfl, by decide, by decide, rfl⟩

/-- C13 as amended: for every valid encoder, after a `Resize` in which the
session's resize raises, whatever step of it raised, `IsValid` still returns
`true`; the failure shows in the error string alone, which holds the message
raised and is not empty. -/
theorem C13_failed_resize_leaves_encoder_valid (B : Backend) (width height : Nat) (a : App)
    (n : Nvenc) (what : String)
    (hvalid : Encoder.IsValid a.self = true) (hn : a.self.nvenc_ = some n)
    (hfail : (Nvenc.Resize B width height ⟨n, a.proc⟩).1 = Outcome.thrown what) :
    Encoder.IsValid (Encoder.Resize B width height a).2.self = true ∧
    (Encoder.Resize B width height a).2.self.error_ = what ∧
    (Encoder.Resize B width height a).2.self.error_ ≠ "" := by
  obtain ⟨r1, r2, r3⟩ := Encoder_Resize_thrown B width height a n what hn hfail
  have hk := (keeps_encoder_Resize B width height).keeps ⟨n, a.proc⟩
  simp only at hk
  have hne := (raises_Resize B width height).nonempty ⟨n, a.proc⟩ what hfail
  refine ⟨?_, r3, by rw [r3]; exact hne⟩
  simp only [Encoder.IsValid, hn, Nvenc.IsValid, Bool.and_eq_true] at hvalid
  simp only [Encoder.IsValid, r1, r2, Nvenc.IsValid, hk, Bool.and_eq_true]
  exact hvalid

/-- C13 as amended, at a concrete input: `readyApp`, with the reconfigure
call rejected. -/
theorem C13_witness :
    Encoder.IsValid (Encoder.Resize (rejectingBackend 2) 1280 720 readyApp).2.self = true ∧
    (Encoder.Resize (rejectingBackend 2) 1280 720 readyApp).2.self.error_ =
      "s_nvenc.nvEncReconfigureEncoder call failed: NV_ENC_ERR_INVALID_PARAM" ∧
    (Encoder.Resize (rejectingBackend 2) 1280 720 readyApp).2.self.error_ ≠ "" :=
  C13_failed_resize_leaves_encoder_valid (rejectingBackend 2) 1280 720 readyApp readySession
    "s_nvenc.nvEncReconfigureEncoder call failed: NV_ENC_ERR_INVALID_PARAM" rfl rfl (by decide)

/-- C14, the code against the claim. `UnmapInputResource` tests
`!resource.inputResource_`: on a valid session and a slot whose mapped
reference is set it makes no call and clears nothing, so a pass of the drain
that returns leaves the reference set and makes the wait, lock and unlock
calls only. At the failing input, `readyWorld` on a backend that accepts
everything: `Encode` maps the slot (reference 5), `GetEncodedData` returns
with packet 0 and the reference still 5, no unmap call in the log, and the
second `Encode` maps the slot again (reference 14). -/
theorem C14_drain_leaves_mapped_reference_set :
    (∀ (B : Backend) (index : Nat) (w : World), w.self.IsValid = true →
      (resourceAt w.self index).inputResource_ ≠ 0 →
      Nvenc.UnmapInputResource B index w = (Outcome.ok (), w)) ∧
    (∀ (B : Backend) (s : World × List NvencEncodedData),
      (Nvenc.GetEncodedDataBody B s).1 = Outcome.ok () →
      (resourceAt s.1.self s.1.self.GetOutputIndex).inputResource_ ≠ 0 →
      (resourceAt (Nvenc.GetEncodedDataBody B s).2.1.self s.1.self.GetOutputIndex).inputResource_ =
          (resourceAt s.1.self s.1.self.GetOutputIndex).inputResource_ ∧
        (Nvenc.GetEncodedDataBody B s).2.1.proc.log =
          s.1.proc.log ++
            [Call.WaitForSingleObject
                (resourceAt s.1.self s.1.self.GetOutputIndex).completionEvent_ 10000,
              Call.nvEncLockBitstream s.1.self.encoder_
                (resourceAt s.1.self s.1.self.GetOutputIndex).bitstreamBuffer_,
              Call.nvEncUnlockBitstream s.1.self.encoder_
                (resourceAt s.1.self s.1.self.GetOutputIndex).bitstreamBuffer_]) ∧
    (Nvenc.Encode okBackend 7 false readyWorld).1 = Outcome.ok true ∧
    (resourceAt (Nvenc.Encode okBackend 7 false readyWorld).2.self 0).inputResource_ = 5 ∧
    (Nvenc.GetEncodedData okBackend ((Nvenc.Encode okBackend 7 false readyWorld).2, [])).1 =
      Outcome.ok () ∧
    (Nvenc.GetEncodedData okBackend ((Nvenc.Encode okBackend 7 false readyWorld).2, [])).2.2 =
      [⟨0, 1, [7]⟩] ∧
    (resourceAt (Nvenc.GetEncodedData okBackend
      ((Nvenc.Encode okBackend 7 false readyWorld).2, [])).2.1.self 0).inputResource_ = 5 ∧
    (Nvenc.GetEncodedData okBackend
      ((Nvenc.Encode okBackend 7 false readyWorld).2, [])).2.1.proc.log =
      [Call.OpenSharedResource 12, Call.CopyResource 1 7, Call.Flush, Call.ReleaseTexture 1,
        Call.nvEncMapInputResource 6 13,
        Call.nvEncEncodePicture 6 ⟨5, 640, 480, 14, 9, 0, false, false⟩,
        Call.WaitForSingleObject 9 10000, Call.nvEncLockBitstream 6 14,
        Call.nvEncUnlockBitstream 6 14] ∧
    (Nvenc.Encode okBackend 8 false (Nvenc.GetEncodedData okBackend
      ((Nvenc.Encode okBackend 7 false readyWorld).2, [])).2.1).1 = Outcome.ok true ∧
    (Nvenc.Encode okBackend 8 false (Nvenc.GetEncodedData okBackend
      ((Nvenc.Encode okBackend 7 false readyWorld).2, [])).2.1).2.proc.log.drop 9 =
      [Call.OpenSharedResource 12, Call.CopyResource 10 8, Call.Flush, Call.ReleaseTexture 10,
        Call.nvEncMapInputResource 6 13,
        Call.nvEncEncodePicture 6 ⟨14, 640, 480, 14, 9, 1, false, false⟩] ∧
    (resourceAt (Nvenc.Encode okBackend 8 false (Nvenc.GetEncodedData okBackend
      ((Nvenc.Encode okBackend 7 false readyWorld).2, [])).2.1).2.self 0).inputResource_ = 14 := by
  refine ⟨?_, GetEncodedDataBody_mapped, rfl, rfl, rfl, rfl, rfl, rfl, rfl, rfl, rfl⟩
  intro B index w hvalid hm
  exact UnmapInputResource_mapped B index w (by simpa [Nvenc.IsValid] using hvalid) hm

/-- C16: a pass of `UpdateGetEncodedData` appends to the accumulated list
only when `GetEncodedData` returns. When `GetEncodedData` raises, leaving
the session `w` and the local vector `data`, the accumulated list is
unchanged, the session is `w`, so that `outputIndex` keeps the advance the
pass made, the packets of the slots it passed were in `data` (consecutive
indices from the old `outputIndex`, at least one for each index passed) and
are dropped, and the error string is the message raised, which is not empty.
When `GetEncodedData` returns, the list is extended by `data` and the error
string is left as it was. -/
theorem C16_drain_pass_appends_only_when_it_returns (B : Backend) (a : App) (n : Nvenc)
    (hn : a.self.nvenc_ = some n) :
    (∀ (what : String) (w : World) (data : List NvencEncodedData),
      Nvenc.GetEncodedData B (⟨n, a.proc⟩, []) = (Outcome.thrown what, (w, data)) →
      (Encoder.UpdateGetEncodedData B a).2.self.encodedDataList_ = a.self.encodedDataList_ ∧
      (Encoder.UpdateGetEncodedData B a).2.self.nvenc_ = some w.self ∧
      n.outputIndex_ ≤ w.self.outputIndex_ ∧
      w.self.outputIndex_ - n.outputIndex_ ≤ data.length ∧
      data.map (fun ed => ed.index) = List.range' n.outputIndex_ data.length ∧
      (Encoder.UpdateGetEncodedData B a).2.self.error_ = what ∧
      (Encoder.UpdateGetEncodedData B a).2.self.error_ ≠ "") ∧
    (∀ (w : World) (data : List NvencEncodedData),
      Nvenc.GetEncodedData B (⟨n, a.proc⟩, []) = (Outcome.ok (), (w, data)) →
      (Encoder.UpdateGetEncodedData B a).2.self.encodedDataList_ =
        a.self.encodedDataList_ ++ data ∧
      (Encoder.UpdateGetEncodedData B a).2.self.nvenc_ = some w.self ∧
      (Encoder.UpdateGetEncodedData B a).2.self.error_ = a.self.error_) := by
  constructor
  · intro what w data h
    have hne := (raises_GetEncodedData B).nonempty (⟨n, a.proc⟩, []) what (by rw [h])
    have hrun : (Encoder.UpdateGetEncodedData B a).2.self =
        { a.self with nvenc_ := some w.self, error_ := what } := by
      simp only [Encoder.UpdateGetEncodedData, hn, h]
    rw [hrun]
    refine ⟨rfl, rfl, ?_, ?_, ?_, rfl, hne⟩
    · by_cases hv : n.encoder_ = 0
      · simp [hv] at h
        rw [← h.2.1]
      · have hf := (GetEncodedDataLoop_frame B (n.inputIndex_ - n.outputIndex_)
          (⟨n, a.proc⟩, [])).2.2.2.1
        rw [run_GetEncodedData, if_neg hv] at h
        rw [h] at hf
        exact hf
    · by_cases hv : n.encoder_ = 0
      · simp [hv] at h
        rw [← h.2.1]
        simp
      · obtain ⟨pk, p1, -, p3, -, -⟩ := GetEncodedDataLoop_drained B
          (n.inputIndex_ - n.outputIndex_) (⟨n, a.proc⟩, [])
        rw [run_GetEncodedData, if_neg hv] at h
        rw [h] at p1 p3
        simp only [List.nil_append] at p1
        rw [p1]
        exact p3
    · by_cases hv : n.encoder_ = 0
      · simp [hv] at h
        rw [h.2.2]
        rfl
      · obtain ⟨pk, p1, p2, -, -, -⟩ := GetEncodedDataLoop_drained B
          (n.inputIndex_ - n.outputIndex_) (⟨n, a.proc⟩, [])
        rw [run_GetEncodedData, if_neg hv] at h
        rw [h] at p1
        simp only [List.nil_append] at p1
        rw [p1]
        exact p2
  · intro w data h
    simp only [Encoder.UpdateGetEncodedData, hn, h, and_self]

/-- C16 at a concrete input: the session of `eosApp` has indices 0 and 1
pending on its one slot. The drain takes packet 0, frees the slot and raises
at index 1: the accumulated list is as it was, `outputIndex` is 1 and the
error string is the message raised. -/
theorem C16_witness :
    Nvenc.GetEncodedData okBackend (⟨eosWorld.self, eosApp.proc⟩, []) =
      (Outcome.thrown "Try to get an invalid bitstream.",
        ((Nvenc.GetEncodedData okBackend (eosWorld, [])).2.1, [⟨0, 1, [1]⟩])) ∧
    (Encoder.UpdateGetEncodedData okBackend eosApp).2.self.encodedDataList_ = [⟨9, 1, [9]⟩] ∧
    (Encoder.UpdateGetEncodedData okBackend eosApp).2.self.nvenc_ =
      some (Nvenc.GetEncodedData okBackend (eosWorld, [])).2.1.self ∧
    (Nvenc.GetEncodedData okBackend (eosWorld, [])).2.1.self.outputIndex_ = 1 ∧
    (Encoder.UpdateGetEncodedData okBackend eosApp).2.self.error_ =
      "Try to get an invalid bitstream." :=
  have h := (C16_drain_pass_appends_only_when_it_returns okBackend eosApp eosWorld.self rfl).1
    "Try to get an invalid bitstream." (Nvenc.GetEncodedData okBackend (eosWorld, [])).2.1
    [⟨0, 1, [1]⟩] rfl
  ⟨rfl, h.1, h.2.1, rfl, h.2.2.2.2.2.1⟩

end uNvEncoder
